import Mathlib

/-!
# Expression resolver of the C++ code model (`ResolveExpression.cpp`)

A shallow embedding of `src/libs/cplusplus/ResolveExpression.cpp`.

* Symbols and scopes belong to an external symbol table.  A `Symbol *` is a
  handle (`SymbolId`); what the resolver reads through such a pointer is given
  by the table `LookupContext.symbol`.  A null `Symbol *` is `none`.
* Types are value trees.  `Function`, `Class` and `ObjCClass` are symbols that
  are also types, so the corresponding type variants carry the symbol handle.
  Equality of candidates is equality of these values.
* The mutable field `_results` is threaded through the visitor explicitly.
* Operations that abort (`Q_ASSERT`, `QList::first()` on an empty list, a
  member read through a null pointer) return `Except.error`.
* Collaborators declared outside this file (name lookup, class/namespace
  views, template instantiation, `Semantic::check`,
  `FullySpecifiedType::simplified`) are fields of `LookupContext`; the
  classification of a numeric literal and `Scope::enclosingClassScope()` are
  data of the literal and of the scope.
* The lists that the lookup collaborators return hold symbols, never null, and
  the parameters of a function are `Argument`s: both by type.
* The expression trees hold the node kinds that this file visits; a node kind
  for which the file has no `visit` is traversed by the base class
  `ASTVisitor` and is not part of the model, except `QtMethod`, whose
  declarator is kept as its declarator-id name, and the expression
  statements of a compound expression.
-/

set_option autoImplicit false

namespace CPlusPlus

/-! ## Data model -/

/-- A `Symbol *` that is not null: the identity of a declared entity. -/
abbrev SymbolId := Nat

/-- Integer kinds of `IntegerType`. -/
inductive IntegerKind
  | Char | WideChar | Bool | Short | Int | Long | LongLong
  deriving DecidableEq, Repr

/-- Floating kinds of `FloatType`. -/
inductive FloatKind
  | Float | Double | LongDouble
  deriving DecidableEq, Repr

/-- Operator kinds of `OperatorNameId` that the resolver asks for, and some others. -/
inductive OperatorKind
  | FunctionCallOp | ArrayAccessOp | ArrowOp | PlusOp | MinusOp | StarOp | EqualOp
  deriving DecidableEq, Repr

mutual
/-- A `const Name *`: null, or one of the name variants. -/
inductive Name
  | null
  | nameId (identifier : String)
  | operatorNameId (kind : OperatorKind)
  | qualifiedNameId (names : NameList) (isGlobal : Bool)
  | templateNameId (identifier : String) (templateArguments : TypeList)
/-- A sequence of names (the components of a qualified name). -/
inductive NameList
  | nil
  | cons (head : Name) (tail : NameList)
/-- A type with its qualifiers (`FullySpecifiedType`). -/
inductive FullySpecifiedType
  | mk (type : Type_) (isConst isVolatile isUnsigned : Bool)
/-- The type variants the resolver distinguishes (`Type *`). -/
inductive Type_
  | undefinedType
  | voidType
  | integerType (kind : IntegerKind)
  | floatType (kind : FloatKind)
  | pointerType (elementType : FullySpecifiedType)
  | arrayType (elementType : FullySpecifiedType)
  | namedType (name : Name)
  | function (symbol : SymbolId)
  | klass (symbol : SymbolId)
  | objcClass (symbol : SymbolId)
/-- A sequence of types (the arguments of a template-id). -/
inductive TypeList
  | nil
  | cons (head : FullySpecifiedType) (tail : TypeList)
end

deriving instance DecidableEq for Name, NameList, FullySpecifiedType, Type_, TypeList
deriving instance Repr for Name, NameList, FullySpecifiedType, Type_, TypeList

namespace NameList

/-- The components as a list. -/
def toList : NameList → List Name
  | nil => []
  | cons h t => h :: toList t

/-- The sequence holding the given components. -/
def ofList : List Name → NameList
  | [] => nil
  | h :: t => cons h (ofList t)

end NameList

namespace FullySpecifiedType

/-- The constructor `FullySpecifiedType(Type *)`: no qualifier set. -/
def ofType (t : Type_) : FullySpecifiedType := mk t false false false

/-- The underlying type, `type()` and `operator->`. -/
def type : FullySpecifiedType → Type_
  | mk t _ _ _ => t

/-- The `const` qualifier. -/
def isConst : FullySpecifiedType → Bool
  | mk _ c _ _ => c

/-- The `volatile` qualifier. -/
def isVolatile : FullySpecifiedType → Bool
  | mk _ _ v _ => v

/-- The `unsigned` qualifier. -/
def isUnsigned : FullySpecifiedType → Bool
  | mk _ _ _ u => u

/-- Modelled from the spec: a type is a wrapper of qualifier flags around one underlying
type, and `setType` (declared outside this file) replaces the underlying type and
leaves the flags as they are. -/
def setType : FullySpecifiedType → Type_ → FullySpecifiedType
  | mk _ c v u, t => mk t c v u

/-- Set the `const` qualifier (`setConst`). -/
def setConst : FullySpecifiedType → Bool → FullySpecifiedType
  | mk t _ v u, c => mk t c v u

/-- Set the `unsigned` qualifier (`setUnsigned`). -/
def setUnsigned : FullySpecifiedType → Bool → FullySpecifiedType
  | mk t c v _, u => mk t c v u

end FullySpecifiedType

/-- A `Scope *`: null, or a node of the enclosing-scope chain with what the
resolver reads from it. -/
inductive Scope
  | null
  | scope (isFunctionScope isBlockScope isNamespaceScope : Bool) (owner : Option SymbolId)
      (enclosingScope : Scope) (enclosingClassScope : Scope)
  deriving DecidableEq, Repr

/-- The dynamic class of a symbol, which decides the `asX()` casts. -/
inductive SymbolKind
  | Declaration | Argument | TypenameArgument | Function | Class | ObjCClass | Namespace
  deriving DecidableEq, Repr

/-- A formal parameter of a function (`Argument`). -/
structure Argument where
  type : FullySpecifiedType
  hasInitializer : Bool
  deriving DecidableEq, Repr

/-- What the resolver reads through a `Symbol *`.  The fields `returnType`,
`arguments`, `isVariadic` and `isAmbiguous` are read through a `Function *`,
and `members` through a `Class *` or `ObjCClass *`. -/
structure Symbol where
  kind : SymbolKind := SymbolKind.Declaration
  name : Name := Name.null
  type : FullySpecifiedType := FullySpecifiedType.ofType Type_.undefinedType
  isTypedef : Bool := false
  scope : Scope := Scope.null
  returnType : FullySpecifiedType := FullySpecifiedType.ofType Type_.undefinedType
  arguments : List Argument := []
  isVariadic : Bool := false
  isAmbiguous : Bool := false
  members : Scope := Scope.null
  deriving Repr

/-- A `Function *`: the view of a function symbol. -/
abbrev Function := Symbol

namespace Symbol

/-- Number of declared parameters, `Function::argumentCount()`. -/
def argumentCount (f : Symbol) : Nat := f.arguments.length

end Symbol

/-- The resolver's unit of result: a type and the last visible symbol. -/
structure LookupItem where
  type : FullySpecifiedType
  lastVisibleSymbol : Option SymbolId
  deriving DecidableEq, Repr

namespace LookupItem

/-- Replace the type of a candidate (`setType`). -/
def setType (p : LookupItem) (ty : FullySpecifiedType) : LookupItem :=
  { p with type := ty }

end LookupItem

/-! ## Collaborators -/

/-- The ways a run of the resolver can abort instead of returning. -/
inductive Fault
  | assertion     -- a failed Q_ASSERT
  | emptyList     -- QList::first() on an empty list
  | nullPointer   -- a member accessed through a null pointer
  | outOfRange    -- an array read past its end
  deriving DecidableEq, Repr

/-- The merged member view of the declarations of one name (`ClassOrNamespace`). -/
structure ClassOrNamespace where
  find : Name → List SymbolId

/-- A parsed type-id (`TypeIdAST`), read only by `Semantic::check`. -/
structure TypeIdAST where
  id : Nat
  deriving DecidableEq, Repr

/-- A parsed new-type-id (`NewTypeIdAST`), read only by `Semantic::check`. -/
structure NewTypeIdAST where
  id : Nat
  deriving DecidableEq, Repr

/-- The lookup context and the other collaborators the resolver calls.
None of them is defined in this file, so each is a parameter. -/
structure LookupContext where
  /-- The external symbol table: what is read through a `Symbol *`. -/
  symbol : SymbolId → Symbol
  /-- Name lookup `lookup(name, Scope *)`. -/
  lookupInScope : Name → Scope → List SymbolId
  /-- Name lookup `lookup(name, Symbol *lastVisibleSymbol)`. -/
  lookup : Name → Option SymbolId → List SymbolId
  /-- The view `classOrNamespace(name, lastVisibleSymbol)`, possibly null. -/
  classOrNamespace : Name → Option SymbolId → Option ClassOrNamespace
  /-- Template instantiation `GenTemplateInstance::instantiate(className, candidate, control)`. -/
  instantiate : Name → SymbolId → FullySpecifiedType
  /-- The symbol `thisDocument()->globalNamespace()`, possibly null. -/
  globalNamespace : Option SymbolId
  /-- The type `sem.check(type_id, expressionDocument()->globalSymbols())`. -/
  check : TypeIdAST → FullySpecifiedType
  /-- The type that the two `sem.check` calls of `visit(NewExpressionAST *)` give. -/
  checkNewTypeId : NewTypeIdAST → FullySpecifiedType
  /-- The method `FullySpecifiedType::simplified()`. -/
  simplified : FullySpecifiedType → FullySpecifiedType

/-- Token kinds the resolver compares against, and some other operators. -/
inductive TokenKind
  | T_COMMA | T_AMPER | T_STAR | T_ARROW | T_DOT
  | T_PLUS | T_MINUS | T_EXCLAIM | T_TILDE | T_PLUS_PLUS | T_MINUS_MINUS
  | T_EQUAL | T_LESS | T_COLON_COLON
  deriving DecidableEq, Repr

/-- The classification of a numeric literal token (`NumericLiteral`). -/
structure NumericLiteral where
  isChar : Bool := false
  isWideChar : Bool := false
  isInt : Bool := false
  isLong : Bool := false
  isLongLong : Bool := false
  isFloat : Bool := false
  isDouble : Bool := false
  isLongDouble : Bool := false
  isUnsigned : Bool := false
  deriving DecidableEq, Repr

/-! ## The resolver -/

/-- The loop of `removeDuplicates`: `uniqueList` collects the elements kept so far,
`processed` is the set of elements seen so far. -/
def removeDuplicates.loop {α : Type} [DecidableEq α] : List α → List α → List α → List α
  | [], uniqueList, _ => uniqueList
  | r :: rest, uniqueList, processed =>
    if r ∈ processed then removeDuplicates.loop rest uniqueList processed
    else removeDuplicates.loop rest (uniqueList ++ [r]) (r :: processed)

/-- The helper `removeDuplicates(results)`. -/
def removeDuplicates {α : Type} [DecidableEq α] (results : List α) : List α :=
  removeDuplicates.loop results [] []

/-- Following the words of the specification ("keeps exactly the first occurrence of
each distinct element"): the elements of `xs` at the positions whose element occurs
neither in `seen` nor at an earlier position of `xs`. -/
def firstOccurrencesAfter {α : Type} [DecidableEq α] (seen xs : List α) : List α :=
  (List.range xs.length).filterMap fun i =>
    match xs[i]? with
    | some x => if x ∈ seen ++ xs.take i then none else some x
    | none => none

/-- Following the words of the specification: the sublist of `xs` that keeps, of every
element, the first occurrence only. -/
def firstOccurrences {α : Type} [DecidableEq α] (xs : List α) : List α :=
  firstOccurrencesAfter [] xs

/-- The resolver object: its scope, its lookup context and the current
candidate set. -/
structure ResolveExpression where
  _scope : Scope
  _context : LookupContext
  _results : List LookupItem := []

namespace ResolveExpression

/-- The constructor `ResolveExpression(Symbol *lastVisibleSymbol, context)`. -/
def ofSymbol (lastVisibleSymbol : Option SymbolId) (context : LookupContext) :
    Except Fault ResolveExpression :=
  let lastVisibleSymbol :=
    match lastVisibleSymbol with
    | none => context.globalNamespace
    | some s => some s
  match lastVisibleSymbol with
  | none => Except.error Fault.nullPointer
  | some s => Except.ok { _scope := (context.symbol s).scope, _context := context, _results := [] }

/-- The constructor `ResolveExpression(Scope *scope, context)`. -/
def ofScope (scope : Scope) (context : LookupContext) : ResolveExpression :=
  { _scope := scope, _context := context, _results := [] }

/-- The method `switchResults`: install `results`, return the previous set. -/
def switchResults (self : ResolveExpression) (results : List LookupItem) :
    List LookupItem × ResolveExpression :=
  let previousResults := self._results
  (previousResults, { self with _results := results })

/-- The overload `addResult(const LookupItem &)`. -/
def addResultItem (self : ResolveExpression) (r : LookupItem) : Except Fault ResolveExpression :=
  if r.lastVisibleSymbol = none then Except.error Fault.assertion
  else if r ∈ self._results then Except.ok self
  else Except.ok { self with _results := self._results ++ [r] }

/-- The symbol that `addResult(ty, symbol)` uses when `symbol` is null. -/
def defaultSymbol (self : ResolveExpression) : Option SymbolId :=
  match self._scope with
  | Scope.scope _ _ _ o _ _ => o
  | Scope.null => self._context.globalNamespace

/-- The overload `addResult(const FullySpecifiedType &, Symbol *)`. -/
def addResult (self : ResolveExpression) (ty : FullySpecifiedType) (symbol : Option SymbolId) :
    Except Fault ResolveExpression :=
  let symbol :=
    match symbol with
    | none => self.defaultSymbol
    | some s => some s
  self.addResultItem { type := ty, lastVisibleSymbol := symbol }

/-- The method `addResults`. -/
def addResults (self : ResolveExpression) (results : List LookupItem) :
    Except Fault ResolveExpression :=
  results.foldlM (fun s r => s.addResultItem r) self

/-- The loop of `maybeValidPrototype`, entered at index `minNumberArguments` with the
parameters from that index on: it stops at the first parameter with an initializer. -/
def minNumberArgumentsFrom : List Argument → Nat → Nat
  | [], minNumberArguments => minNumberArguments
  | arg :: rest, minNumberArguments =>
    if arg.hasInitializer then minNumberArguments
    else minNumberArgumentsFrom rest (minNumberArguments + 1)

/-- The method `maybeValidPrototype(funTy, actualArgumentCount)`. -/
def maybeValidPrototype (funTy : Function) (actualArgumentCount : Nat) : Bool :=
  let minNumberArguments := minNumberArgumentsFrom funTy.arguments 0
  if actualArgumentCount < minNumberArguments then false
  else if !funTy.isVariadic && decide (actualArgumentCount > funTy.argumentCount) then false
  else true

/-- The `T_AMPER` branch of `visit(UnaryExpressionAST *)`, applied to `_results`. -/
def addressOf (results : List LookupItem) : List LookupItem :=
  results.map fun p =>
    let ty := p.type
    let ty := ty.setType (Type_.pointerType ty)
    p.setType ty

/-- The `T_STAR` branch of `visit(UnaryExpressionAST *)`, applied to `_results`. -/
def dereference (results : List LookupItem) : List LookupItem :=
  results.filterMap fun p =>
    match p.type.type with
    | Type_.pointerType elementType => some (p.setType elementType)
    | _ => none

/-- The test `elementTy->isNamedType() || elementTy->isClassType()`. -/
def isNamedOrClassType (ty : FullySpecifiedType) : Bool :=
  match ty.type with
  | Type_.namedType _ => true
  | Type_.klass _ => true
  | _ => false

/-- The test `ty->isNamedType()`. -/
def isNamedType (ty : FullySpecifiedType) : Bool :=
  match ty.type with
  | Type_.namedType _ => true
  | _ => false

/-- The test `p.type()->asPointerType() != 0`. -/
def isPointerType (ty : FullySpecifiedType) : Bool :=
  match ty.type with
  | Type_.pointerType _ => true
  | _ => false

/-- The cast `symbol->asFunction()`: the symbol itself when it is a function, else null. -/
def asFunction (context : LookupContext) (s : SymbolId) : Option SymbolId :=
  if (context.symbol s).kind = SymbolKind.Function then some s else none

/-- The name that `thisObject` builds from the qualified name of a function defined
outside its class: `q->nameAt(0)` for a global one-component name, else the
qualified name made of all components but the last.  Without any component the
count `q->nameCount() - 1` wraps around (unsigned, 32 bits) and the components are
read past their end. -/
def nestedNameSpecifier (names : NameList) (isGlobal : Bool) : Except Fault Name :=
  match names.toList with
  | [] => Except.error Fault.outOfRange
  | [n] => if isGlobal then Except.ok n else Except.ok (Name.qualifiedNameId NameList.nil false)
  | n :: m :: rest =>
    Except.ok (Name.qualifiedNameId (NameList.ofList (n :: m :: rest).dropLast) false)

/-- The loop of `thisObject`, entered with the loop variable `scope`. -/
def thisObjectFrom (self : ResolveExpression) : Scope → Except Fault ResolveExpression
  | Scope.null => Except.ok self
  | Scope.scope isFunctionScope _ _ owner enclosingScope enclosingClassScope =>
    if isFunctionScope then
      match owner with
      | none => Except.error Fault.nullPointer
      | some o =>
        let func := asFunction self._context o
        match enclosingClassScope with
        | Scope.scope _ _ _ classOwner _ _ =>
          match classOwner with
          | none => Except.error Fault.nullPointer
          | some k =>
            if (self._context.symbol k).kind = SymbolKind.Class then
              let classTy := FullySpecifiedType.ofType (Type_.namedType (self._context.symbol k).name)
              let ptrTy := FullySpecifiedType.ofType (Type_.pointerType classTy)
              self.addResult ptrTy func
            else Except.error Fault.nullPointer
        | Scope.null =>
          match func with
          | none => Except.error Fault.nullPointer
          | some f =>
            match (self._context.symbol f).name with
            | Name.null => Except.error Fault.nullPointer
            | Name.qualifiedNameId names isGlobal =>
              match nestedNameSpecifier names isGlobal with
              | Except.error e => Except.error e
              | Except.ok n =>
                let classTy := FullySpecifiedType.ofType (Type_.namedType n)
                let ptrTy := FullySpecifiedType.ofType (Type_.pointerType classTy)
                self.addResult ptrTy func
            | _ => thisObjectFrom self enclosingScope
    else thisObjectFrom self enclosingScope

/-- The method `thisObject()`. -/
def thisObject (self : ResolveExpression) : Except Fault ResolveExpression :=
  thisObjectFrom self self._scope

/-- The last component of a qualified name, `unqualifiedNameId()`; null when there is none. -/
def unqualifiedNameId (names : NameList) : Name :=
  names.toList.getLastD Name.null

/-- One round of the loop of `resolveMember(memberName, Class *, className)`. -/
def resolveMemberStep (self : ResolveExpression) (className : Name)
    (results : List LookupItem) (candidate : SymbolId) : Except Fault (List LookupItem) :=
  let ty := (self._context.symbol candidate).type
  let unqualified :=
    match className with
    | Name.qualifiedNameId names _ => unqualifiedNameId names
    | _ => className
  match unqualified with
  | Name.null => Except.error Fault.nullPointer
  | Name.templateNameId _ _ =>
    Except.ok (results ++ [{ type := self._context.instantiate unqualified candidate,
                             lastVisibleSymbol := some candidate }])
  | _ => Except.ok (results ++ [{ type := ty, lastVisibleSymbol := some candidate }])

/-- The method `resolveMember(memberName, Class *klass, className)`. -/
def resolveMember (self : ResolveExpression) (memberName : Name) (klass : Option SymbolId)
    (className : Name) : Except Fault (List LookupItem) :=
  match klass with
  | none => Except.ok []
  | some k =>
    let className := if className = Name.null then (self._context.symbol k).name else className
    if className = Name.null then Except.ok []
    else
      let candidates := self._context.lookupInScope memberName (self._context.symbol k).members
      match candidates.foldlM (resolveMemberStep self className) [] with
      | Except.error e => Except.error e
      | Except.ok results => Except.ok (removeDuplicates results)

/-- The method `resolveMember(memberName, ObjCClass *klass)`. -/
def resolveMemberObjC (self : ResolveExpression) (memberName : Name) (klass : Option SymbolId) :
    List LookupItem :=
  match klass with
  | none => []
  | some k =>
    if memberName = Name.null then []
    else
      let candidates := self._context.lookupInScope memberName (self._context.symbol k).members
      removeDuplicates (candidates.map fun candidate =>
        { type := (self._context.symbol candidate).type, lastVisibleSymbol := some candidate })

/-- Append the pointee of `ptrElement` when, simplified, it is a named or class type:
the body shared by the pointer cases of the arrow branch. -/
def appendPointee (self : ResolveExpression) (results : List LookupItem)
    (ptrElement : FullySpecifiedType) (lastVisibleSymbol : Option SymbolId) : List LookupItem :=
  let elementTy := self._context.simplified ptrElement
  if isNamedOrClassType elementTy then
    results ++ [{ type := elementTy, lastVisibleSymbol := lastVisibleSymbol }]
  else results

/-- One round of the first loop of the arrow branch of `resolveBaseExpression`
(over the symbols that the named type looks up to). -/
def arrowLookupStep (self : ResolveExpression) (result : LookupItem)
    (results : List LookupItem) (s : SymbolId) : Except Fault (List LookupItem) :=
  match (self._context.symbol s).type.type with
  | Type_.pointerType elementType =>
    Except.ok (appendPointee self results elementType result.lastVisibleSymbol)
  | Type_.namedType ntName =>
    match self._context.lookup ntName result.lastVisibleSymbol with
    | [] => Except.error Fault.emptyList
    | l :: _ =>
      match (self._context.symbol l).type.type with
      | Type_.pointerType elementType =>
        Except.ok (appendPointee self results elementType result.lastVisibleSymbol)
      | _ => Except.ok results
  | _ => Except.ok results

/-- One round of the second loop of the arrow branch of `resolveBaseExpression`
(over the overloads of `operator->`). -/
def arrowOverloadStep (self : ResolveExpression) (name : Name)
    (results : List LookupItem) (overload : SymbolId) : Except Fault (List LookupItem) :=
  match (self._context.symbol overload).type.type with
  | Type_.function funTy =>
    let f := self._context.instantiate name funTy
    match f.type with
    | Type_.function proto =>
      let retTy := self._context.simplified (self._context.symbol proto).returnType
      match retTy.type with
      | Type_.pointerType elementType =>
        let elementTy := self._context.simplified elementType
        Except.ok (results ++ [{ type := elementTy, lastVisibleSymbol := some overload }])
      | _ => Except.ok results
    | _ => Except.error Fault.nullPointer
  | _ => Except.ok results

/-- The branch `accessOp == T_ARROW` of `resolveBaseExpression`: the list `results`
before the final `removeDuplicates`. -/
def resolveArrow (self : ResolveExpression) (result : LookupItem) (ty : FullySpecifiedType) :
    Except Fault (List LookupItem) :=
  match ty.type with
  | Type_.namedType name =>
    match (self._context.lookup name result.lastVisibleSymbol).foldlM
        (arrowLookupStep self result) [] with
    | Except.error e => Except.error e
    | Except.ok results =>
      match self._context.classOrNamespace name result.lastVisibleSymbol with
      | some b =>
        (b.find (Name.operatorNameId OperatorKind.ArrowOp)).foldlM
          (arrowOverloadStep self name) results
      | none => Except.ok results
  | Type_.pointerType elementType =>
    Except.ok (appendPointee self [] elementType result.lastVisibleSymbol)
  | _ => Except.ok []

/-- The loop over `candidates` in the dot branch: the first candidate that is a typedef
of named type, or a template type argument, replaces the type and the symbol. -/
def followTypedef (context : LookupContext) :
    List SymbolId → FullySpecifiedType × Option SymbolId → FullySpecifiedType × Option SymbolId
  | [], current => current
  | candidate :: rest, current =>
    if (context.symbol candidate).isTypedef && isNamedType (context.symbol candidate).type then
      ((context.symbol candidate).type, some candidate)
    else if (context.symbol candidate).kind = SymbolKind.TypenameArgument then
      ((context.symbol candidate).type, some candidate)
    else followTypedef context rest current

/-- The decay at the head of the dot branch: with a flag supplied, a pointer or array
type is replaced by its element type and the flag is set. -/
def decay (context : LookupContext) (ty : FullySpecifiedType) (replacedDotOperator : Option Bool) :
    FullySpecifiedType × Option Bool :=
  match replacedDotOperator with
  | none => (ty, none)
  | some flag =>
    match ty.type with
    | Type_.pointerType elementType => (context.simplified elementType, some true)
    | Type_.arrayType elementType => (context.simplified elementType, some true)
    | _ => (ty, some flag)

/-- The branch `accessOp == T_DOT` of `resolveBaseExpression`, after the decay: the list
`results` before the final `removeDuplicates`. -/
def resolveDot (self : ResolveExpression) (result : LookupItem) (ty : FullySpecifiedType) :
    List LookupItem :=
  match ty.type with
  | Type_.namedType name =>
    let candidates := self._context.lookup name result.lastVisibleSymbol
    let found := followTypedef self._context candidates (ty, result.lastVisibleSymbol)
    [{ type := found.1, lastVisibleSymbol := found.2 }]
  | Type_.function func =>
    match (self._context.symbol func).scope with
    | Scope.scope _ isBlockScope isNamespaceScope _ _ _ =>
      if isBlockScope || isNamespaceScope then
        [{ type := self._context.simplified (self._context.symbol func).returnType,
           lastVisibleSymbol := result.lastVisibleSymbol }]
      else []
    | Scope.null => []
  | _ => []

/-- The collapse of an ambiguous function type to its return type, at the head of
`resolveBaseExpression`. -/
def collapseAmbiguous (context : LookupContext) (ty : FullySpecifiedType) : FullySpecifiedType :=
  match ty.type with
  | Type_.function funTy =>
    if (context.symbol funTy).isAmbiguous then
      context.simplified (context.symbol funTy).returnType
    else ty
  | _ => ty

/-- The method `resolveBaseExpression(baseResults, accessOp, replacedDotOperator)`.
The pointer `replacedDotOperator` is `none` when null, else the value it points to;
the second component of the result is that value on return. -/
def resolveBaseExpression (self : ResolveExpression) (baseResults : List LookupItem)
    (accessOp : TokenKind) (replacedDotOperator : Option Bool) :
    Except Fault (List LookupItem × Option Bool) :=
  match baseResults with
  | [] => Except.ok ([], replacedDotOperator)
  | result :: _ =>
    let ty := collapseAmbiguous self._context (self._context.simplified result.type)
    if accessOp = TokenKind.T_ARROW then
      match resolveArrow self result ty with
      | Except.error e => Except.error e
      | Except.ok results => Except.ok (removeDuplicates results, replacedDotOperator)
    else if accessOp = TokenKind.T_DOT then
      let decayed := decay self._context ty replacedDotOperator
      Except.ok (removeDuplicates (resolveDot self result decayed.1), decayed.2)
    else Except.ok (removeDuplicates [], replacedDotOperator)

/-- One round of the loop of `resolveMemberExpression`. -/
def memberStep (self : ResolveExpression) (memberName : Name)
    (results : List LookupItem) (r : LookupItem) : Except Fault (List LookupItem) :=
  match r.type.type with
  | Type_.klass k =>
    match resolveMember self memberName (some k) Name.null with
    | Except.error e => Except.error e
    | Except.ok members => Except.ok (results ++ members)
  | Type_.namedType name =>
    match self._context.classOrNamespace name r.lastVisibleSymbol with
    | some b =>
      Except.ok (results ++ (b.find memberName).map fun c =>
        { type := self._context.instantiate name c, lastVisibleSymbol := some c })
    | none => Except.ok results
  | _ => Except.ok results

/-- The method `resolveMemberExpression(baseResults, accessOp, memberName, replacedDotOperator)`. -/
def resolveMemberExpression (self : ResolveExpression) (baseResults : List LookupItem)
    (accessOp : TokenKind) (memberName : Name) (replacedDotOperator : Option Bool) :
    Except Fault (List LookupItem × Option Bool) :=
  match resolveBaseExpression self baseResults accessOp replacedDotOperator with
  | Except.error e => Except.error e
  | Except.ok classObjectResults =>
    match classObjectResults.1.foldlM (memberStep self memberName) [] with
    | Except.error e => Except.error e
    | Except.ok results => Except.ok (removeDuplicates results, classObjectResults.2)

end ResolveExpression

/-! ## Expression syntax trees -/

/-- The name nodes (`NameAST` and its subclasses); `name` is the field `NameAST::name`. -/
inductive NameAST
  | QualifiedName (name : Name)
  | SimpleName (name : Name)
  | TemplateId (name : Name)
  | DestructorName (name : Name)
  | OperatorFunctionId (name : Name)
  | ConversionFunctionId (name : Name)
  deriving DecidableEq, Repr

namespace NameAST

/-- The field `name` of a name node. -/
def name : NameAST → Name
  | QualifiedName n => n
  | SimpleName n => n
  | TemplateId n => n
  | DestructorName n => n
  | OperatorFunctionId n => n
  | ConversionFunctionId n => n

end NameAST

mutual
/-- An `ExpressionAST *`: null, or a node of one of the kinds this file visits.
`QtMethod` keeps of its declarator the declarator-id name, and a compound
expression keeps the statement list of its compound statement. -/
inductive ExpressionAST
  | null
  | NameExpression (ast : NameAST)
  | BinaryExpression (binary_op_token : TokenKind) (left_expression right_expression : ExpressionAST)
  | CastExpression (type_id : TypeIdAST) (expression : ExpressionAST)
  | Condition
  | ConditionalExpression (condition left_expression right_expression : ExpressionAST)
  | CppCastExpression (type_id : TypeIdAST) (expression : ExpressionAST)
  | DeleteExpression (expression : ExpressionAST)
  | ArrayInitializer (expression_list : ExpressionListAST)
  | NewExpression (new_type_id : Option NewTypeIdAST)
  | TypeidExpression (expression : ExpressionAST)
  | TypenameCallExpression (expression_list : ExpressionListAST)
  | TypeConstructorCall (expression_list : ExpressionListAST)
  | PostfixExpression (base_expression : ExpressionAST) (postfix_expression_list : PostfixListAST)
  | SizeofExpression (expression : ExpressionAST)
  | NumericLiteral (literal : NumericLiteral)
  | BoolLiteral
  | ThisExpression
  | CompoundExpression (statement_list : StatementListAST)
  | NestedExpression (expression : ExpressionAST)
  | StringLiteral
  | ThrowExpression (expression : ExpressionAST)
  | TypeId (type_id : TypeIdAST)
  | UnaryExpression (unary_op_token : TokenKind) (expression : ExpressionAST)
  | CompoundLiteral (type_id : TypeIdAST) (initializer : ExpressionAST)
  | ObjCMessageExpression (receiver_expression : ExpressionAST) (selector : Name)
      (argument_list : ExpressionListAST)
  | QtMethod (declarator_id : Option NameAST)
/-- A linked list of expressions (`ExpressionListAST`). -/
inductive ExpressionListAST
  | nil
  | cons (value : ExpressionAST) (next : ExpressionListAST)
/-- The postfix operators (`PostfixAST` and its subclasses). -/
inductive PostfixAST
  | Call (expression_list : ExpressionListAST)
  | ArrayAccess (expression : ExpressionAST)
  | MemberAccess (access_token : TokenKind) (member_name : Option NameAST)
  | PostIncrDecr (incr_decr_token : TokenKind)
/-- A linked list of postfix operators (`PostfixListAST`). -/
inductive PostfixListAST
  | nil
  | cons (value : PostfixAST) (next : PostfixListAST)
/-- A statement; only expression statements are modelled. -/
inductive StatementAST
  | ExpressionStatement (expression : ExpressionAST)
/-- A linked list of statements (`StatementListAST`). -/
inductive StatementListAST
  | nil
  | cons (value : StatementAST) (next : StatementListAST)
end

namespace ExpressionListAST

/-- The number of nodes of the list, as counted by the loop of `visit(CallAST *)`. -/
def count : ExpressionListAST → Nat
  | nil => 0
  | cons _ next => count next + 1

end ExpressionListAST

namespace ExpressionAST

/-- The test for a null pointer. -/
def isNull : ExpressionAST → Bool
  | null => true
  | _ => false

/-- The cast `asQtMethod()`: whether the node is a `QtMethodAST`. -/
def isQtMethod : ExpressionAST → Bool
  | QtMethod _ => true
  | _ => false

/-- The name `nameAST->name` reached from a `QtMethodAST` through `declarator`,
`core_declarator`, `asDeclaratorId()` and `name`; `none` when a link is null. -/
def qtMethodName : ExpressionAST → Option Name
  | QtMethod (some nameAST) => some nameAST.name
  | _ => none

end ExpressionAST

namespace ResolveExpression

/-- The rule `visit(CastExpressionAST *)`, also `visit(CppCastExpressionAST *)`. -/
def visitCast (self : ResolveExpression) (type_id : TypeIdAST) : Except Fault ResolveExpression :=
  self.addResult (self._context.check type_id) none

/-- The rule `visit(DeleteExpressionAST *)`, also `visit(DestructorNameAST *)`. -/
def visitVoid (self : ResolveExpression) : Except Fault ResolveExpression :=
  self.addResult (FullySpecifiedType.ofType Type_.voidType) none

/-- The rule `visit(NewExpressionAST *)`. -/
def visitNew (self : ResolveExpression) (new_type_id : Option NewTypeIdAST) :
    Except Fault ResolveExpression :=
  match new_type_id with
  | some t =>
    let ty := self._context.checkNewTypeId t
    let ptrTy := FullySpecifiedType.ofType (Type_.pointerType ty)
    self.addResult ptrTy none
  | none => Except.ok self

/-- The rule `visit(TypeidExpressionAST *)`. -/
def visitTypeid (self : ResolveExpression) : Except Fault ResolveExpression :=
  let q := Name.qualifiedNameId
    (NameList.cons (Name.nameId "std") (NameList.cons (Name.nameId "type_info") NameList.nil)) true
  self.addResult (FullySpecifiedType.ofType (Type_.namedType q)) none

/-- The rule `visit(SizeofExpressionAST *)`. -/
def visitSizeof (self : ResolveExpression) : Except Fault ResolveExpression :=
  let ty := FullySpecifiedType.ofType (Type_.integerType IntegerKind.Int)
  self.addResult (ty.setUnsigned true) none

/-- The type chosen by the chain of tests of `visit(NumericLiteralAST *)`. -/
def numericLiteralType (literal : NumericLiteral) : Type_ :=
  if literal.isChar then Type_.integerType IntegerKind.Char
  else if literal.isWideChar then Type_.integerType IntegerKind.WideChar
  else if literal.isInt then Type_.integerType IntegerKind.Int
  else if literal.isLong then Type_.integerType IntegerKind.Long
  else if literal.isLongLong then Type_.integerType IntegerKind.LongLong
  else if literal.isFloat then Type_.floatType FloatKind.Float
  else if literal.isDouble then Type_.floatType FloatKind.Double
  else if literal.isLongDouble then Type_.floatType FloatKind.LongDouble
  else Type_.integerType IntegerKind.Int

/-- The rule `visit(NumericLiteralAST *)`. -/
def visitNumericLiteral (self : ResolveExpression) (literal : NumericLiteral) :
    Except Fault ResolveExpression :=
  let ty := FullySpecifiedType.ofType (numericLiteralType literal)
  let ty := if literal.isUnsigned then ty.setUnsigned true else ty
  self.addResult ty none

/-- The rule `visit(BoolLiteralAST *)`. -/
def visitBoolLiteral (self : ResolveExpression) : Except Fault ResolveExpression :=
  self.addResult (FullySpecifiedType.ofType (Type_.integerType IntegerKind.Bool)) none

/-- The rule `visit(StringLiteralAST *)`. -/
def visitStringLiteral (self : ResolveExpression) : Except Fault ResolveExpression :=
  let charTy := FullySpecifiedType.ofType (Type_.integerType IntegerKind.Char)
  let charTy := charTy.setConst true
  let ty := FullySpecifiedType.ofType (Type_.pointerType charTy)
  self.addResult ty none

/-- The loop `foreach (Symbol *symbol, symbols) addResult(symbol->type(), symbol)`. -/
def addSymbols (self : ResolveExpression) (symbols : List SymbolId) :
    Except Fault ResolveExpression :=
  symbols.foldlM (fun s symbol => s.addResult (s._context.symbol symbol).type (some symbol)) self

/-- The rules of the name nodes: `visit(QualifiedNameAST *)`, `visit(SimpleNameAST *)`,
`visit(TemplateIdAST *)`, `visit(DestructorNameAST *)`, `visit(OperatorFunctionIdAST *)`
and `visit(ConversionFunctionIdAST *)`. -/
def visitName (self : ResolveExpression) : NameAST → Except Fault ResolveExpression
  | NameAST.QualifiedName name =>
    if name = Name.null then Except.ok self
    else self.addSymbols (self._context.lookupInScope name self._scope)
  | NameAST.SimpleName name => self.addSymbols (self._context.lookupInScope name self._scope)
  | NameAST.TemplateId name => self.addSymbols (self._context.lookupInScope name self._scope)
  | NameAST.DestructorName _ => self.visitVoid
  | NameAST.OperatorFunctionId _ => Except.ok self
  | NameAST.ConversionFunctionId _ => Except.ok self

/-- One round of the inner loop of `visit(CallAST *)`, over the overloads of the
function-call operator of a named type. -/
def callOverloadStep (self : ResolveExpression) (name : Name)
    (lastVisibleSymbol : Option SymbolId) (actualArgumentCount : Nat)
    (overload : SymbolId) : Except Fault ResolveExpression :=
  match (self._context.symbol overload).type.type with
  | Type_.function funTy =>
    if maybeValidPrototype (self._context.symbol funTy) actualArgumentCount then
      match (self._context.instantiate name funTy).type with
      | Type_.function proto =>
        self.addResult (self._context.simplified (self._context.symbol proto).returnType)
          lastVisibleSymbol
      | _ => Except.error Fault.nullPointer
    else Except.ok self
  | _ => Except.ok self

/-- One round of the outer loop of `visit(CallAST *)`, over the base candidates. -/
def callStep (actualArgumentCount : Nat) (self : ResolveExpression) (result : LookupItem) :
    Except Fault ResolveExpression :=
  let ty := self._context.simplified result.type
  let lastVisibleSymbol := result.lastVisibleSymbol
  match ty.type with
  | Type_.namedType name =>
    match self._context.classOrNamespace name lastVisibleSymbol with
    | some b =>
      (b.find (Name.operatorNameId OperatorKind.FunctionCallOp)).foldlM
        (fun s overload => callOverloadStep s name lastVisibleSymbol actualArgumentCount overload)
        self
    | none => Except.ok self
  | Type_.function funTy =>
    if maybeValidPrototype (self._context.symbol funTy) actualArgumentCount then
      self.addResult (self._context.simplified (self._context.symbol funTy).returnType)
        lastVisibleSymbol
    else Except.ok self
  | Type_.klass classTy =>
    let ctorTy := FullySpecifiedType.ofType (Type_.namedType (self._context.symbol classTy).name)
    self.addResult ctorTy lastVisibleSymbol
  | _ => Except.ok self

/-- The rule `visit(CallAST *)`, given the length of the argument list. -/
def visitCall (self : ResolveExpression) (actualArgumentCount : Nat) :
    Except Fault ResolveExpression :=
  let baseResults := self._results
  let cleared := { self with _results := [] }
  baseResults.foldlM (callStep actualArgumentCount) cleared

/-- One round of the inner loop of `visit(ArrayAccessAST *)`, over the overloads of the
array-access operator of a named type. -/
def arrayOverloadStep (self : ResolveExpression) (name : Name)
    (lastVisibleSymbol : Option SymbolId) (overload : SymbolId) :
    Except Fault ResolveExpression :=
  match (self._context.symbol overload).type.type with
  | Type_.function funTy =>
    match (self._context.instantiate name funTy).type with
    | Type_.function proto =>
      self.addResult (self._context.simplified (self._context.symbol proto).returnType)
        lastVisibleSymbol
    | _ => Except.error Fault.nullPointer
  | _ => Except.ok self

/-- One round of the outer loop of `visit(ArrayAccessAST *)`, over the base candidates. -/
def arrayStep (self : ResolveExpression) (result : LookupItem) : Except Fault ResolveExpression :=
  let ty := self._context.simplified result.type
  let lastVisibleSymbol := result.lastVisibleSymbol
  match ty.type with
  | Type_.pointerType elementType =>
    self.addResult (self._context.simplified elementType) lastVisibleSymbol
  | Type_.arrayType elementType =>
    self.addResult (self._context.simplified elementType) lastVisibleSymbol
  | Type_.namedType name =>
    match self._context.classOrNamespace name lastVisibleSymbol with
    | some b =>
      (b.find (Name.operatorNameId OperatorKind.ArrayAccessOp)).foldlM
        (fun s overload => arrayOverloadStep s name lastVisibleSymbol overload) self
    | none => Except.ok self
  | _ => Except.ok self

/-- The assignment `_results = resolveMemberExpression(...)`, given the outcome of the call. -/
def assignResults (self : ResolveExpression) (out : Except Fault (List LookupItem × Option Bool)) :
    Except Fault ResolveExpression :=
  match out with
  | Except.error e => Except.error e
  | Except.ok r => Except.ok { self with _results := r.1 }

/-- The rule `visit(MemberAccessAST *)`. -/
def visitMemberAccess (self : ResolveExpression) (access_token : TokenKind)
    (member_name : Option NameAST) : Except Fault ResolveExpression :=
  let baseResults := self._results
  let memberName :=
    match member_name with
    | some nameAST => nameAST.name
    | none => Name.null
  self.assignResults (resolveMemberExpression self baseResults access_token memberName none)

/-- The two unary transforms of `visit(UnaryExpressionAST *)`, applied after the operand
has been visited. -/
def unaryTransform (self : ResolveExpression) (unaryOp : TokenKind) : ResolveExpression :=
  if unaryOp = TokenKind.T_AMPER then { self with _results := addressOf self._results }
  else if unaryOp = TokenKind.T_STAR then { self with _results := dereference self._results }
  else self

/-- The class name that `visit(ObjCMessageExpressionAST *)` takes from the type of the
first receiver candidate; null when there is none. -/
def objcClassName (context : LookupContext) (ty : FullySpecifiedType) : Name :=
  match ty.type with
  | Type_.objcClass classTy => (context.symbol classTy).name
  | Type_.pointerType pointeeTy =>
    match pointeeTy.type with
    | Type_.namedType name => name
    | _ => Name.null
  | _ => Name.null

/-- The part of `visit(ObjCMessageExpressionAST *)` that follows the resolution of the
receiver. -/
def objcMessage (self : ResolveExpression) (receiverResults : List LookupItem)
    (selector : Name) : ResolveExpression :=
  match receiverResults with
  | [] => self
  | result :: _ =>
    let ty := self._context.simplified result.type
    let klassName := objcClassName self._context ty
    if klassName ≠ Name.null ∧ selector ≠ Name.null then
      let resolvedSymbols := self._context.lookup klassName result.lastVisibleSymbol
      resolvedSymbols.foldl
        (fun s resolvedSymbol =>
          if (s._context.symbol resolvedSymbol).kind = SymbolKind.ObjCClass then
            { s with _results := s._results ++ resolveMemberObjC s selector (some resolvedSymbol) }
          else s)
        self
    else self

/-- The comma rule of `visit(BinaryExpressionAST *)` once the receiver has been resolved:
the member named by the method is looked up with arrow semantics. -/
def qtMethodMember (self : ResolveExpression) (memberName : Option Name) :
    Except Fault ResolveExpression :=
  match memberName with
  | some name =>
    self.assignResults (resolveMemberExpression self self._results TokenKind.T_ARROW name none)
  | none => Except.ok self

/-- The body of `operator()(ast)`, with the call `accept(ast)` passed as `visit`:
the candidate set is exchanged for the empty one, the node is visited, the previous
set is put back and the set collected by the visit is returned without duplicates. -/
def operatorCallWith (visit : ResolveExpression → Except Fault ResolveExpression)
    (self : ResolveExpression) : Except Fault (List LookupItem × ResolveExpression) :=
  let previous := self.switchResults []
  match visit previous.2 with
  | Except.error e => Except.error e
  | Except.ok s =>
    let final := s.switchResults previous.1
    Except.ok (removeDuplicates final.1, final.2)

mutual
/-- The dispatch `accept(ast)`: the `visit` rule of the node kind, run on the resolver
state `self`; the result is the state after the visit. -/
def accept (self : ResolveExpression) : ExpressionAST → Except Fault ResolveExpression
  | ExpressionAST.null => Except.ok self
  | ExpressionAST.NameExpression ast => self.visitName ast
  | ExpressionAST.BinaryExpression binary_op_token left_expression right_expression =>
    if binary_op_token = TokenKind.T_COMMA ∧ right_expression.isQtMethod = true then
      if left_expression.isQtMethod = true then
        match self.thisObject with
        | Except.error e => Except.error e
        | Except.ok s => qtMethodMember s right_expression.qtMethodName
      else
        match accept self left_expression with
        | Except.error e => Except.error e
        | Except.ok s => qtMethodMember s right_expression.qtMethodName
    else accept self left_expression
  | ExpressionAST.CastExpression type_id _ => self.visitCast type_id
  | ExpressionAST.Condition => Except.ok self
  | ExpressionAST.ConditionalExpression _ left_expression right_expression =>
    if left_expression.isNull = true then accept self right_expression
    else accept self left_expression
  | ExpressionAST.CppCastExpression type_id _ => self.visitCast type_id
  | ExpressionAST.DeleteExpression _ => self.visitVoid
  | ExpressionAST.ArrayInitializer _ => Except.ok self
  | ExpressionAST.NewExpression new_type_id => self.visitNew new_type_id
  | ExpressionAST.TypeidExpression _ => self.visitTypeid
  | ExpressionAST.TypenameCallExpression _ => Except.ok self
  | ExpressionAST.TypeConstructorCall _ => Except.ok self
  | ExpressionAST.PostfixExpression base_expression postfix_expression_list =>
    match accept self base_expression with
    | Except.error e => Except.error e
    | Except.ok s => acceptPostfixList s postfix_expression_list
  | ExpressionAST.SizeofExpression _ => self.visitSizeof
  | ExpressionAST.NumericLiteral literal => self.visitNumericLiteral literal
  | ExpressionAST.BoolLiteral => self.visitBoolLiteral
  | ExpressionAST.ThisExpression => self.thisObject
  | ExpressionAST.CompoundExpression statement_list => acceptLastStatement self statement_list
  | ExpressionAST.NestedExpression expression => accept self expression
  | ExpressionAST.StringLiteral => self.visitStringLiteral
  | ExpressionAST.ThrowExpression _ => Except.ok self
  | ExpressionAST.TypeId _ => Except.ok self
  | ExpressionAST.UnaryExpression unary_op_token expression =>
    match accept self expression with
    | Except.error e => Except.error e
    | Except.ok s => Except.ok (s.unaryTransform unary_op_token)
  | ExpressionAST.CompoundLiteral _ _ => Except.ok self
  | ExpressionAST.ObjCMessageExpression receiver_expression selector _ =>
    match operatorCallWith (fun s => accept s receiver_expression) self with
    | Except.error e => Except.error e
    | Except.ok r => Except.ok (objcMessage r.2 r.1 selector)
  | ExpressionAST.QtMethod declarator_id =>
    match declarator_id with
    | some nameAST => self.visitName nameAST
    | none => Except.ok self
/-- The loop of `visit(PostfixExpressionAST *)` over the postfix operators. -/
def acceptPostfixList (self : ResolveExpression) : PostfixListAST → Except Fault ResolveExpression
  | PostfixListAST.nil => Except.ok self
  | PostfixListAST.cons value next =>
    match acceptPostfix self value with
    | Except.error e => Except.error e
    | Except.ok s => acceptPostfixList s next
/-- The dispatch `accept(it->value)` on a postfix operator. -/
def acceptPostfix (self : ResolveExpression) : PostfixAST → Except Fault ResolveExpression
  | PostfixAST.Call expression_list => self.visitCall expression_list.count
  | PostfixAST.ArrayAccess expression =>
    let baseResults := self._results
    let cleared := { self with _results := [] }
    match operatorCallWith (fun s => accept s expression) cleared with
    | Except.error e => Except.error e
    | Except.ok indexResults => baseResults.foldlM arrayStep indexResults.2
  | PostfixAST.MemberAccess access_token member_name =>
    self.visitMemberAccess access_token member_name
  | PostfixAST.PostIncrDecr _ => Except.ok self
/-- The call `accept(cStmt->statement_list->lastValue())` of
`visit(CompoundExpressionAST *)`. -/
def acceptLastStatement (self : ResolveExpression) :
    StatementListAST → Except Fault ResolveExpression
  | StatementListAST.nil => Except.ok self
  | StatementListAST.cons (StatementAST.ExpressionStatement expression) next =>
    match next with
    | StatementListAST.nil => accept self expression
    | StatementListAST.cons _ _ => acceptLastStatement self next
end

/-- The entry point `operator()(ast)`: the candidate list returned, and the resolver
state on return. -/
def operatorCall (self : ResolveExpression) (ast : ExpressionAST) :
    Except Fault (List LookupItem × ResolveExpression) :=
  operatorCallWith (fun s => accept s ast) self

end ResolveExpression

/-! ## Notions used to state the claims -/

/-- Following the words of the specification: the innermost function scope met when
walking outward from `scope`; null when there is none. -/
def innermostFunctionScope : Scope → Scope
  | Scope.null => Scope.null
  | Scope.scope isFunctionScope isBlockScope isNamespaceScope owner enclosingScope
      enclosingClassScope =>
    if isFunctionScope then
      Scope.scope isFunctionScope isBlockScope isNamespaceScope owner enclosingScope
        enclosingClassScope
    else innermostFunctionScope enclosingScope

/-- Every candidate of the list has a declaring symbol. -/
def allHaveSymbol (results : List LookupItem) : Prop :=
  ∀ c ∈ results, c.lastVisibleSymbol ≠ none

/-- The outcome `out` of a step run from the state `self` keeps the invariant: on return
every candidate has a declaring symbol and the scope and context are the ones of `self`;
the step aborts on the assertion only when `self` has no symbol to fall back on. -/
def keepsSymbols (self : ResolveExpression) (out : Except Fault ResolveExpression) : Prop :=
  match out with
  | Except.ok s => allHaveSymbol s._results ∧ s._scope = self._scope ∧ s._context = self._context
  | Except.error e => e = Fault.assertion → self.defaultSymbol = none

/-- The outcome `out` of a member resolution has declaring symbols everywhere and is
never the abort on the assertion. -/
def listHasSymbols {β : Type} (proj : β → List LookupItem) (out : Except Fault β) : Prop :=
  match out with
  | Except.ok r => allHaveSymbol (proj r)
  | Except.error e => e ≠ Fault.assertion

/-! ## Sample inputs

A small translation unit: a class `C` with a data member `m` and two overloads of
`operator()`, a variable `obj` of type `C`, and a member function `f` of `C`. -/

/-- The type `int`. -/
def intTy : FullySpecifiedType := FullySpecifiedType.ofType (Type_.integerType IntegerKind.Int)

/-- The member scope of the class `C` (symbol 2). -/
def sampleMemberScope : Scope := Scope.scope false false false (some 2) Scope.null Scope.null

/-- The body of the member function `f` (symbol 30) of `C`: a function scope inside the
class scope. -/
def sampleFunctionScope : Scope :=
  Scope.scope true false false (some 30) sampleMemberScope sampleMemberScope

/-- A block inside the body of `f`. -/
def sampleBlockScope : Scope :=
  Scope.scope false true false (some 31) sampleFunctionScope sampleMemberScope

/-- The symbol table of the sample. -/
def sampleSymbol (s : SymbolId) : Symbol :=
  match s with
  | 0 => { kind := SymbolKind.Namespace }
  | 1 => { name := Name.nameId "obj",
           type := FullySpecifiedType.ofType (Type_.namedType (Name.nameId "C")) }
  | 2 => { kind := SymbolKind.Class, name := Name.nameId "C",
           type := FullySpecifiedType.ofType (Type_.klass 2), members := sampleMemberScope }
  | 3 => { name := Name.nameId "m", type := intTy, scope := sampleMemberScope }
  | 10 => { kind := SymbolKind.Function,
            name := Name.operatorNameId OperatorKind.FunctionCallOp,
            type := FullySpecifiedType.ofType (Type_.function 10),
            returnType := FullySpecifiedType.mk (Type_.pointerType intTy) true false false,
            scope := sampleMemberScope }
  | 11 => { kind := SymbolKind.Function,
            name := Name.operatorNameId OperatorKind.FunctionCallOp,
            type := FullySpecifiedType.ofType (Type_.function 11),
            returnType := FullySpecifiedType.ofType (Type_.pointerType intTy),
            arguments := [{ type := intTy, hasInitializer := true }],
            scope := sampleMemberScope }
  | 30 => { kind := SymbolKind.Function, name := Name.nameId "f",
            type := FullySpecifiedType.ofType (Type_.function 30),
            returnType := FullySpecifiedType.ofType Type_.voidType,
            scope := sampleMemberScope }
  | _ => {}

/-- The merged view of the class `C`. -/
def sampleClassView : ClassOrNamespace where
  find := fun name =>
    if name = Name.operatorNameId OperatorKind.FunctionCallOp then [10, 11]
    else if name = Name.nameId "m" then [3]
    else []

/-- The lookup context of the sample; no type of the sample needs simplification. -/
def sampleContext : LookupContext where
  symbol := sampleSymbol
  lookupInScope := fun name scope =>
    if name = Name.nameId "obj" then [1]
    else if name = Name.nameId "m" ∧ scope = sampleMemberScope then [3]
    else []
  lookup := fun name _ => if name = Name.nameId "C" then [2] else []
  classOrNamespace := fun name _ => if name = Name.nameId "C" then some sampleClassView else none
  instantiate := fun _ candidate => (sampleSymbol candidate).type
  globalNamespace := some 0
  check := fun _ => FullySpecifiedType.ofType Type_.undefinedType
  checkNewTypeId := fun _ => FullySpecifiedType.ofType Type_.undefinedType
  simplified := fun ty => ty

/-- A prototype with the parameters `(int, int = 0)`, not variadic. -/
def sampleTwoParameters : Function :=
  { kind := SymbolKind.Function,
    arguments := [{ type := intTy, hasInitializer := false },
                  { type := intTy, hasInitializer := true }] }

/-- The expression `*obj()`. -/
def sampleDereferencedCall : ExpressionAST :=
  ExpressionAST.UnaryExpression TokenKind.T_STAR
    (ExpressionAST.PostfixExpression
      (ExpressionAST.NameExpression (NameAST.SimpleName (Name.nameId "obj")))
      (PostfixListAST.cons (PostfixAST.Call ExpressionListAST.nil) PostfixListAST.nil))

/-- A candidate of type pointer to the class type `C`. -/
def samplePointerToClass : LookupItem :=
  { type := FullySpecifiedType.ofType
      (Type_.pointerType (FullySpecifiedType.ofType (Type_.klass 2))),
    lastVisibleSymbol := some 1 }

/-- A candidate of type pointer to the named type `C`. -/
def samplePointerToNamed : LookupItem :=
  { type := FullySpecifiedType.ofType
      (Type_.pointerType (FullySpecifiedType.ofType (Type_.namedType (Name.nameId "C")))),
    lastVisibleSymbol := some 1 }


/-! ## Notions and sample inputs for the later claims -/

/-- The cast `name->asQualifiedNameId()`: whether the name is a qualified name. -/
def Name.isQualifiedNameId : Name → Bool
  | Name.qualifiedNameId _ _ => true
  | _ => false

/-- Following the words of the specification: the overload is arity-plausible for a call
with `actualArgumentCount` arguments (its type is a function type that passes
`maybeValidPrototype`). -/
def isPlausibleCallOperator (context : LookupContext) (actualArgumentCount : Nat)
    (overload : SymbolId) : Bool :=
  match (context.symbol overload).type.type with
  | Type_.function funTy =>
    ResolveExpression.maybeValidPrototype (context.symbol funTy) actualArgumentCount
  | _ => false

/-- The simplified return type of the overload once instantiated for the class `name`;
undefined when the overload or its instantiation is not a function. -/
def callOperatorReturnType (context : LookupContext) (name : Name) (overload : SymbolId) :
    FullySpecifiedType :=
  match (context.symbol overload).type.type with
  | Type_.function funTy =>
    match (context.instantiate name funTy).type with
    | Type_.function proto => context.simplified (context.symbol proto).returnType
    | _ => FullySpecifiedType.ofType Type_.undefinedType
  | _ => FullySpecifiedType.ofType Type_.undefinedType

/-- The candidates that a call offers for a base candidate of named type `name` and
symbol `s`: one per arity-plausible overload of the function-call operator, in the
order of the overloads. -/
def callOperatorCandidates (context : LookupContext) (name : Name) (s : SymbolId)
    (actualArgumentCount : Nat) (overloads : List SymbolId) : List LookupItem :=
  (overloads.filter (isPlausibleCallOperator context actualArgumentCount)).map fun overload =>
    { type := callOperatorReturnType context name overload, lastVisibleSymbol := some s }

/-- The body of the function `A::h` (symbol 41), defined outside its class. -/
def qualifiedFunctionScope : Scope :=
  Scope.scope true false false (some 41) Scope.null Scope.null

/-- The body of the function `g` (symbol 40), nested in the body of `A::h`; no class scope
encloses it. -/
def nestedFunctionScope : Scope :=
  Scope.scope true false false (some 40) qualifiedFunctionScope Scope.null

/-- A body of the function `g` (symbol 40) that no scope encloses. -/
def plainFunctionScope : Scope :=
  Scope.scope true false false (some 40) Scope.null Scope.null

/-- The symbol table of the second sample: a typedef `Alias` of the undeclared type
`Undeclared` (4), a class `P` (5) with `int *operator->()` (50), a class `F` (6) with
`int operator()(int)` (60) and `int operator()(char)` (61), a variable (1), and the
functions `g` (40) and `A::h` (41). -/
def secondSymbol (s : SymbolId) : Symbol :=
  match s with
  | 0 => { kind := SymbolKind.Namespace }
  | 4 => { name := Name.nameId "Alias", isTypedef := true,
           type := FullySpecifiedType.ofType (Type_.namedType (Name.nameId "Undeclared")) }
  | 5 => { kind := SymbolKind.Class, name := Name.nameId "P",
           type := FullySpecifiedType.ofType (Type_.klass 5) }
  | 6 => { kind := SymbolKind.Class, name := Name.nameId "F",
           type := FullySpecifiedType.ofType (Type_.klass 6) }
  | 40 => { kind := SymbolKind.Function, name := Name.nameId "g",
            type := FullySpecifiedType.ofType (Type_.function 40),
            returnType := FullySpecifiedType.ofType Type_.voidType }
  | 41 => { kind := SymbolKind.Function,
            name := Name.qualifiedNameId
              (NameList.cons (Name.nameId "A") (NameList.cons (Name.nameId "h") NameList.nil))
              false,
            type := FullySpecifiedType.ofType (Type_.function 41),
            returnType := FullySpecifiedType.ofType Type_.voidType }
  | 50 => { kind := SymbolKind.Function, name := Name.operatorNameId OperatorKind.ArrowOp,
            type := FullySpecifiedType.ofType (Type_.function 50),
            returnType := FullySpecifiedType.ofType (Type_.pointerType intTy) }
  | 60 => { kind := SymbolKind.Function,
            name := Name.operatorNameId OperatorKind.FunctionCallOp,
            type := FullySpecifiedType.ofType (Type_.function 60),
            returnType := intTy,
            arguments := [{ type := intTy, hasInitializer := false }] }
  | 61 => { kind := SymbolKind.Function,
            name := Name.operatorNameId OperatorKind.FunctionCallOp,
            type := FullySpecifiedType.ofType (Type_.function 61),
            returnType := intTy,
            arguments := [{ type := FullySpecifiedType.ofType
                                      (Type_.integerType IntegerKind.Char),
                            hasInitializer := false }] }
  | _ => {}

/-- The merged view of the class `P`. -/
def pointerClassView : ClassOrNamespace where
  find := fun name => if name = Name.operatorNameId OperatorKind.ArrowOp then [50] else []

/-- The merged view of the class `F`. -/
def functorClassView : ClassOrNamespace where
  find := fun name =>
    if name = Name.operatorNameId OperatorKind.FunctionCallOp then [60, 61] else []

/-- The lookup context of the second sample; `Undeclared` looks up to nothing. -/
def secondContext : LookupContext where
  symbol := secondSymbol
  lookupInScope := fun _ _ => []
  lookup := fun name _ =>
    if name = Name.nameId "Alias" then [4]
    else if name = Name.nameId "P" then [5]
    else if name = Name.nameId "F" then [6]
    else []
  classOrNamespace := fun name _ =>
    if name = Name.nameId "P" then some pointerClassView
    else if name = Name.nameId "F" then some functorClassView
    else none
  instantiate := fun _ candidate => (secondSymbol candidate).type
  globalNamespace := some 0
  check := fun _ => FullySpecifiedType.ofType Type_.undefinedType
  checkNewTypeId := fun _ => FullySpecifiedType.ofType Type_.undefinedType
  simplified := fun ty => ty

/-- A candidate of the named type `Alias`. -/
def sampleAliasCandidate : LookupItem :=
  { type := FullySpecifiedType.ofType (Type_.namedType (Name.nameId "Alias")),
    lastVisibleSymbol := some 1 }

/-- A candidate of the named type `P`. -/
def samplePointerClassCandidate : LookupItem :=
  { type := FullySpecifiedType.ofType (Type_.namedType (Name.nameId "P")),
    lastVisibleSymbol := some 1 }

/-- A candidate of the named type `F`. -/
def sampleFunctorCandidate : LookupItem :=
  { type := FullySpecifiedType.ofType (Type_.namedType (Name.nameId "F")),
    lastVisibleSymbol := some 1 }

/-- A candidate of type `const int`. -/
def sampleConstInt : LookupItem :=
  { type := FullySpecifiedType.mk (Type_.integerType IntegerKind.Int) true false false,
    lastVisibleSymbol := some 1 }

/-! ## Notions and sample inputs for the last claims -/

/-- Following the words of the specification: the first symbol of a lookup result that is
a typedef of named type or a template type argument; none when there is no such symbol. -/
def firstIndirection (context : LookupContext) (candidates : List SymbolId) : Option SymbolId :=
  candidates.find? fun c =>
    ((context.symbol c).isTypedef && ResolveExpression.isNamedType (context.symbol c).type)
      || decide ((context.symbol c).kind = SymbolKind.TypenameArgument)

/-- The syntactic arguments of a call, first to last: the expressions that the cells of
the argument list hold. -/
def ExpressionListAST.toList : ExpressionListAST → List ExpressionAST
  | ExpressionListAST.nil => []
  | ExpressionListAST.cons value next => value :: next.toList

/-- The candidate that a name node offers for the symbol `s` of a lookup result: the type
of the symbol, and the symbol. -/
def symbolCandidate (context : LookupContext) (s : SymbolId) : LookupItem :=
  { type := (context.symbol s).type, lastVisibleSymbol := some s }

/-- The symbol table of the third sample: the class `C` (2), and two declarations that the
parser flags as ambiguous between a function and a variable with an initializer: `u` (70),
of function type returning the function type of `v`, and `v` (71), of function type
returning `C`. -/
def thirdSymbol (s : SymbolId) : Symbol :=
  match s with
  | 0 => { kind := SymbolKind.Namespace }
  | 2 => { kind := SymbolKind.Class, name := Name.nameId "C",
           type := FullySpecifiedType.ofType (Type_.klass 2) }
  | 70 => { kind := SymbolKind.Function, name := Name.nameId "u",
            type := FullySpecifiedType.ofType (Type_.function 70),
            returnType := FullySpecifiedType.ofType (Type_.function 71),
            isAmbiguous := true }
  | 71 => { kind := SymbolKind.Function, name := Name.nameId "v",
            type := FullySpecifiedType.ofType (Type_.function 71),
            returnType := FullySpecifiedType.ofType (Type_.namedType (Name.nameId "C")),
            isAmbiguous := true }
  | _ => {}

/-- The lookup context of the third sample. -/
def thirdContext : LookupContext where
  symbol := thirdSymbol
  lookupInScope := fun _ _ => []
  lookup := fun name _ => if name = Name.nameId "C" then [2] else []
  classOrNamespace := fun _ _ => none
  instantiate := fun _ candidate => (thirdSymbol candidate).type
  globalNamespace := some 0
  check := fun _ => FullySpecifiedType.ofType Type_.undefinedType
  checkNewTypeId := fun _ => FullySpecifiedType.ofType Type_.undefinedType
  simplified := fun ty => ty

/-- A candidate whose type is the function type of `u`. -/
def sampleAmbiguousOuter : LookupItem :=
  { type := FullySpecifiedType.ofType (Type_.function 70), lastVisibleSymbol := some 70 }

/-- A candidate whose type is the function type of `v`, the return type of `u`. -/
def sampleAmbiguousInner : LookupItem :=
  { type := FullySpecifiedType.ofType (Type_.function 71), lastVisibleSymbol := some 70 }

/-- A candidate of the named type `C`, the return type of `v`. -/
def sampleNamedC : LookupItem :=
  { type := FullySpecifiedType.ofType (Type_.namedType (Name.nameId "C")),
    lastVisibleSymbol := some 70 }


/-! ## The visitor, one level of its recursion at a time -/

mutual
/-- The number of nodes of an expression tree; a null pointer counts for none. -/
def ExpressionAST.nodeCount : ExpressionAST → Nat
  | ExpressionAST.null => 0
  | ExpressionAST.NameExpression _ => 1
  | ExpressionAST.BinaryExpression _ left_expression right_expression =>
    left_expression.nodeCount + right_expression.nodeCount + 1
  | ExpressionAST.CastExpression _ expression => expression.nodeCount + 1
  | ExpressionAST.Condition => 1
  | ExpressionAST.ConditionalExpression condition left_expression right_expression =>
    condition.nodeCount + left_expression.nodeCount + right_expression.nodeCount + 1
  | ExpressionAST.CppCastExpression _ expression => expression.nodeCount + 1
  | ExpressionAST.DeleteExpression expression => expression.nodeCount + 1
  | ExpressionAST.ArrayInitializer expression_list => expression_list.nodeCount + 1
  | ExpressionAST.NewExpression _ => 1
  | ExpressionAST.TypeidExpression expression => expression.nodeCount + 1
  | ExpressionAST.TypenameCallExpression expression_list => expression_list.nodeCount + 1
  | ExpressionAST.TypeConstructorCall expression_list => expression_list.nodeCount + 1
  | ExpressionAST.PostfixExpression base_expression postfix_expression_list =>
    base_expression.nodeCount + postfix_expression_list.nodeCount + 1
  | ExpressionAST.SizeofExpression expression => expression.nodeCount + 1
  | ExpressionAST.NumericLiteral _ => 1
  | ExpressionAST.BoolLiteral => 1
  | ExpressionAST.ThisExpression => 1
  | ExpressionAST.CompoundExpression statement_list => statement_list.nodeCount + 1
  | ExpressionAST.NestedExpression expression => expression.nodeCount + 1
  | ExpressionAST.StringLiteral => 1
  | ExpressionAST.ThrowExpression expression => expression.nodeCount + 1
  | ExpressionAST.TypeId _ => 1
  | ExpressionAST.UnaryExpression _ expression => expression.nodeCount + 1
  | ExpressionAST.CompoundLiteral _ expression => expression.nodeCount + 1
  | ExpressionAST.ObjCMessageExpression receiver_expression _ argument_list =>
    receiver_expression.nodeCount + argument_list.nodeCount + 1
  | ExpressionAST.QtMethod _ => 1
/-- The number of nodes of the expressions of a list, and of its cells. -/
def ExpressionListAST.nodeCount : ExpressionListAST → Nat
  | ExpressionListAST.nil => 0
  | ExpressionListAST.cons value next => value.nodeCount + next.nodeCount + 1
/-- The number of nodes of a postfix operator with its sub-expressions. -/
def PostfixAST.nodeCount : PostfixAST → Nat
  | PostfixAST.Call expression_list => expression_list.nodeCount + 1
  | PostfixAST.ArrayAccess expression => expression.nodeCount + 1
  | PostfixAST.MemberAccess _ _ => 1
  | PostfixAST.PostIncrDecr _ => 1
/-- The number of nodes of the postfix operators of a list, and of its cells. -/
def PostfixListAST.nodeCount : PostfixListAST → Nat
  | PostfixListAST.nil => 0
  | PostfixListAST.cons value next => value.nodeCount + next.nodeCount + 1
/-- The number of nodes of a statement with its expression. -/
def StatementAST.nodeCount : StatementAST → Nat
  | StatementAST.ExpressionStatement expression => expression.nodeCount + 1
/-- The number of nodes of the statements of a list, and of its cells. -/
def StatementListAST.nodeCount : StatementListAST → Nat
  | StatementListAST.nil => 0
  | StatementListAST.cons value next => value.nodeCount + next.nodeCount + 1
end

/-- The dispatch `accept(it->value)` on a postfix operator, with the call of `operator()`
on the index expression made through `recurse` in place of `accept`. -/
def ResolveExpression.acceptPostfixWith
    (recurse : ResolveExpression → ExpressionAST → Except Fault ResolveExpression)
    (self : ResolveExpression) : PostfixAST → Except Fault ResolveExpression
  | PostfixAST.Call expression_list => self.visitCall expression_list.count
  | PostfixAST.ArrayAccess expression =>
    let baseResults := self._results
    let cleared := { self with _results := [] }
    match operatorCallWith (fun s => recurse s expression) cleared with
    | Except.error e => Except.error e
    | Except.ok indexResults => baseResults.foldlM arrayStep indexResults.2
  | PostfixAST.MemberAccess access_token member_name =>
    self.visitMemberAccess access_token member_name
  | PostfixAST.PostIncrDecr _ => Except.ok self

/-- The loop of `visit(PostfixExpressionAST *)` over the postfix operators, with `recurse`
in place of `accept` on expressions. -/
def ResolveExpression.acceptPostfixListWith
    (recurse : ResolveExpression → ExpressionAST → Except Fault ResolveExpression)
    (self : ResolveExpression) : PostfixListAST → Except Fault ResolveExpression
  | PostfixListAST.nil => Except.ok self
  | PostfixListAST.cons value next =>
    match acceptPostfixWith recurse self value with
    | Except.error e => Except.error e
    | Except.ok s => acceptPostfixListWith recurse s next

/-- The call `accept(cStmt->statement_list->lastValue())` of
`visit(CompoundExpressionAST *)`, with `recurse` in place of `accept` on expressions. -/
def ResolveExpression.acceptLastStatementWith
    (recurse : ResolveExpression → ExpressionAST → Except Fault ResolveExpression)
    (self : ResolveExpression) : StatementListAST → Except Fault ResolveExpression
  | StatementListAST.nil => Except.ok self
  | StatementListAST.cons (StatementAST.ExpressionStatement expression) next =>
    match next with
    | StatementListAST.nil => recurse self expression
    | StatementListAST.cons _ _ => acceptLastStatementWith recurse self next

/-- One level of the recursion of the visitor: the `visit` rule of the node, in which every
call of `accept` or `operator()` on a sub-expression is made through `recurse`. -/
def ResolveExpression.acceptWith
    (recurse : ResolveExpression → ExpressionAST → Except Fault ResolveExpression)
    (self : ResolveExpression) : ExpressionAST → Except Fault ResolveExpression
  | ExpressionAST.null => Except.ok self
  | ExpressionAST.NameExpression ast => self.visitName ast
  | ExpressionAST.BinaryExpression binary_op_token left_expression right_expression =>
    if binary_op_token = TokenKind.T_COMMA ∧ right_expression.isQtMethod = true then
      if left_expression.isQtMethod = true then
        match self.thisObject with
        | Except.error e => Except.error e
        | Except.ok s => qtMethodMember s right_expression.qtMethodName
      else
        match recurse self left_expression with
        | Except.error e => Except.error e
        | Except.ok s => qtMethodMember s right_expression.qtMethodName
    else recurse self left_expression
  | ExpressionAST.CastExpression type_id _ => self.visitCast type_id
  | ExpressionAST.Condition => Except.ok self
  | ExpressionAST.ConditionalExpression _ left_expression right_expression =>
    if left_expression.isNull = true then recurse self right_expression
    else recurse self left_expression
  | ExpressionAST.CppCastExpression type_id _ => self.visitCast type_id
  | ExpressionAST.DeleteExpression _ => self.visitVoid
  | ExpressionAST.ArrayInitializer _ => Except.ok self
  | ExpressionAST.NewExpression new_type_id => self.visitNew new_type_id
  | ExpressionAST.TypeidExpression _ => self.visitTypeid
  | ExpressionAST.TypenameCallExpression _ => Except.ok self
  | ExpressionAST.TypeConstructorCall _ => Except.ok self
  | ExpressionAST.PostfixExpression base_expression postfix_expression_list =>
    match recurse self base_expression with
    | Except.error e => Except.error e
    | Except.ok s => acceptPostfixListWith recurse s postfix_expression_list
  | ExpressionAST.SizeofExpression _ => self.visitSizeof
  | ExpressionAST.NumericLiteral literal => self.visitNumericLiteral literal
  | ExpressionAST.BoolLiteral => self.visitBoolLiteral
  | ExpressionAST.ThisExpression => self.thisObject
  | ExpressionAST.CompoundExpression statement_list =>
    acceptLastStatementWith recurse self statement_list
  | ExpressionAST.NestedExpression expression => recurse self expression
  | ExpressionAST.StringLiteral => self.visitStringLiteral
  | ExpressionAST.ThrowExpression _ => Except.ok self
  | ExpressionAST.TypeId _ => Except.ok self
  | ExpressionAST.UnaryExpression unary_op_token expression =>
    match recurse self expression with
    | Except.error e => Except.error e
    | Except.ok s => Except.ok (s.unaryTransform unary_op_token)
  | ExpressionAST.CompoundLiteral _ _ => Except.ok self
  | ExpressionAST.ObjCMessageExpression receiver_expression selector _ =>
    match operatorCallWith (fun s => recurse s receiver_expression) self with
    | Except.error e => Except.error e
    | Except.ok r => Except.ok (objcMessage r.2 r.1 selector)
  | ExpressionAST.QtMethod declarator_id =>
    match declarator_id with
    | some nameAST => self.visitName nameAST
    | none => Except.ok self

/-- The visitor run with a bound on the depth of its recursion: `fuel` levels of the rules
are unfolded, and a call that would go deeper is answered by `bottom`. -/
def ResolveExpression.acceptFuel
    (bottom : ResolveExpression → ExpressionAST → Except Fault ResolveExpression) :
    Nat → ResolveExpression → ExpressionAST → Except Fault ResolveExpression
  | 0 => bottom
  | fuel + 1 => acceptWith (acceptFuel bottom fuel)

/-- An answer for the calls that go deeper than the bound: the abort on a read out of
range. -/
def outOfFuel (_ : ResolveExpression) (_ : ExpressionAST) : Except Fault ResolveExpression :=
  Except.error Fault.outOfRange

open ResolveExpression

/-! ## Properties of `removeDuplicates` -/

section RemoveDuplicates

variable {α : Type} [DecidableEq α]

theorem firstOccurrencesAfter_nil (seen : List α) : firstOccurrencesAfter seen [] = [] := by
  simp [firstOccurrencesAfter]

theorem firstOccurrencesAfter_cons (seen : List α) (x : α) (xs : List α) :
    firstOccurrencesAfter seen (x :: xs) =
      (if x ∈ seen then [] else [x]) ++ firstOccurrencesAfter (seen ++ [x]) xs := by
  unfold firstOccurrencesAfter
  rw [List.length_cons, List.range_succ_eq_map, List.filterMap_cons]
  simp only [List.getElem?_cons_zero, List.take_zero, List.append_nil, List.filterMap_map]
  have h : ∀ l : List Nat,
      List.filterMap ((fun i => match (x :: xs)[i]? with
          | some y => if y ∈ seen ++ List.take i (x :: xs) then none else some y
          | none => none) ∘ Nat.succ) l =
      List.filterMap (fun i => match xs[i]? with
          | some y => if y ∈ seen ++ [x] ++ List.take i xs then none else some y
          | none => none) l := by
    intro l
    congr 1
    funext i
    simp [List.take_succ_cons]
  rw [h]
  by_cases hx : x ∈ seen <;> simp [hx]

theorem removeDuplicates_loop_eq (xs : List α) :
    ∀ (uniqueList processed seen : List α), (∀ a, a ∈ processed ↔ a ∈ seen) →
      removeDuplicates.loop xs uniqueList processed
        = uniqueList ++ firstOccurrencesAfter seen xs := by
  induction xs with
  | nil => intro u p s _; simp [removeDuplicates.loop, firstOccurrencesAfter_nil]
  | cons x xs ih =>
    intro u p s hps
    rw [removeDuplicates.loop, firstOccurrencesAfter_cons]
    have hps2 : ∀ a, a ∈ x :: p ↔ a ∈ s ++ [x] := by
      intro a; simp [hps a]; tauto
    by_cases hx : x ∈ p
    · have hxs : x ∈ s := (hps x).1 hx
      have hps3 : ∀ a, a ∈ p ↔ a ∈ s ++ [x] := by
        intro a; simp [hps a]; intro h; rw [h]; exact hxs
      simp [hx, hxs, ih u p (s ++ [x]) hps3]
    · have hxs : x ∉ s := fun h => hx ((hps x).2 h)
      simp [hx, hxs, ih (u ++ [x]) (x :: p) (s ++ [x]) hps2]

theorem removeDuplicates_eq_firstOccurrences (xs : List α) :
    removeDuplicates xs = firstOccurrences xs := by
  unfold removeDuplicates firstOccurrences
  rw [removeDuplicates_loop_eq xs [] [] [] (fun _ => Iff.rfl)]
  simp

theorem mem_firstOccurrencesAfter (xs : List α) :
    ∀ (seen : List α) (a : α), a ∈ firstOccurrencesAfter seen xs ↔ a ∈ xs ∧ a ∉ seen := by
  induction xs with
  | nil => intro seen a; simp [firstOccurrencesAfter_nil]
  | cons x xs ih =>
    intro seen a
    rw [firstOccurrencesAfter_cons, List.mem_append, ih]
    by_cases hx : x ∈ seen
    · by_cases hax : a = x
      · subst hax; simp [hx]
      · simp [hx, hax]
    · by_cases hax : a = x
      · subst hax; simp [hx]
      · simp [hx, hax]

theorem nodup_firstOccurrencesAfter (xs : List α) :
    ∀ seen : List α, (firstOccurrencesAfter seen xs).Nodup := by
  induction xs with
  | nil => intro seen; simp [firstOccurrencesAfter_nil]
  | cons x xs ih =>
    intro seen
    rw [firstOccurrencesAfter_cons]
    by_cases hx : x ∈ seen
    · simpa [hx] using ih (seen ++ [x])
    · simp only [hx, if_false, List.singleton_append, List.nodup_cons]
      refine ⟨?_, ih (seen ++ [x])⟩
      rw [mem_firstOccurrencesAfter]
      simp

theorem sublist_firstOccurrencesAfter (xs : List α) :
    ∀ seen : List α, (firstOccurrencesAfter seen xs).Sublist xs := by
  induction xs with
  | nil => intro seen; simp [firstOccurrencesAfter_nil]
  | cons x xs ih =>
    intro seen
    rw [firstOccurrencesAfter_cons]
    by_cases hx : x ∈ seen
    · simpa [hx] using (ih (seen ++ [x])).cons x
    · simpa [hx] using (ih (seen ++ [x])).cons₂ x

theorem indexOf_firstOccurrencesAfter (xs : List α) :
    ∀ (seen : List α) (a b : α), a ∉ seen → b ∉ seen →
      ((firstOccurrencesAfter seen xs).indexOf a < (firstOccurrencesAfter seen xs).indexOf b
        ↔ xs.indexOf a < xs.indexOf b) := by
  induction xs with
  | nil => intro seen a b _ _; simp [firstOccurrencesAfter_nil]
  | cons x xs ih =>
    intro seen a b ha hb
    rw [firstOccurrencesAfter_cons]
    by_cases hx : x ∈ seen
    · have hax : x ≠ a := fun h => ha (h ▸ hx)
      have hbx : x ≠ b := fun h => hb (h ▸ hx)
      have ha2 : a ∉ seen ++ [x] := by simp [ha, Ne.symm hax]
      have hb2 : b ∉ seen ++ [x] := by simp [hb, Ne.symm hbx]
      simp only [hx, if_true, List.nil_append]
      rw [ih (seen ++ [x]) a b ha2 hb2, List.indexOf_cons_ne _ hax, List.indexOf_cons_ne _ hbx]
      omega
    · simp only [hx, if_false, List.singleton_append]
      by_cases hax : x = a
      · subst hax
        by_cases hbx : x = b
        · subst hbx; simp
        · simp [List.indexOf_cons_ne _ hbx]
      · by_cases hbx : x = b
        · subst hbx; simp
        · have ha2 : a ∉ seen ++ [x] := by simp [ha, Ne.symm hax]
          have hb2 : b ∉ seen ++ [x] := by simp [hb, Ne.symm hbx]
          rw [List.indexOf_cons_ne _ hax, List.indexOf_cons_ne _ hbx,
            List.indexOf_cons_ne _ hax, List.indexOf_cons_ne _ hbx]
          have := ih (seen ++ [x]) a b ha2 hb2
          omega

theorem nodup_removeDuplicates (xs : List α) : (removeDuplicates xs).Nodup := by
  rw [removeDuplicates_eq_firstOccurrences]
  exact nodup_firstOccurrencesAfter xs []

theorem mem_removeDuplicates (xs : List α) (a : α) : a ∈ removeDuplicates xs ↔ a ∈ xs := by
  rw [removeDuplicates_eq_firstOccurrences, firstOccurrences, mem_firstOccurrencesAfter]
  simp

theorem removeDuplicates_nil : removeDuplicates ([] : List α) = [] := rfl

theorem removeDuplicates_singleton (a : α) : removeDuplicates [a] = [a] := by
  simp [removeDuplicates, removeDuplicates.loop]

end RemoveDuplicates

/-! ## The entry point -/


theorem operatorCallWith_eq (visit : ResolveExpression → Except Fault ResolveExpression)
    (self : ResolveExpression) :
    operatorCallWith visit self =
      match visit { self with _results := [] } with
      | Except.error e => Except.error e
      | Except.ok s => Except.ok (removeDuplicates s._results, { s with _results := self._results }) :=
  rfl

theorem operatorCall_eq (self : ResolveExpression) (ast : ExpressionAST) :
    operatorCall self ast =
      match accept { self with _results := [] } ast with
      | Except.error e => Except.error e
      | Except.ok s => Except.ok (removeDuplicates s._results, { s with _results := self._results }) :=
  rfl

/-! ## Arity -/

theorem minNumberArgumentsFrom_eq (args : List Argument) :
    ∀ k, minNumberArgumentsFrom args k
      = k + (args.takeWhile (fun a => !a.hasInitializer)).length := by
  induction args with
  | nil => intro k; simp [minNumberArgumentsFrom]
  | cons a rest ih =>
    intro k
    unfold minNumberArgumentsFrom
    by_cases h : a.hasInitializer = true
    · simp [h]
    · simp [h, ih]; omega

theorem maybeValidPrototype_eq_true_iff (f : Function) (n : Nat) :
    maybeValidPrototype f n = true ↔
      (f.arguments.takeWhile (fun a => !a.hasInitializer)).length ≤ n
        ∧ (f.isVariadic = true ∨ n ≤ f.argumentCount) := by
  unfold maybeValidPrototype
  simp only [minNumberArgumentsFrom_eq, Nat.zero_add]
  by_cases h1 : n < (f.arguments.takeWhile (fun a => !a.hasInitializer)).length
  · simp [h1]
  · by_cases hv : f.isVariadic = true
    · simp [h1, hv]; omega
    · by_cases h2 : n > f.argumentCount
      · simp [h1, hv, h2]
      · simp [h1, hv, h2]; omega

/-! ## The unary transforms -/

theorem dereference_addressOf (results : List LookupItem) :
    dereference (addressOf results) = results := by
  induction results with
  | nil => rfl
  | cons p rest ih =>
    have step : dereference (addressOf (p :: rest)) = p :: dereference (addressOf rest) := by
      rcases p with ⟨⟨t, c, v, u⟩, s⟩
      rfl
    rw [step, ih]

theorem accept_unary (self : ResolveExpression) (op : TokenKind) (e : ExpressionAST) :
    accept self (ExpressionAST.UnaryExpression op e) =
      match accept self e with
      | Except.error err => Except.error err
      | Except.ok s => Except.ok (s.unaryTransform op) := by
  rw [accept]

theorem addressOf_symbols (results : List LookupItem) :
    (addressOf results).map (fun c => c.lastVisibleSymbol)
      = results.map (fun c => c.lastVisibleSymbol) := by
  unfold addressOf
  rw [List.map_map]
  rfl

theorem dereference_symbols (results : List LookupItem) :
    (dereference results).map (fun c => c.lastVisibleSymbol)
      = (results.filter (fun p => isPointerType p.type)).map (fun c => c.lastVisibleSymbol) := by
  induction results with
  | nil => rfl
  | cons p rest ih =>
    unfold dereference at ih ⊢
    simp only [List.filterMap_cons, List.filter_cons, isPointerType] at ih ⊢
    have hsym : ∀ ty : FullySpecifiedType,
        (p.setType ty).lastVisibleSymbol = p.lastVisibleSymbol := fun _ => rfl
    cases hp : p.type.type <;> simp [ih, hsym]

/-! ## Base and member resolution -/

theorem collapseAmbiguous_pointer (context : LookupContext) (ty elementType : FullySpecifiedType)
    (h : ty.type = Type_.pointerType elementType) : collapseAmbiguous context ty = ty := by
  unfold collapseAmbiguous
  rw [h]

theorem followTypedef_none (context : LookupContext) (candidates : List SymbolId)
    (current : FullySpecifiedType × Option SymbolId)
    (h : ∀ c ∈ candidates,
      ((context.symbol c).isTypedef && isNamedType (context.symbol c).type) = false
        ∧ (context.symbol c).kind ≠ SymbolKind.TypenameArgument) :
    followTypedef context candidates current = current := by
  induction candidates with
  | nil => rfl
  | cons c rest ih =>
    have hc := h c (List.mem_cons_self c rest)
    unfold followTypedef
    rw [hc.1]
    simp only [Bool.false_eq_true, if_false, hc.2]
    exact ih (fun d hd => h d (List.mem_cons_of_mem c hd))

theorem resolveBaseExpression_arrow_pointer (self : ResolveExpression) (result : LookupItem)
    (rest : List LookupItem) (flag : Option Bool) (elementType : FullySpecifiedType)
    (h : (self._context.simplified result.type).type = Type_.pointerType elementType) :
    resolveBaseExpression self (result :: rest) TokenKind.T_ARROW flag =
      Except.ok (removeDuplicates (appendPointee self [] elementType result.lastVisibleSymbol),
        flag) := by
  unfold resolveBaseExpression
  simp only [if_true]
  rw [collapseAmbiguous_pointer _ _ _ h]
  unfold resolveArrow
  rw [h]

theorem resolveBaseExpression_dot_pointer (self : ResolveExpression) (result : LookupItem)
    (rest : List LookupItem) (flag : Bool) (elementType : FullySpecifiedType)
    (h : (self._context.simplified result.type).type = Type_.pointerType elementType) :
    resolveBaseExpression self (result :: rest) TokenKind.T_DOT (some flag) =
      Except.ok (removeDuplicates
        (resolveDot self result (self._context.simplified elementType)), some true) := by
  unfold resolveBaseExpression
  have hne : ¬ (TokenKind.T_DOT = TokenKind.T_ARROW) := by decide
  simp only [hne, if_false, if_true]
  rw [collapseAmbiguous_pointer _ _ _ h]
  unfold decay
  simp only [h]

/-! ## The `this` expression -/

theorem thisObjectFrom_member (self : ResolveExpression) (scope : Scope) :
    ∀ (b n : Bool) (f : SymbolId) (enc : Scope) (cf cb cn : Bool) (k : SymbolId) (ce cc : Scope),
      innermostFunctionScope scope
        = Scope.scope true b n (some f) enc (Scope.scope cf cb cn (some k) ce cc) →
      (self._context.symbol f).kind = SymbolKind.Function →
      (self._context.symbol k).kind = SymbolKind.Class →
      thisObjectFrom self scope =
        self.addResult
          (FullySpecifiedType.ofType (Type_.pointerType
            (FullySpecifiedType.ofType (Type_.namedType (self._context.symbol k).name))))
          (some f) := by
  induction scope with
  | null => intro b n f enc cf cb cn k ce cc h; simp [innermostFunctionScope] at h
  | scope isFun isBlock isNs owner enclosing cls ih _ =>
    intro b n f enc cf cb cn k ce cc h hf hk
    unfold innermostFunctionScope at h
    unfold thisObjectFrom
    by_cases hfun : isFun = true
    · simp only [hfun, if_true] at h ⊢
      simp only [Scope.scope.injEq] at h
      obtain ⟨_, _, _, ho, _, hc⟩ := h
      subst ho hc
      simp [asFunction, hf, hk]
    · simp only [hfun, if_false] at h ⊢
      simp only [Bool.false_eq_true, if_false]
      exact ih b n f enc cf cb cn k ce cc h hf hk

/-! ## Leaves that add one candidate -/

theorem addResult_fresh (self : ResolveExpression) (ty : FullySpecifiedType) (s : SymbolId) :
    ({ self with _results := [] } : ResolveExpression).addResult ty (some s)
      = Except.ok { self with _results := [{ type := ty, lastVisibleSymbol := some s }] } := by
  simp [addResult, addResultItem]

theorem addResult_fresh_default (self : ResolveExpression) (ty : FullySpecifiedType)
    (s : SymbolId) (h : self.defaultSymbol = some s) :
    ({ self with _results := [] } : ResolveExpression).addResult ty none
      = Except.ok { self with _results := [{ type := ty, lastVisibleSymbol := some s }] } := by
  have h2 : ({ self with _results := [] } : ResolveExpression).defaultSymbol = some s := h
  simp [addResult, addResultItem, h2]

theorem operatorCall_of_addResult (self : ResolveExpression) (ast : ExpressionAST)
    (ty : FullySpecifiedType) (s : SymbolId) (h : self.defaultSymbol = some s)
    (hacc : ∀ r : ResolveExpression, accept r ast = r.addResult ty none) :
    operatorCall self ast
      = Except.ok ([{ type := ty, lastVisibleSymbol := some s }], self) := by
  rw [operatorCall_eq, hacc, addResult_fresh_default self ty s h]
  simp [removeDuplicates_singleton]

/-! ## Every candidate has a declaring symbol -/

theorem allHaveSymbol_nil : allHaveSymbol [] := by
  intro c hc; cases hc

theorem allHaveSymbol_append {a b : List LookupItem} (ha : allHaveSymbol a)
    (hb : allHaveSymbol b) : allHaveSymbol (a ++ b) := by
  intro c hc
  rcases List.mem_append.1 hc with h | h
  · exact ha c h
  · exact hb c h

theorem allHaveSymbol_removeDuplicates {a : List LookupItem} (ha : allHaveSymbol a) :
    allHaveSymbol (removeDuplicates a) := by
  intro c hc
  exact ha c ((mem_removeDuplicates a c).1 hc)

theorem defaultSymbol_congr {s self : ResolveExpression} (h1 : s._scope = self._scope)
    (h2 : s._context = self._context) : s.defaultSymbol = self.defaultSymbol := by
  unfold defaultSymbol
  rw [h1, h2]

theorem keepsSymbols_ok (self : ResolveExpression) (h : allHaveSymbol self._results) :
    keepsSymbols self (Except.ok self) :=
  ⟨h, rfl, rfl⟩

theorem keepsSymbols_bind (self : ResolveExpression) (out : Except Fault ResolveExpression)
    (next : ResolveExpression → Except Fault ResolveExpression)
    (h1 : keepsSymbols self out)
    (h2 : ∀ s, allHaveSymbol s._results → keepsSymbols s (next s)) :
    keepsSymbols self
      (match out with
       | Except.error e => Except.error e
       | Except.ok s => next s) := by
  cases out with
  | error e => exact h1
  | ok s =>
    obtain ⟨hs, hscope, hctx⟩ := h1
    have h3 := h2 s hs
    simp only
    cases hn : next s with
    | error e =>
      rw [hn] at h3
      intro he
      rw [← defaultSymbol_congr hscope hctx]
      exact h3 he
    | ok t =>
      rw [hn] at h3
      exact ⟨h3.1, h3.2.1.trans hscope, h3.2.2.trans hctx⟩

theorem keepsSymbols_addResultItem (self : ResolveExpression) (r : LookupItem)
    (h : allHaveSymbol self._results)
    (hr : r.lastVisibleSymbol = none → self.defaultSymbol = none) :
    keepsSymbols self (self.addResultItem r) := by
  unfold addResultItem
  by_cases hnone : r.lastVisibleSymbol = none
  · simp only [hnone, if_true]
    intro _
    exact hr hnone
  · simp only [hnone, if_false]
    by_cases hmem : r ∈ self._results
    · simp only [hmem, if_true]
      exact keepsSymbols_ok self h
    · simp only [hmem, if_false]
      refine ⟨?_, rfl, rfl⟩
      apply allHaveSymbol_append h
      intro c hc
      rw [List.mem_singleton.1 hc]
      exact hnone

theorem keepsSymbols_addResult (self : ResolveExpression) (ty : FullySpecifiedType)
    (symbol : Option SymbolId) (h : allHaveSymbol self._results) :
    keepsSymbols self (self.addResult ty symbol) := by
  unfold addResult
  apply keepsSymbols_addResultItem self _ h
  cases symbol with
  | none => intro hd; exact hd
  | some s => intro hd; cases hd

theorem keepsSymbols_foldlM {β : Type} (step : ResolveExpression → β → Except Fault ResolveExpression)
    (hstep : ∀ s x, allHaveSymbol s._results → keepsSymbols s (step s x)) (xs : List β) :
    ∀ self : ResolveExpression, allHaveSymbol self._results →
      keepsSymbols self (xs.foldlM step self) := by
  induction xs with
  | nil => intro self h; exact keepsSymbols_ok self h
  | cons x rest ih =>
    intro self h
    rw [List.foldlM_cons]
    have := keepsSymbols_bind self (step self x) (fun s => rest.foldlM step s) (hstep self x h)
      (fun s hs => ih s hs)
    cases hx : step self x with
    | error e => rw [hx] at this; exact this
    | ok s => rw [hx] at this; exact this

theorem foldlM_ne_error {β γ : Type} (step : γ → β → Except Fault γ) (f : Fault)
    (h : ∀ acc x, step acc x ≠ Except.error f) (xs : List β) :
    ∀ acc : γ, xs.foldlM step acc ≠ Except.error f := by
  induction xs with
  | nil => intro acc hc; cases hc
  | cons x rest ih =>
    intro acc
    rw [List.foldlM_cons]
    cases hx : step acc x with
    | error e =>
      intro hc
      apply h acc x
      rw [hx]
      exact hc
    | ok s => exact ih s

theorem listHasSymbols_foldlM {β : Type}
    (step : List LookupItem → β → Except Fault (List LookupItem))
    (hstep : ∀ acc x, allHaveSymbol acc → listHasSymbols id (step acc x)) (xs : List β) :
    ∀ acc : List LookupItem, allHaveSymbol acc → listHasSymbols id (xs.foldlM step acc) := by
  induction xs with
  | nil => intro acc h; exact h
  | cons x rest ih =>
    intro acc h
    rw [List.foldlM_cons]
    have h1 := hstep acc x h
    cases hx : step acc x with
    | error e => rw [hx] at h1; exact h1
    | ok s => rw [hx] at h1; exact ih s h1

theorem allHaveSymbol_snoc {acc : List LookupItem} (h : allHaveSymbol acc)
    (ty : FullySpecifiedType) (s : SymbolId) :
    allHaveSymbol (acc ++ [{ type := ty, lastVisibleSymbol := some s }]) := by
  apply allHaveSymbol_append h
  intro c hc
  rw [List.mem_singleton.1 hc]
  simp

theorem listHasSymbols_resolveMemberStep (self : ResolveExpression) (className : Name)
    (acc : List LookupItem) (candidate : SymbolId) (hacc : allHaveSymbol acc) :
    listHasSymbols id (resolveMemberStep self className acc candidate) := by
  unfold resolveMemberStep
  simp only
  split
  · intro he; cases he
  · exact allHaveSymbol_snoc hacc _ _
  · exact allHaveSymbol_snoc hacc _ _

theorem listHasSymbols_resolveMember (self : ResolveExpression) (memberName : Name)
    (klass : Option SymbolId) (className : Name) :
    listHasSymbols id (resolveMember self memberName klass className) := by
  unfold resolveMember
  cases klass with
  | none => exact allHaveSymbol_nil
  | some k =>
    simp only
    generalize (if className = Name.null then (self._context.symbol k).name else className) = cn
    by_cases hnull : cn = Name.null
    · simp only [hnull, if_true]
      exact allHaveSymbol_nil
    · simp only [hnull, if_false]
      have h := listHasSymbols_foldlM _ (listHasSymbols_resolveMemberStep self cn)
        (self._context.lookupInScope memberName (self._context.symbol k).members) []
        allHaveSymbol_nil
      revert h
      generalize List.foldlM (resolveMemberStep self cn) []
        (self._context.lookupInScope memberName (self._context.symbol k).members) = out
      intro h
      cases out with
      | error e => exact h
      | ok r => exact allHaveSymbol_removeDuplicates h

theorem allHaveSymbol_resolveMemberObjC (self : ResolveExpression) (memberName : Name)
    (klass : Option SymbolId) : allHaveSymbol (resolveMemberObjC self memberName klass) := by
  unfold resolveMemberObjC
  cases klass with
  | none => exact allHaveSymbol_nil
  | some k =>
    simp only
    split
    · exact allHaveSymbol_nil
    · apply allHaveSymbol_removeDuplicates
      intro c hc
      rcases List.mem_map.1 hc with ⟨x, _, rfl⟩
      simp

theorem arrowLookupStep_ne_assertion (self : ResolveExpression) (result : LookupItem)
    (acc : List LookupItem) (s : SymbolId) :
    arrowLookupStep self result acc s ≠ Except.error Fault.assertion := by
  unfold arrowLookupStep
  repeat' split
  all_goals (intro h; cases h)

theorem arrowOverloadStep_ne_assertion (self : ResolveExpression) (name : Name)
    (acc : List LookupItem) (s : SymbolId) :
    arrowOverloadStep self name acc s ≠ Except.error Fault.assertion := by
  unfold arrowOverloadStep
  dsimp only
  repeat' split
  all_goals (intro h; cases h)

theorem resolveArrow_ne_assertion (self : ResolveExpression) (result : LookupItem)
    (ty : FullySpecifiedType) :
    resolveArrow self result ty ≠ Except.error Fault.assertion := by
  unfold resolveArrow
  split
  · rename_i name _
    cases h1 : List.foldlM (arrowLookupStep self result) []
        (self._context.lookup name result.lastVisibleSymbol) with
    | error e =>
      simp only
      intro h
      apply foldlM_ne_error _ Fault.assertion (arrowLookupStep_ne_assertion self result)
        (self._context.lookup name result.lastVisibleSymbol) []
      rw [h1]
      simp only [Except.error.injEq] at h
      rw [h]
    | ok r =>
      simp only
      split
      · exact foldlM_ne_error _ Fault.assertion (arrowOverloadStep_ne_assertion self name) _ _
      · intro h; cases h
  · intro h; cases h
  · intro h; cases h

theorem resolveBaseExpression_ne_assertion (self : ResolveExpression)
    (baseResults : List LookupItem) (accessOp : TokenKind) (flag : Option Bool) :
    resolveBaseExpression self baseResults accessOp flag ≠ Except.error Fault.assertion := by
  unfold resolveBaseExpression
  cases baseResults with
  | nil => intro h; cases h
  | cons result rest =>
    simp only
    split
    · cases h1 : resolveArrow self result
          (collapseAmbiguous self._context (self._context.simplified result.type)) with
      | error e =>
        simp only
        intro h
        apply resolveArrow_ne_assertion self result
          (collapseAmbiguous self._context (self._context.simplified result.type))
        rw [h1]
        simp only [Except.error.injEq] at h
        rw [h]
      | ok r => intro h; cases h
    · split
      · intro h; cases h
      · intro h; cases h

theorem listHasSymbols_memberStep (self : ResolveExpression) (memberName : Name)
    (acc : List LookupItem) (r : LookupItem) (hacc : allHaveSymbol acc) :
    listHasSymbols id (memberStep self memberName acc r) := by
  unfold memberStep
  split
  · rename_i k _
    have h := listHasSymbols_resolveMember self memberName (some k) Name.null
    cases hm : resolveMember self memberName (some k) Name.null with
    | error e => rw [hm] at h; exact h
    | ok members => rw [hm] at h; exact allHaveSymbol_append hacc h
  · split
    · apply allHaveSymbol_append hacc
      intro c hc
      rcases List.mem_map.1 hc with ⟨x, _, rfl⟩
      simp
    · exact hacc
  · exact hacc

theorem listHasSymbols_resolveMemberExpression (self : ResolveExpression)
    (baseResults : List LookupItem) (accessOp : TokenKind) (memberName : Name)
    (flag : Option Bool) :
    listHasSymbols Prod.fst
      (resolveMemberExpression self baseResults accessOp memberName flag) := by
  unfold resolveMemberExpression
  cases hb : resolveBaseExpression self baseResults accessOp flag with
  | error e =>
    simp only
    intro he
    apply resolveBaseExpression_ne_assertion self baseResults accessOp flag
    rw [hb, he]
  | ok classObjectResults =>
    simp only
    have h := listHasSymbols_foldlM _ (listHasSymbols_memberStep self memberName)
      classObjectResults.1 [] allHaveSymbol_nil
    cases hm : List.foldlM (memberStep self memberName) [] classObjectResults.1 with
    | error e => rw [hm] at h; exact h
    | ok results => rw [hm] at h; exact allHaveSymbol_removeDuplicates h

theorem keepsSymbols_of_same (s self : ResolveExpression) (h1 : s._scope = self._scope)
    (h2 : s._context = self._context) {out : Except Fault ResolveExpression}
    (h : keepsSymbols s out) : keepsSymbols self out := by
  cases out with
  | error e =>
    intro he
    rw [← defaultSymbol_congr h1 h2]
    exact h he
  | ok t => exact ⟨h.1, h.2.1.trans h1, h.2.2.trans h2⟩

theorem keepsSymbols_error (self : ResolveExpression) (e : Fault) (h : e ≠ Fault.assertion) :
    keepsSymbols self (Except.error e) :=
  fun he => absurd he h

theorem keepsSymbols_assignResults (self : ResolveExpression)
    (out : Except Fault (List LookupItem × Option Bool))
    (h : listHasSymbols Prod.fst out) :
    keepsSymbols self (self.assignResults out) := by
  cases out with
  | error e => exact keepsSymbols_error self e h
  | ok r => exact ⟨h, rfl, rfl⟩

theorem keepsSymbols_visitMemberAccess (self : ResolveExpression) (access_token : TokenKind)
    (member_name : Option NameAST) :
    keepsSymbols self (visitMemberAccess self access_token member_name) := by
  unfold visitMemberAccess
  exact keepsSymbols_assignResults self _ (listHasSymbols_resolveMemberExpression _ _ _ _ _)

theorem keepsSymbols_qtMethodMember (self : ResolveExpression) (memberName : Option Name)
    (h : allHaveSymbol self._results) :
    keepsSymbols self (qtMethodMember self memberName) := by
  unfold qtMethodMember
  cases memberName with
  | none => exact keepsSymbols_ok self h
  | some name =>
    exact keepsSymbols_assignResults self _ (listHasSymbols_resolveMemberExpression _ _ _ _ _)

theorem nestedNameSpecifier_ne_assertion (names : NameList) (isGlobal : Bool) :
    nestedNameSpecifier names isGlobal ≠ Except.error Fault.assertion := by
  unfold nestedNameSpecifier
  repeat' split
  all_goals (intro h; cases h)

theorem keepsSymbols_thisObjectFrom (self : ResolveExpression)
    (h : allHaveSymbol self._results) (scope : Scope) :
    keepsSymbols self (thisObjectFrom self scope) := by
  induction scope with
  | null => exact keepsSymbols_ok self h
  | scope isFun isBlock isNs owner enclosing cls ih _ =>
    unfold thisObjectFrom
    dsimp only
    repeat' split
    all_goals first
      | exact ih
      | exact keepsSymbols_addResult self _ _ h
      | (intro he; subst he
         exact absurd (by assumption) (nestedNameSpecifier_ne_assertion _ _))
      | (apply keepsSymbols_error; intro hc; cases hc)

theorem keepsSymbols_addSymbols (self : ResolveExpression) (symbols : List SymbolId)
    (h : allHaveSymbol self._results) : keepsSymbols self (addSymbols self symbols) := by
  unfold addSymbols
  exact keepsSymbols_foldlM _ (fun s x hs => keepsSymbols_addResult s _ _ hs) symbols self h

theorem keepsSymbols_visitName (self : ResolveExpression) (ast : NameAST)
    (h : allHaveSymbol self._results) : keepsSymbols self (visitName self ast) := by
  cases ast with
  | QualifiedName name =>
    simp only [visitName]
    split
    · exact keepsSymbols_ok self h
    · exact keepsSymbols_addSymbols self _ h
  | SimpleName name => exact keepsSymbols_addSymbols self _ h
  | TemplateId name => exact keepsSymbols_addSymbols self _ h
  | DestructorName name =>
    simp only [visitName, visitVoid]
    exact keepsSymbols_addResult self _ _ h
  | OperatorFunctionId name => exact keepsSymbols_ok self h
  | ConversionFunctionId name => exact keepsSymbols_ok self h

theorem keepsSymbols_callOverloadStep (self : ResolveExpression) (name : Name)
    (lastVisibleSymbol : Option SymbolId) (n : Nat) (overload : SymbolId)
    (h : allHaveSymbol self._results) :
    keepsSymbols self (callOverloadStep self name lastVisibleSymbol n overload) := by
  unfold callOverloadStep
  repeat' split
  all_goals first
    | exact keepsSymbols_addResult self _ _ h
    | exact keepsSymbols_ok self h
    | (apply keepsSymbols_error; intro hc; cases hc)

theorem keepsSymbols_callStep (n : Nat) (self : ResolveExpression) (result : LookupItem)
    (h : allHaveSymbol self._results) : keepsSymbols self (callStep n self result) := by
  unfold callStep
  dsimp only
  repeat' split
  all_goals first
    | exact keepsSymbols_addResult self _ _ h
    | exact keepsSymbols_ok self h
    | exact keepsSymbols_foldlM _
        (fun s x hs => keepsSymbols_callOverloadStep s _ _ _ x hs) _ self h

theorem keepsSymbols_visitCall (self : ResolveExpression) (n : Nat) :
    keepsSymbols self (visitCall self n) := by
  unfold visitCall
  dsimp only
  apply keepsSymbols_of_same { self with _results := [] } self rfl rfl
  exact keepsSymbols_foldlM _ (keepsSymbols_callStep n) _ _ allHaveSymbol_nil

theorem keepsSymbols_arrayOverloadStep (self : ResolveExpression) (name : Name)
    (lastVisibleSymbol : Option SymbolId) (overload : SymbolId)
    (h : allHaveSymbol self._results) :
    keepsSymbols self (arrayOverloadStep self name lastVisibleSymbol overload) := by
  unfold arrayOverloadStep
  repeat' split
  all_goals first
    | exact keepsSymbols_addResult self _ _ h
    | exact keepsSymbols_ok self h
    | (apply keepsSymbols_error; intro hc; cases hc)

theorem keepsSymbols_arrayStep (self : ResolveExpression) (result : LookupItem)
    (h : allHaveSymbol self._results) : keepsSymbols self (arrayStep self result) := by
  unfold arrayStep
  dsimp only
  repeat' split
  all_goals first
    | exact keepsSymbols_addResult self _ _ h
    | exact keepsSymbols_ok self h
    | exact keepsSymbols_foldlM _
        (fun s x hs => keepsSymbols_arrayOverloadStep s _ _ x hs) _ self h

theorem allHaveSymbol_addressOf {results : List LookupItem} (h : allHaveSymbol results) :
    allHaveSymbol (addressOf results) := by
  intro c hc
  unfold addressOf at hc
  rcases List.mem_map.1 hc with ⟨p, hp, rfl⟩
  exact h p hp

theorem allHaveSymbol_dereference {results : List LookupItem} (h : allHaveSymbol results) :
    allHaveSymbol (dereference results) := by
  intro c hc
  unfold dereference at hc
  rcases List.mem_filterMap.1 hc with ⟨p, hp, hpc⟩
  split at hpc
  · simp only [Option.some.injEq] at hpc
    rw [← hpc]
    exact h p hp
  · cases hpc

theorem keepsSymbols_unaryTransform (self : ResolveExpression) (op : TokenKind)
    (h : allHaveSymbol self._results) :
    keepsSymbols self (Except.ok (unaryTransform self op)) := by
  unfold unaryTransform
  split
  · exact ⟨allHaveSymbol_addressOf h, rfl, rfl⟩
  · split
    · exact ⟨allHaveSymbol_dereference h, rfl, rfl⟩
    · exact keepsSymbols_ok self h

theorem objcMessage_fold (selector : Name) (symbols : List SymbolId) :
    ∀ self : ResolveExpression, allHaveSymbol self._results →
      keepsSymbols self (Except.ok (symbols.foldl
        (fun s resolvedSymbol =>
          if (s._context.symbol resolvedSymbol).kind = SymbolKind.ObjCClass then
            { s with _results := s._results ++ resolveMemberObjC s selector (some resolvedSymbol) }
          else s)
        self)) := by
  induction symbols with
  | nil => intro self h; exact keepsSymbols_ok self h
  | cons x rest ih =>
    intro self h
    rw [List.foldl_cons]
    split
    · have := ih { self with _results := self._results ++ resolveMemberObjC self selector (some x) }
        (allHaveSymbol_append h (allHaveSymbol_resolveMemberObjC _ _ _))
      exact keepsSymbols_of_same _ self rfl rfl this
    · exact ih self h

theorem keepsSymbols_objcMessage (self : ResolveExpression) (receiverResults : List LookupItem)
    (selector : Name) (h : allHaveSymbol self._results) :
    keepsSymbols self (Except.ok (objcMessage self receiverResults selector)) := by
  unfold objcMessage
  cases receiverResults with
  | nil => exact keepsSymbols_ok self h
  | cons result rest =>
    dsimp only
    split
    · exact objcMessage_fold selector _ self h
    · exact keepsSymbols_ok self h

theorem keepsSymbols_operatorCallWith
    (visit : ResolveExpression → Except Fault ResolveExpression) (self : ResolveExpression)
    (hv : ∀ s, allHaveSymbol s._results → keepsSymbols s (visit s)) :
    match operatorCallWith visit self with
    | Except.ok r =>
      allHaveSymbol r.1 ∧ r.2._results = self._results ∧ r.2._scope = self._scope
        ∧ r.2._context = self._context
    | Except.error e => e = Fault.assertion → self.defaultSymbol = none := by
  rw [operatorCallWith_eq]
  have h := hv { self with _results := [] } allHaveSymbol_nil
  revert h
  generalize visit { self with _results := [] } = out
  intro h
  cases out with
  | error e => exact h
  | ok s => exact ⟨allHaveSymbol_removeDuplicates h.1, rfl, h.2.1, h.2.2⟩

mutual
theorem keepsSymbols_accept : ∀ (ast : ExpressionAST) (self : ResolveExpression),
    allHaveSymbol self._results → keepsSymbols self (accept self ast)
  | ExpressionAST.null, self, h => by rw [accept]; exact keepsSymbols_ok self h
  | ExpressionAST.NameExpression ast, self, h => by
    rw [accept]; exact keepsSymbols_visitName self ast h
  | ExpressionAST.BinaryExpression op left right, self, h => by
    rw [accept]
    split
    · split
      · exact keepsSymbols_bind self _ _ (keepsSymbols_thisObjectFrom self h self._scope)
          (fun s hs => keepsSymbols_qtMethodMember s _ hs)
      · exact keepsSymbols_bind self _ _ (keepsSymbols_accept left self h)
          (fun s hs => keepsSymbols_qtMethodMember s _ hs)
    · exact keepsSymbols_accept left self h
  | ExpressionAST.CastExpression type_id _, self, h => by
    rw [accept]; exact keepsSymbols_addResult self _ _ h
  | ExpressionAST.Condition, self, h => by rw [accept]; exact keepsSymbols_ok self h
  | ExpressionAST.ConditionalExpression _ left right, self, h => by
    rw [accept]
    split
    · exact keepsSymbols_accept right self h
    · exact keepsSymbols_accept left self h
  | ExpressionAST.CppCastExpression type_id _, self, h => by
    rw [accept]; exact keepsSymbols_addResult self _ _ h
  | ExpressionAST.DeleteExpression _, self, h => by
    rw [accept]; exact keepsSymbols_addResult self _ _ h
  | ExpressionAST.ArrayInitializer _, self, h => by rw [accept]; exact keepsSymbols_ok self h
  | ExpressionAST.NewExpression new_type_id, self, h => by
    rw [accept]
    unfold visitNew
    cases new_type_id with
    | none => exact keepsSymbols_ok self h
    | some t => exact keepsSymbols_addResult self _ _ h
  | ExpressionAST.TypeidExpression _, self, h => by
    rw [accept]; unfold visitTypeid; exact keepsSymbols_addResult self _ _ h
  | ExpressionAST.TypenameCallExpression _, self, h => by
    rw [accept]; exact keepsSymbols_ok self h
  | ExpressionAST.TypeConstructorCall _, self, h => by
    rw [accept]; exact keepsSymbols_ok self h
  | ExpressionAST.PostfixExpression base ops, self, h => by
    rw [accept]
    exact keepsSymbols_bind self _ _ (keepsSymbols_accept base self h)
      (fun s hs => keepsSymbols_acceptPostfixList ops s hs)
  | ExpressionAST.SizeofExpression _, self, h => by
    rw [accept]; unfold visitSizeof; exact keepsSymbols_addResult self _ _ h
  | ExpressionAST.NumericLiteral literal, self, h => by
    rw [accept]; unfold visitNumericLiteral; exact keepsSymbols_addResult self _ _ h
  | ExpressionAST.BoolLiteral, self, h => by
    rw [accept]; exact keepsSymbols_addResult self _ _ h
  | ExpressionAST.ThisExpression, self, h => by
    rw [accept]; exact keepsSymbols_thisObjectFrom self h self._scope
  | ExpressionAST.CompoundExpression statements, self, h => by
    rw [accept]; exact keepsSymbols_acceptLastStatement statements self h
  | ExpressionAST.NestedExpression expression, self, h => by
    rw [accept]; exact keepsSymbols_accept expression self h
  | ExpressionAST.StringLiteral, self, h => by
    rw [accept]; unfold visitStringLiteral; exact keepsSymbols_addResult self _ _ h
  | ExpressionAST.ThrowExpression _, self, h => by rw [accept]; exact keepsSymbols_ok self h
  | ExpressionAST.TypeId _, self, h => by rw [accept]; exact keepsSymbols_ok self h
  | ExpressionAST.UnaryExpression op expression, self, h => by
    rw [accept]
    exact keepsSymbols_bind self _ (fun s => Except.ok (s.unaryTransform op))
      (keepsSymbols_accept expression self h)
      (fun s hs => keepsSymbols_unaryTransform s op hs)
  | ExpressionAST.CompoundLiteral _ _, self, h => by rw [accept]; exact keepsSymbols_ok self h
  | ExpressionAST.ObjCMessageExpression receiver selector _, self, h => by
    rw [accept]
    have hcall := keepsSymbols_operatorCallWith (fun s => accept s receiver) self
      (fun s hs => keepsSymbols_accept receiver s hs)
    revert hcall
    generalize operatorCallWith (fun s => accept s receiver) self = out
    intro hcall
    cases out with
    | error e => exact hcall
    | ok r =>
      have hr : allHaveSymbol r.2._results := by rw [hcall.2.1]; exact h
      exact keepsSymbols_of_same _ _ hcall.2.2.1 hcall.2.2.2
        (keepsSymbols_objcMessage r.2 r.1 selector hr)
  | ExpressionAST.QtMethod declarator_id, self, h => by
    cases declarator_id with
    | none => rw [accept]; exact keepsSymbols_ok self h
    | some nameAST => rw [accept]; exact keepsSymbols_visitName self nameAST h
theorem keepsSymbols_acceptPostfixList : ∀ (ops : PostfixListAST) (self : ResolveExpression),
    allHaveSymbol self._results → keepsSymbols self (acceptPostfixList self ops)
  | PostfixListAST.nil, self, h => by rw [acceptPostfixList]; exact keepsSymbols_ok self h
  | PostfixListAST.cons value next, self, h => by
    rw [acceptPostfixList]
    exact keepsSymbols_bind self _ _ (keepsSymbols_acceptPostfix value self h)
      (fun s hs => keepsSymbols_acceptPostfixList next s hs)
theorem keepsSymbols_acceptPostfix : ∀ (op : PostfixAST) (self : ResolveExpression),
    allHaveSymbol self._results → keepsSymbols self (acceptPostfix self op)
  | PostfixAST.Call expression_list, self, _ => by
    rw [acceptPostfix]; exact keepsSymbols_visitCall self _
  | PostfixAST.ArrayAccess expression, self, _ => by
    rw [acceptPostfix]
    have hcall := keepsSymbols_operatorCallWith (fun s => accept s expression)
      { self with _results := [] } (fun s hs => keepsSymbols_accept expression s hs)
    revert hcall
    generalize operatorCallWith (fun s => accept s expression) { self with _results := [] } = out
    intro hcall
    cases out with
    | error e => exact hcall
    | ok r =>
      have hr : allHaveSymbol r.2._results := by rw [hcall.2.1]; exact allHaveSymbol_nil
      exact keepsSymbols_of_same _ self hcall.2.2.1 hcall.2.2.2
        (keepsSymbols_foldlM _ keepsSymbols_arrayStep _ r.2 hr)
  | PostfixAST.MemberAccess access_token member_name, self, _ => by
    rw [acceptPostfix]; exact keepsSymbols_visitMemberAccess self _ _
  | PostfixAST.PostIncrDecr _, self, h => by rw [acceptPostfix]; exact keepsSymbols_ok self h
theorem keepsSymbols_acceptLastStatement : ∀ (statements : StatementListAST)
    (self : ResolveExpression),
    allHaveSymbol self._results → keepsSymbols self (acceptLastStatement self statements)
  | StatementListAST.nil, self, h => by rw [acceptLastStatement]; exact keepsSymbols_ok self h
  | StatementListAST.cons (StatementAST.ExpressionStatement expression) next, self, h => by
    cases next with
    | nil => rw [acceptLastStatement]; exact keepsSymbols_accept expression self h
    | cons v n =>
      rw [acceptLastStatement]
      exact keepsSymbols_acceptLastStatement (StatementListAST.cons v n) self h
end

/-! ## The claims -/

/-- C1. The candidate list returned by the entry point `operator()` never holds two
candidates with equal type and the same declaring symbol, whatever the expression,
the scope, the lookup context and the state of the resolver. -/
theorem operatorCall_no_duplicates (self : ResolveExpression) (ast : ExpressionAST)
    (results : List LookupItem) (after : ResolveExpression)
    (h : operatorCall self ast = Except.ok (results, after)) :
    results.Pairwise
      (fun a b => ¬ (a.type = b.type ∧ a.lastVisibleSymbol = b.lastVisibleSymbol)) := by
  rw [operatorCall_eq] at h
  cases hacc : accept { self with _results := [] } ast with
  | error e => rw [hacc] at h; cases h
  | ok s =>
    rw [hacc] at h
    simp only [Except.ok.injEq, Prod.mk.injEq] at h
    rw [← h.1]
    refine (nodup_removeDuplicates _).imp ?_
    intro a b hne hab
    apply hne
    cases a; cases b
    simp only at hab
    simp [hab.1, hab.2]

/-- Witness of C1: `*obj()` in the sample, where the two overloads of `operator()` return
`int *const` and `int *`; the dereference turns both candidates into `int` with the same
symbol, and one of them is returned. -/
theorem operatorCall_no_duplicates_witness :
    operatorCall (ofScope Scope.null sampleContext) sampleDereferencedCall
      = Except.ok ([{ type := intTy, lastVisibleSymbol := some 1 }],
          ofScope Scope.null sampleContext)
    ∧ List.Pairwise
        (fun a b : LookupItem => ¬ (a.type = b.type ∧ a.lastVisibleSymbol = b.lastVisibleSymbol))
        [{ type := intTy, lastVisibleSymbol := some 1 }] :=
  ⟨rfl, operatorCall_no_duplicates (ofScope Scope.null sampleContext) sampleDereferencedCall
    [{ type := intTy, lastVisibleSymbol := some 1 }] (ofScope Scope.null sampleContext) rfl⟩

/-- C2. The helper `removeDuplicates` keeps exactly the first occurrence of each element:
its result is the list of first occurrences, a sublist of the input with the same
members and no repetition, in which two elements stand in the order of their first
occurrences in the input. -/
theorem removeDuplicates_keeps_first_occurrences {α : Type} [DecidableEq α] (xs : List α) :
    removeDuplicates xs = firstOccurrences xs
    ∧ (removeDuplicates xs).Sublist xs
    ∧ (∀ a, a ∈ removeDuplicates xs ↔ a ∈ xs)
    ∧ (removeDuplicates xs).Nodup
    ∧ (∀ a b, (removeDuplicates xs).indexOf a < (removeDuplicates xs).indexOf b
        ↔ xs.indexOf a < xs.indexOf b) := by
  refine ⟨removeDuplicates_eq_firstOccurrences xs, ?_, mem_removeDuplicates xs,
    nodup_removeDuplicates xs, ?_⟩
  · rw [removeDuplicates_eq_firstOccurrences]
    exact sublist_firstOccurrencesAfter xs []
  · intro a b
    rw [removeDuplicates_eq_firstOccurrences]
    exact indexOf_firstOccurrencesAfter xs [] a b (List.not_mem_nil a) (List.not_mem_nil b)

/-- C3. The arity filter `maybeValidPrototype(f, n)` accepts exactly when `n` is at least
the length of the leading run of parameters of `f` without a default initializer and,
unless `f` is variadic, at most the number of declared parameters. -/
theorem maybeValidPrototype_iff_arity_in_range (f : Function) (n : Nat) :
    maybeValidPrototype f n = true ↔
      (f.arguments.takeWhile (fun a => !a.hasInitializer)).length ≤ n
        ∧ (f.isVariadic = true ∨ n ≤ f.argumentCount) :=
  maybeValidPrototype_eq_true_iff f n

/-- C4. For a prototype with exactly two parameters of which only the second has a
default initializer, the arity filter accepts `n` arguments exactly for `n = 1` and
`n = 2` when the prototype is not variadic, and exactly for `n ≥ 1` when it is. -/
theorem maybeValidPrototype_two_parameters_one_default (f : Function)
    (t1 t2 : FullySpecifiedType)
    (h : f.arguments = [{ type := t1, hasInitializer := false },
                        { type := t2, hasInitializer := true }]) (n : Nat) :
    (f.isVariadic = false → (maybeValidPrototype f n = true ↔ n = 1 ∨ n = 2))
    ∧ (f.isVariadic = true → (maybeValidPrototype f n = true ↔ 1 ≤ n)) := by
  constructor
  · intro hv
    rw [maybeValidPrototype_eq_true_iff]
    simp [h, hv, Symbol.argumentCount]
    omega
  · intro hv
    rw [maybeValidPrototype_eq_true_iff]
    simp [h, hv, Symbol.argumentCount]

/-- Witness of C4: the prototype `(int, int = 0)` is accepted for two arguments and
rejected for three. -/
theorem maybeValidPrototype_two_parameters_one_default_witness :
    maybeValidPrototype sampleTwoParameters 2 = true
    ∧ ¬ (maybeValidPrototype sampleTwoParameters 3 = true) :=
  ⟨((maybeValidPrototype_two_parameters_one_default sampleTwoParameters intTy intTy rfl 2).1
      rfl).2 (Or.inr rfl),
   fun h3 =>
    absurd (((maybeValidPrototype_two_parameters_one_default sampleTwoParameters intTy intTy
      rfl 3).1 rfl).1 h3) (by decide)⟩

/-- C5. Pointer round trip: the dereference transform undoes the address-of transform
on every candidate list, and resolving `*(&e)` gives the same outcome as resolving `e`
(same candidates in the same order, same final state). -/
theorem dereference_addressOf_round_trip :
    (∀ results : List LookupItem, dereference (addressOf results) = results)
    ∧ (∀ (self : ResolveExpression) (e : ExpressionAST),
        operatorCall self
          (ExpressionAST.UnaryExpression TokenKind.T_STAR
            (ExpressionAST.UnaryExpression TokenKind.T_AMPER e))
        = operatorCall self e) := by
  refine ⟨dereference_addressOf, ?_⟩
  intro self e
  rw [operatorCall_eq, operatorCall_eq, accept_unary, accept_unary]
  cases accept { self with _results := [] } e with
  | error err => rfl
  | ok s =>
    simp only [unaryTransform]
    simp [dereference_addressOf]

/-- Counterexample to C6: on a base candidate of type pointer to the class type `C`, the
dot operator with the decay flag finds no member, while the arrow operator finds the
member `m` of `C`. -/
theorem dot_decay_differs_from_arrow_on_pointer_to_class :
    (resolveMemberExpression (ofScope Scope.null sampleContext) [samplePointerToClass]
        TokenKind.T_DOT (Name.nameId "m") (some false)).map Prod.fst = Except.ok []
    ∧ (resolveMemberExpression (ofScope Scope.null sampleContext) [samplePointerToClass]
        TokenKind.T_ARROW (Name.nameId "m") (some false)).map Prod.fst
      = Except.ok [{ type := intTy, lastVisibleSymbol := some 3 }]
    ∧ (resolveMemberExpression (ofScope Scope.null sampleContext) [samplePointerToClass]
        TokenKind.T_DOT (Name.nameId "m") (some false)).map Prod.fst
      ≠ (resolveMemberExpression (ofScope Scope.null sampleContext) [samplePointerToClass]
        TokenKind.T_ARROW (Name.nameId "m") (some false)).map Prod.fst := by
  have hdot : (resolveMemberExpression (ofScope Scope.null sampleContext)
      [samplePointerToClass] TokenKind.T_DOT (Name.nameId "m") (some false)).map Prod.fst
      = Except.ok [] := rfl
  have harrow : (resolveMemberExpression (ofScope Scope.null sampleContext)
      [samplePointerToClass] TokenKind.T_ARROW (Name.nameId "m") (some false)).map Prod.fst
      = Except.ok [{ type := intTy, lastVisibleSymbol := some 3 }] := rfl
  refine ⟨hdot, harrow, ?_⟩
  rw [hdot, harrow]
  intro h
  cases h

/-- C6, amended. Let the first base candidate have (simplified) type pointer to `T`.
If `T` simplifies to a class type, the dot operator with the decay flag returns the
empty list.  If `T` simplifies to a named type whose lookup yields neither a typedef
of named type nor a template type argument, the dot operator with the decay flag
returns the same candidate list as the arrow operator. -/
theorem dot_decay_on_pointer (self : ResolveExpression) (result : LookupItem)
    (rest : List LookupItem) (memberName : Name) (flag : Bool) (arrowFlag : Option Bool)
    (elementType : FullySpecifiedType)
    (h : (self._context.simplified result.type).type = Type_.pointerType elementType) :
    (∀ k, (self._context.simplified elementType).type = Type_.klass k →
      (resolveMemberExpression self (result :: rest) TokenKind.T_DOT memberName
        (some flag)).map Prod.fst = Except.ok [])
    ∧ (∀ n, (self._context.simplified elementType).type = Type_.namedType n →
      (∀ c ∈ self._context.lookup n result.lastVisibleSymbol,
        ((self._context.symbol c).isTypedef && isNamedType (self._context.symbol c).type) = false
          ∧ (self._context.symbol c).kind ≠ SymbolKind.TypenameArgument) →
      (resolveMemberExpression self (result :: rest) TokenKind.T_DOT memberName
        (some flag)).map Prod.fst
      = (resolveMemberExpression self (result :: rest) TokenKind.T_ARROW memberName
        arrowFlag).map Prod.fst) := by
  constructor
  · intro k hk
    unfold resolveMemberExpression
    rw [resolveBaseExpression_dot_pointer self result rest flag elementType h]
    unfold resolveDot
    rw [hk]
    rfl
  · intro n hn hnone
    unfold resolveMemberExpression
    rw [resolveBaseExpression_dot_pointer self result rest flag elementType h,
      resolveBaseExpression_arrow_pointer self result rest arrowFlag elementType h]
    have hdot : resolveDot self result (self._context.simplified elementType)
        = [{ type := self._context.simplified elementType,
             lastVisibleSymbol := result.lastVisibleSymbol }] := by
      unfold resolveDot
      rw [hn]
      simp only [followTypedef_none _ _ _ hnone]
    have harrow : appendPointee self [] elementType result.lastVisibleSymbol
        = [{ type := self._context.simplified elementType,
             lastVisibleSymbol := result.lastVisibleSymbol }] := by
      unfold appendPointee isNamedOrClassType
      simp only [hn, if_true, List.nil_append]
    rw [hdot, harrow]
    simp only
    cases List.foldlM (memberStep self memberName) []
        (removeDuplicates [{ type := self._context.simplified elementType,
                             lastVisibleSymbol := result.lastVisibleSymbol }]) with
    | error e => rfl
    | ok r => rfl

/-- Witness of the amended C6: in the sample, on a base of type pointer to the named type
`C`, both operators find the member `m`; on a base of type pointer to the class type
`C`, the dot operator with the decay flag finds nothing. -/
theorem dot_decay_on_pointer_witness :
    ((resolveMemberExpression (ofScope Scope.null sampleContext) [samplePointerToNamed]
        TokenKind.T_DOT (Name.nameId "m") (some false)).map Prod.fst
      = (resolveMemberExpression (ofScope Scope.null sampleContext) [samplePointerToNamed]
        TokenKind.T_ARROW (Name.nameId "m") none).map Prod.fst)
    ∧ (resolveMemberExpression (ofScope Scope.null sampleContext) [samplePointerToNamed]
        TokenKind.T_ARROW (Name.nameId "m") none).map Prod.fst
      = Except.ok [{ type := intTy, lastVisibleSymbol := some 3 }]
    ∧ (resolveMemberExpression (ofScope Scope.null sampleContext) [samplePointerToClass]
        TokenKind.T_DOT (Name.nameId "m") (some false)).map Prod.fst = Except.ok [] :=
  ⟨(dot_decay_on_pointer (ofScope Scope.null sampleContext) samplePointerToNamed []
      (Name.nameId "m") false none
      (FullySpecifiedType.ofType (Type_.namedType (Name.nameId "C"))) rfl).2
      (Name.nameId "C") rfl (by
        intro c hc
        have hc2 : c = 2 := by simpa [ofScope, sampleContext, samplePointerToNamed] using hc
        subst hc2
        exact ⟨rfl, by decide⟩),
   rfl,
   (dot_decay_on_pointer (ofScope Scope.null sampleContext) samplePointerToClass []
      (Name.nameId "m") false none (FullySpecifiedType.ofType (Type_.klass 2)) rfl).1 2 rfl⟩

/-- C7. This-binding: when the innermost function scope around the current scope has an
enclosing class scope (the function symbol `f` owns the former, the class symbol `k`
the latter), resolving `this` yields exactly one candidate, whose type is pointer to the
named type of the class and whose declaring symbol is `f`. -/
theorem thisObject_in_member_function (self : ResolveExpression) (b n : Bool) (f : SymbolId)
    (enc : Scope) (cf cb cn : Bool) (k : SymbolId) (ce cc : Scope)
    (hscope : innermostFunctionScope self._scope
      = Scope.scope true b n (some f) enc (Scope.scope cf cb cn (some k) ce cc))
    (hf : (self._context.symbol f).kind = SymbolKind.Function)
    (hk : (self._context.symbol k).kind = SymbolKind.Class) :
    operatorCall self ExpressionAST.ThisExpression =
      Except.ok
        ([{ type := FullySpecifiedType.ofType (Type_.pointerType
              (FullySpecifiedType.ofType (Type_.namedType (self._context.symbol k).name))),
            lastVisibleSymbol := some f }], self) := by
  have hres := thisObjectFrom_member { self with _results := [] } self._scope
    b n f enc cf cb cn k ce cc hscope hf hk
  rw [addResult_fresh] at hres
  rw [operatorCall_eq, accept, thisObject]
  dsimp only
  rw [hres]
  simp [removeDuplicates, removeDuplicates.loop]

/-- Witness of C7: inside a block of the body of the member function `f` of `C`, `this`
has the type `C *` and the symbol of `f`. -/
theorem thisObject_in_member_function_witness :
    operatorCall (ofScope sampleBlockScope sampleContext) ExpressionAST.ThisExpression =
      Except.ok
        ([{ type := FullySpecifiedType.ofType (Type_.pointerType
              (FullySpecifiedType.ofType (Type_.namedType (Name.nameId "C")))),
            lastVisibleSymbol := some 30 }], ofScope sampleBlockScope sampleContext) :=
  thisObject_in_member_function (ofScope sampleBlockScope sampleContext) false false 30
    sampleMemberScope false false false 2 Scope.null Scope.null rfl rfl rfl

/-- C8. Empty propagation: on the empty base candidate list, `resolveBaseExpression` and
`resolveMemberExpression` return the empty list for every access operator, member name
and decay flag, whatever the lookup context is: the result is fixed before any
collaborator is consulted. -/
theorem empty_base_gives_empty_result (self : ResolveExpression) (accessOp : TokenKind)
    (memberName : Name) (replacedDotOperator : Option Bool) :
    resolveBaseExpression self [] accessOp replacedDotOperator
      = Except.ok ([], replacedDotOperator)
    ∧ resolveMemberExpression self [] accessOp memberName replacedDotOperator
      = Except.ok ([], replacedDotOperator)
    ∧ (∀ other : ResolveExpression,
        resolveBaseExpression other [] accessOp replacedDotOperator
          = resolveBaseExpression self [] accessOp replacedDotOperator
        ∧ resolveMemberExpression other [] accessOp memberName replacedDotOperator
          = resolveMemberExpression self [] accessOp memberName replacedDotOperator) :=
  ⟨rfl, rfl, fun _ => ⟨rfl, rfl⟩⟩

/-- C9. Literal typing: with `s` the symbol that `addResult` falls back on, resolving a
literal yields exactly the one candidate of symbol `s` and of type `int` for a plain
integer literal, `unsigned int` for an unsigned one, `double` for an unsuffixed floating
literal, `float` for an f-suffixed one, `char` for a character literal, `bool` for a
boolean literal and pointer to `const char` for a string literal. -/
theorem literal_typing (self : ResolveExpression) (s : SymbolId)
    (h : self.defaultSymbol = some s) :
    (∀ literal : NumericLiteral, literal.isChar = false → literal.isWideChar = false →
      literal.isInt = true → literal.isUnsigned = false →
      operatorCall self (ExpressionAST.NumericLiteral literal) = Except.ok
        ([{ type := FullySpecifiedType.mk (Type_.integerType IntegerKind.Int) false false false,
            lastVisibleSymbol := some s }], self))
    ∧ (∀ literal : NumericLiteral, literal.isChar = false → literal.isWideChar = false →
      literal.isInt = true → literal.isUnsigned = true →
      operatorCall self (ExpressionAST.NumericLiteral literal) = Except.ok
        ([{ type := FullySpecifiedType.mk (Type_.integerType IntegerKind.Int) false false true,
            lastVisibleSymbol := some s }], self))
    ∧ (∀ literal : NumericLiteral, literal.isChar = false → literal.isWideChar = false →
      literal.isInt = false → literal.isLong = false → literal.isLongLong = false →
      literal.isFloat = false → literal.isDouble = true → literal.isUnsigned = false →
      operatorCall self (ExpressionAST.NumericLiteral literal) = Except.ok
        ([{ type := FullySpecifiedType.mk (Type_.floatType FloatKind.Double) false false false,
            lastVisibleSymbol := some s }], self))
    ∧ (∀ literal : NumericLiteral, literal.isChar = false → literal.isWideChar = false →
      literal.isInt = false → literal.isLong = false → literal.isLongLong = false →
      literal.isFloat = true → literal.isUnsigned = false →
      operatorCall self (ExpressionAST.NumericLiteral literal) = Except.ok
        ([{ type := FullySpecifiedType.mk (Type_.floatType FloatKind.Float) false false false,
            lastVisibleSymbol := some s }], self))
    ∧ (∀ literal : NumericLiteral, literal.isChar = true → literal.isUnsigned = false →
      operatorCall self (ExpressionAST.NumericLiteral literal) = Except.ok
        ([{ type := FullySpecifiedType.mk (Type_.integerType IntegerKind.Char) false false false,
            lastVisibleSymbol := some s }], self))
    ∧ operatorCall self ExpressionAST.BoolLiteral = Except.ok
        ([{ type := FullySpecifiedType.mk (Type_.integerType IntegerKind.Bool) false false false,
            lastVisibleSymbol := some s }], self)
    ∧ operatorCall self ExpressionAST.StringLiteral = Except.ok
        ([{ type := FullySpecifiedType.mk
              (Type_.pointerType
                (FullySpecifiedType.mk (Type_.integerType IntegerKind.Char) true false false))
              false false false,
            lastVisibleSymbol := some s }], self) := by
  refine ⟨?_, ?_, ?_, ?_, ?_, ?_, ?_⟩
  · intro literal h1 h2 h3 h4
    refine operatorCall_of_addResult self _ _ s h ?_
    intro r
    rw [accept]
    simp [visitNumericLiteral, numericLiteralType, h1, h2, h3, h4, FullySpecifiedType.ofType]
  · intro literal h1 h2 h3 h4
    refine operatorCall_of_addResult self _ _ s h ?_
    intro r
    rw [accept]
    simp [visitNumericLiteral, numericLiteralType, h1, h2, h3, h4, FullySpecifiedType.ofType,
      FullySpecifiedType.setUnsigned]
  · intro literal h1 h2 h3 h4 h5 h6 h7 h8
    refine operatorCall_of_addResult self _ _ s h ?_
    intro r
    rw [accept]
    simp [visitNumericLiteral, numericLiteralType, h1, h2, h3, h4, h5, h6, h7, h8,
      FullySpecifiedType.ofType]
  · intro literal h1 h2 h3 h4 h5 h6 h7
    refine operatorCall_of_addResult self _ _ s h ?_
    intro r
    rw [accept]
    simp [visitNumericLiteral, numericLiteralType, h1, h2, h3, h4, h5, h6, h7,
      FullySpecifiedType.ofType]
  · intro literal h1 h2
    refine operatorCall_of_addResult self _ _ s h ?_
    intro r
    rw [accept]
    simp [visitNumericLiteral, numericLiteralType, h1, h2, FullySpecifiedType.ofType]
  · refine operatorCall_of_addResult self _ _ s h ?_
    intro r
    rw [accept]
    rfl
  · refine operatorCall_of_addResult self _ _ s h ?_
    intro r
    rw [accept]
    rfl

/-- Witness of C9: without a scope, the sample resolver falls back on the global
namespace (symbol 0); the literal `42` then has the one candidate `int`, and `42u` the
one candidate `unsigned int`. -/
theorem literal_typing_witness :
    operatorCall (ofScope Scope.null sampleContext)
        (ExpressionAST.NumericLiteral { isInt := true })
      = Except.ok ([{ type := intTy, lastVisibleSymbol := some 0 }],
          ofScope Scope.null sampleContext)
    ∧ operatorCall (ofScope Scope.null sampleContext)
        (ExpressionAST.NumericLiteral { isInt := true, isUnsigned := true })
      = Except.ok ([{ type := FullySpecifiedType.mk (Type_.integerType IntegerKind.Int)
                        false false true,
                      lastVisibleSymbol := some 0 }],
          ofScope Scope.null sampleContext) :=
  ⟨(literal_typing (ofScope Scope.null sampleContext) 0 rfl).1 { isInt := true }
      rfl rfl rfl rfl,
   (literal_typing (ofScope Scope.null sampleContext) 0 rfl).2.1
      { isInt := true, isUnsigned := true } rfl rfl rfl rfl⟩

/-- C10. Every candidate in a list returned by the resolver has a declaring symbol (the
lookup collaborators return symbols, never null, by their type); when the symbol that
`addResult` falls back on (the owner of the current scope, or the global namespace when
there is no scope) is not null, the resolver never aborts on the assertion of
`addResult`; and the address-of and dereference transforms leave the symbol of each
surviving candidate unchanged. -/
theorem candidates_have_symbols (self : ResolveExpression) (ast : ExpressionAST) :
    (∀ results after, operatorCall self ast = Except.ok (results, after) →
      ∀ c ∈ results, c.lastVisibleSymbol ≠ none)
    ∧ (self.defaultSymbol ≠ none → operatorCall self ast ≠ Except.error Fault.assertion)
    ∧ (∀ results : List LookupItem,
        (addressOf results).map (fun c => c.lastVisibleSymbol)
          = results.map (fun c => c.lastVisibleSymbol))
    ∧ (∀ results : List LookupItem,
        (dereference results).map (fun c => c.lastVisibleSymbol)
          = (results.filter (fun p => isPointerType p.type)).map
              (fun c => c.lastVisibleSymbol)) := by
  have hacc := keepsSymbols_accept ast { self with _results := [] } allHaveSymbol_nil
  refine ⟨?_, ?_, addressOf_symbols, dereference_symbols⟩
  · intro results after hcall
    rw [operatorCall_eq] at hcall
    revert hacc hcall
    generalize accept { self with _results := [] } ast = out
    intro hacc hcall
    cases out with
    | error e => cases hcall
    | ok s =>
      simp only [Except.ok.injEq, Prod.mk.injEq] at hcall
      rw [← hcall.1]
      exact allHaveSymbol_removeDuplicates hacc.1
  · intro hdefault hcall
    rw [operatorCall_eq] at hcall
    revert hacc hcall
    generalize accept { self with _results := [] } ast = out
    intro hacc hcall
    cases out with
    | error e =>
      simp only [Except.error.injEq] at hcall
      exact hdefault (hacc hcall)
    | ok s => cases hcall

/-- Witness of C10: in the sample, `*obj()` returns one candidate, which has the symbol
of `obj`, and the resolver, which can fall back on the global namespace, does not abort
on the assertion. -/
theorem candidates_have_symbols_witness :
    (∀ c ∈ [({ type := intTy, lastVisibleSymbol := some 1 } : LookupItem)],
      c.lastVisibleSymbol ≠ none)
    ∧ operatorCall (ofScope Scope.null sampleContext) sampleDereferencedCall
      ≠ Except.error Fault.assertion :=
  ⟨(candidates_have_symbols (ofScope Scope.null sampleContext) sampleDereferencedCall).1
      [{ type := intTy, lastVisibleSymbol := some 1 }] (ofScope Scope.null sampleContext) rfl,
   (candidates_have_symbols (ofScope Scope.null sampleContext) sampleDereferencedCall).2.1
      (by decide)⟩

/-! ## The entry point restores the state -/

theorem operatorCall_restores (self : ResolveExpression) (ast : ExpressionAST)
    (results : List LookupItem) (after : ResolveExpression)
    (h : operatorCall self ast = Except.ok (results, after)) : after = self := by
  have hacc := keepsSymbols_accept ast { self with _results := [] } allHaveSymbol_nil
  rw [operatorCall_eq] at h
  revert h hacc
  generalize accept { self with _results := [] } ast = out
  intro h hacc
  cases out with
  | error e => cases h
  | ok s =>
    simp only [Except.ok.injEq, Prod.mk.injEq] at h
    rw [← h.2]
    obtain ⟨_, hscope, hctx⟩ := hacc
    cases self
    cases s
    simp only at hscope hctx
    simp [hscope, hctx]

theorem operatorCall_results_irrelevant (self other : ResolveExpression) (ast : ExpressionAST)
    (hscope : other._scope = self._scope) (hctx : other._context = self._context) :
    (operatorCall other ast).map Prod.fst = (operatorCall self ast).map Prod.fst := by
  rw [operatorCall_eq, operatorCall_eq]
  have hsame : ({ other with _results := [] } : ResolveExpression)
      = { self with _results := [] } := by
    cases self
    cases other
    simp only at hscope hctx
    simp [hscope, hctx]
  rw [hsame]
  cases accept { self with _results := [] } ast with
  | error e => rfl
  | ok s => rfl

/-! ## The dereference transform, one candidate at a time -/

theorem dereference_cons_pointer (c : LookupItem) (rest : List LookupItem)
    (elementType : FullySpecifiedType) (h : c.type.type = Type_.pointerType elementType) :
    dereference (c :: rest)
      = { type := elementType, lastVisibleSymbol := c.lastVisibleSymbol } :: dereference rest := by
  unfold dereference
  rw [List.filterMap_cons]
  simp only [h]
  rfl

theorem dereference_cons_other (c : LookupItem) (rest : List LookupItem)
    (h : ∀ elementType, c.type.type ≠ Type_.pointerType elementType) :
    dereference (c :: rest) = dereference rest := by
  unfold dereference
  rw [List.filterMap_cons]
  cases hc : c.type.type with
  | pointerType e => exact absurd hc (h e)
  | _ => rfl

theorem dereference_length (results : List LookupItem) :
    (dereference results).length ≤ results.length := by
  unfold dereference
  exact List.length_filterMap_le _ _

/-! ## The walk of `thisObject` -/

theorem innermostFunctionScope_skip (isBlock isNs : Bool) (owner : Option SymbolId)
    (enclosing cls : Scope) :
    innermostFunctionScope (Scope.scope false isBlock isNs owner enclosing cls)
      = innermostFunctionScope enclosing := by
  rw [innermostFunctionScope]
  simp

theorem thisObjectFrom_skip (self : ResolveExpression) (isBlock isNs : Bool)
    (owner : Option SymbolId) (enclosing cls : Scope) :
    thisObjectFrom self (Scope.scope false isBlock isNs owner enclosing cls)
      = thisObjectFrom self enclosing := by
  conv_lhs => unfold thisObjectFrom
  simp

theorem thisObjectFrom_innermost (self : ResolveExpression) (scope : Scope) :
    thisObjectFrom self scope = thisObjectFrom self (innermostFunctionScope scope) := by
  induction scope with
  | null => rfl
  | scope isFun isBlock isNs owner enclosing cls ih _ =>
    cases isFun with
    | true =>
      unfold innermostFunctionScope
      simp only [if_true]
    | false => rw [thisObjectFrom_skip, innermostFunctionScope_skip, ih]

theorem thisObjectFrom_no_function (self : ResolveExpression) (scope : Scope)
    (h : innermostFunctionScope scope = Scope.null) :
    thisObjectFrom self scope = Except.ok self := by
  rw [thisObjectFrom_innermost, h]
  rfl

theorem thisObjectFrom_plain_function (self : ResolveExpression) (b n : Bool) (f : SymbolId)
    (enc : Scope) (hf : (self._context.symbol f).kind = SymbolKind.Function)
    (hname : (self._context.symbol f).name ≠ Name.null)
    (hq : (self._context.symbol f).name.isQualifiedNameId = false) :
    thisObjectFrom self (Scope.scope true b n (some f) enc Scope.null)
      = thisObjectFrom self enc := by
  conv_lhs => unfold thisObjectFrom
  simp only [if_true, asFunction, hf]
  cases hn : (self._context.symbol f).name with
  | null => exact absurd hn hname
  | qualifiedNameId names isGlobal =>
    rw [hn] at hq
    simp [Name.isQualifiedNameId] at hq
  | nameId i => rfl
  | operatorNameId k => rfl
  | templateNameId i a => rfl

/-! ## Adding candidates one after the other -/

theorem firstOccurrencesAfter_congr {α : Type} [DecidableEq α] (xs : List α) :
    ∀ seen seen' : List α, (∀ a, a ∈ seen ↔ a ∈ seen') →
      firstOccurrencesAfter seen xs = firstOccurrencesAfter seen' xs := by
  induction xs with
  | nil => intro s s' _; simp [firstOccurrencesAfter_nil]
  | cons x xs ih =>
    intro s s' h
    rw [firstOccurrencesAfter_cons, firstOccurrencesAfter_cons]
    have hrec : ∀ a, a ∈ s ++ [x] ↔ a ∈ s' ++ [x] := by
      intro a
      simp [h a]
    rw [ih (s ++ [x]) (s' ++ [x]) hrec]
    by_cases hx : x ∈ s
    · simp [hx, (h x).1 hx]
    · have hx' : x ∉ s' := fun hc => hx ((h x).2 hc)
      simp [hx, hx']

theorem addResultItem_eq (self : ResolveExpression) (c : LookupItem)
    (hc : c.lastVisibleSymbol ≠ none) :
    self.addResultItem c
      = Except.ok { self with _results :=
          self._results ++ firstOccurrencesAfter self._results [c] } := by
  unfold addResultItem
  simp only [hc, if_false]
  rw [firstOccurrencesAfter_cons, firstOccurrencesAfter_nil]
  by_cases hmem : c ∈ self._results
  · simp only [hmem, if_true, List.append_nil]
  · simp only [hmem, if_false, List.append_nil]

theorem firstOccurrencesAfter_step {α : Type} [DecidableEq α] (seen : List α) (c : α)
    (xs : List α) :
    (seen ++ firstOccurrencesAfter seen [c])
        ++ firstOccurrencesAfter (seen ++ firstOccurrencesAfter seen [c]) xs
      = seen ++ firstOccurrencesAfter seen (c :: xs) := by
  simp only [firstOccurrencesAfter_cons, firstOccurrencesAfter_nil, List.append_nil]
  by_cases hmem : c ∈ seen
  · simp only [hmem, if_true, List.append_nil, List.nil_append]
    rw [firstOccurrencesAfter_congr xs (seen ++ [c]) seen]
    intro a
    simp only [List.mem_append, List.mem_singleton]
    constructor
    · rintro (h | h)
      · exact h
      · rw [h]; exact hmem
    · intro h; exact Or.inl h
  · simp only [hmem, if_false, List.append_assoc, List.singleton_append]

theorem foldlM_adds {β : Type} (context : LookupContext)
    (step : ResolveExpression → β → Except Fault ResolveExpression)
    (keep : β → Bool) (candidate : β → LookupItem)
    (hsym : ∀ x, (candidate x).lastVisibleSymbol ≠ none) (xs : List β) :
    (∀ s x, x ∈ xs → s._context = context →
      step s x = if keep x = true then s.addResultItem (candidate x) else Except.ok s) →
    ∀ self : ResolveExpression, self._context = context →
      xs.foldlM step self = Except.ok { self with _results :=
        (self._results
          ++ firstOccurrencesAfter self._results ((xs.filter keep).map candidate)) } := by
  induction xs with
  | nil =>
    intro _ self _
    simp [firstOccurrencesAfter_nil]
    rfl
  | cons x rest ih =>
    intro hstep self hctx
    have hrest := ih (fun s y hy hc => hstep s y (List.mem_cons_of_mem x hy) hc)
    rw [List.foldlM_cons, hstep self x (List.mem_cons_self x rest) hctx, List.filter_cons]
    by_cases hk : keep x = true
    · simp only [hk, if_true, List.map_cons]
      rw [addResultItem_eq self (candidate x) (hsym x)]
      simp only [Except.bind, bind]
      have hnext := hrest { self with _results :=
        (self._results ++ firstOccurrencesAfter self._results [candidate x]) } hctx
      rw [hnext]
      simp only [firstOccurrencesAfter_step]
    · simp only [hk, Bool.false_eq_true, if_false]
      simp only [Except.bind, bind]
      exact hrest self hctx

/-! ## A call on a candidate of named type -/

theorem callOverloadStep_eq (context : LookupContext) (name : Name) (symbol : SymbolId)
    (actualArgumentCount : Nat) (s : ResolveExpression) (overload : SymbolId)
    (hinst : ∀ funTy, (context.symbol overload).type.type = Type_.function funTy →
      ∃ proto, (context.instantiate name funTy).type = Type_.function proto)
    (hctx : s._context = context) :
    callOverloadStep s name (some symbol) actualArgumentCount overload
      = if isPlausibleCallOperator context actualArgumentCount overload = true then
          s.addResultItem { type := callOperatorReturnType context name overload,
                            lastVisibleSymbol := some symbol }
        else Except.ok s := by
  unfold callOverloadStep isPlausibleCallOperator callOperatorReturnType
  rw [hctx]
  cases htype : (context.symbol overload).type.type with
  | function funTy =>
    obtain ⟨proto, hproto⟩ := hinst funTy htype
    simp only [hproto]
    by_cases hvalid : maybeValidPrototype (context.symbol funTy) actualArgumentCount = true
    · simp only [hvalid, if_true]
      rfl
    · simp only [hvalid, Bool.false_eq_true, if_false]
  | _ => simp

theorem callStep_named (self : ResolveExpression) (result : LookupItem) (name : Name)
    (b : ClassOrNamespace) (actualArgumentCount : Nat) (symbol : SymbolId)
    (hty : (self._context.simplified result.type).type = Type_.namedType name)
    (hsym : result.lastVisibleSymbol = some symbol)
    (hview : self._context.classOrNamespace name (some symbol) = some b)
    (hinst : ∀ overload ∈ b.find (Name.operatorNameId OperatorKind.FunctionCallOp),
      ∀ funTy, (self._context.symbol overload).type.type = Type_.function funTy →
        ∃ proto, (self._context.instantiate name funTy).type = Type_.function proto) :
    callStep actualArgumentCount self result = Except.ok { self with _results :=
      (self._results ++ firstOccurrencesAfter self._results
        (callOperatorCandidates self._context name symbol actualArgumentCount
          (b.find (Name.operatorNameId OperatorKind.FunctionCallOp)))) } := by
  unfold callStep
  simp only [hty, hsym, hview]
  exact foldlM_adds self._context _ _ _ (fun _ => by simp) _
    (fun s x hx hctx => callOverloadStep_eq self._context name symbol actualArgumentCount
      s x (hinst x hx) hctx)
    self rfl

/-! ## `addResult` called without a symbol -/

/-- The symbol that `addResult` takes when it is called without one, case by case: with a
current scope, the owner of the scope; without a current scope, the global namespace
symbol.  The run ends on the assertion exactly when the symbol so taken is null. -/
theorem addResult_without_symbol (self : ResolveExpression) (ty : FullySpecifiedType) :
    (∀ (isFunctionScope isBlockScope isNamespaceScope : Bool) (owner : SymbolId)
        (enclosingScope enclosingClassScope : Scope),
      self._scope = Scope.scope isFunctionScope isBlockScope isNamespaceScope (some owner)
        enclosingScope enclosingClassScope →
      addResult self ty none = Except.ok
        (if ({ type := ty, lastVisibleSymbol := some owner } : LookupItem) ∈ self._results
         then self
         else { self with _results :=
                  self._results ++ [{ type := ty, lastVisibleSymbol := some owner }] }))
    ∧ (∀ globalNamespace : SymbolId, self._scope = Scope.null →
      self._context.globalNamespace = some globalNamespace →
      addResult self ty none = Except.ok
        (if ({ type := ty, lastVisibleSymbol := some globalNamespace } : LookupItem)
            ∈ self._results
         then self
         else { self with _results :=
                  self._results ++ [{ type := ty, lastVisibleSymbol := some globalNamespace }] }))
    ∧ (∀ (isFunctionScope isBlockScope isNamespaceScope : Bool)
        (enclosingScope enclosingClassScope : Scope),
      self._scope = Scope.scope isFunctionScope isBlockScope isNamespaceScope none
        enclosingScope enclosingClassScope →
      addResult self ty none = Except.error Fault.assertion)
    ∧ (self._scope = Scope.null → self._context.globalNamespace = none →
      addResult self ty none = Except.error Fault.assertion) := by
  refine ⟨?_, ?_, ?_, ?_⟩
  · intro a b c owner enc cls hscope
    unfold addResult addResultItem defaultSymbol
    rw [hscope]
    simp only [reduceCtorEq, if_false]
    split <;> rfl
  · intro g hscope hglobal
    unfold addResult addResultItem defaultSymbol
    rw [hscope, hglobal]
    simp only [reduceCtorEq, if_false]
    split <;> rfl
  · intro a b c enc cls hscope
    unfold addResult addResultItem defaultSymbol
    rw [hscope]
    rfl
  · intro hscope hglobal
    unfold addResult addResultItem defaultSymbol
    rw [hscope, hglobal]
    rfl

/-! ## The claims, continued -/

/-- C12 fails on the code: for the base `p` of `p->x`, where the type `Alias` of `p` is a
typedef of the undeclared type `Undeclared`, the arrow branch takes the first element of
the empty lookup result of `Undeclared`; `resolveBaseExpression` and
`resolveMemberExpression` abort instead of returning a list. -/
theorem arrow_on_dangling_typedef_takes_first_of_empty :
    secondContext.lookup (Name.nameId "Undeclared") (some 1) = []
    ∧ resolveBaseExpression (ofScope Scope.null secondContext) [sampleAliasCandidate]
        TokenKind.T_ARROW none = Except.error Fault.emptyList
    ∧ resolveMemberExpression (ofScope Scope.null secondContext) [sampleAliasCandidate]
        TokenKind.T_ARROW (Name.nameId "x") none = Except.error Fault.emptyList :=
  ⟨rfl, rfl, rfl⟩

/-- C13. Save and restore of the candidate set: when `operator()` returns, the candidate
set of the resolver is the one it had before the call (the whole resolver state is),
and the list returned is the same whatever that set was. -/
theorem operatorCall_restores_candidate_set (self : ResolveExpression) (ast : ExpressionAST) :
    (∀ results after, operatorCall self ast = Except.ok (results, after) →
      after._results = self._results ∧ after = self)
    ∧ (∀ previous : List LookupItem,
        (operatorCall { self with _results := previous } ast).map Prod.fst
          = (operatorCall self ast).map Prod.fst) := by
  constructor
  · intro results after h
    have hsame := operatorCall_restores self ast results after h
    exact ⟨by rw [hsame], hsame⟩
  · intro previous
    exact operatorCall_results_irrelevant self _ ast rfl rfl

/-- Witness of C13: `*obj()` resolved by a resolver whose candidate set holds a candidate
of an enclosing resolution; the set is the same after the call. -/
theorem operatorCall_restores_candidate_set_witness :
    operatorCall { _scope := Scope.null, _context := sampleContext, _results := [sampleConstInt] }
        sampleDereferencedCall
      = Except.ok ([{ type := intTy, lastVisibleSymbol := some 1 }],
          { _scope := Scope.null, _context := sampleContext, _results := [sampleConstInt] })
    ∧ [sampleConstInt] = [sampleConstInt] :=
  ⟨rfl,
   ((operatorCall_restores_candidate_set
      { _scope := Scope.null, _context := sampleContext, _results := [sampleConstInt] }
      sampleDereferencedCall).1 [{ type := intTy, lastVisibleSymbol := some 1 }]
      { _scope := Scope.null, _context := sampleContext, _results := [sampleConstInt] }
      rfl).1⟩

/-- C14. Determinism: two resolvers with the same scope and the same lookup context return
the same candidate sequence for the same expression, whatever their candidate sets
are, and a second run on the resolver left by a first run returns the same sequence
again. -/
theorem operatorCall_deterministic (self other : ResolveExpression) (ast : ExpressionAST)
    (hscope : other._scope = self._scope) (hctx : other._context = self._context) :
    (operatorCall other ast).map Prod.fst = (operatorCall self ast).map Prod.fst
    ∧ (∀ results after, operatorCall self ast = Except.ok (results, after) →
        operatorCall after ast = Except.ok (results, after)) := by
  refine ⟨operatorCall_results_irrelevant self other ast hscope hctx, ?_⟩
  intro results after h
  have hsame := operatorCall_restores self ast results after h
  rw [hsame]
  rw [hsame] at h
  exact h

/-- Witness of C14: `*obj()` resolved by two resolvers of the sample that differ in their
candidate sets. -/
theorem operatorCall_deterministic_witness :
    (operatorCall { _scope := Scope.null, _context := sampleContext,
                    _results := [sampleConstInt] } sampleDereferencedCall).map Prod.fst
      = (operatorCall (ofScope Scope.null sampleContext) sampleDereferencedCall).map Prod.fst
    ∧ (operatorCall (ofScope Scope.null sampleContext) sampleDereferencedCall).map Prod.fst
      = Except.ok [{ type := intTy, lastVisibleSymbol := some 1 }] :=
  ⟨(operatorCall_deterministic (ofScope Scope.null sampleContext)
      { _scope := Scope.null, _context := sampleContext, _results := [sampleConstInt] }
      sampleDereferencedCall rfl rfl).1,
   rfl⟩

/-- C15 fails on the code: for the base `p` of `p->`, where the class `P` of `p` declares
`int *operator->()`, the arrow branch returns the candidate `int`, which is neither a
named nor a class type: the path through the overloaded operator appends the pointee
without the test that the two other paths make. -/
theorem arrow_operator_path_keeps_primitive_pointee :
    resolveBaseExpression (ofScope Scope.null secondContext) [samplePointerClassCandidate]
        TokenKind.T_ARROW none
      = Except.ok ([{ type := intTy, lastVisibleSymbol := some 50 }], none)
    ∧ isNamedOrClassType intTy = false :=
  ⟨rfl, rfl⟩

/-- Counterexample to C16: in the body of `g`, a function with an unqualified name and no
enclosing class scope, nested in the body of `A::h`, resolving `this` is not empty: the
walk goes on past `g` and the function `A::h` further out supplies the candidate. -/
theorem thisObject_uses_outer_function :
    innermostFunctionScope nestedFunctionScope = nestedFunctionScope
    ∧ (secondContext.symbol 40).name.isQualifiedNameId = false
    ∧ operatorCall (ofScope nestedFunctionScope secondContext) ExpressionAST.ThisExpression
      = Except.ok
          ([{ type := FullySpecifiedType.ofType (Type_.pointerType
                (FullySpecifiedType.ofType (Type_.namedType
                  (Name.qualifiedNameId (NameList.cons (Name.nameId "A") NameList.nil) false)))),
              lastVisibleSymbol := some 41 }],
           ofScope nestedFunctionScope secondContext) :=
  ⟨rfl, rfl, rfl⟩

/-- C16, amended. When the innermost function scope around the current scope has no
enclosing class scope and its function has a name that is not qualified, the walk of
`thisObject` does not stop there: it goes on with the enclosing scope, so the outcome is
the one of the walk started at that scope; the result is empty when there is no function
scope further out. -/
theorem thisObject_continues_past_plain_function (self : ResolveExpression) (b n : Bool)
    (f : SymbolId) (enc : Scope)
    (hscope : innermostFunctionScope self._scope
      = Scope.scope true b n (some f) enc Scope.null)
    (hf : (self._context.symbol f).kind = SymbolKind.Function)
    (hname : (self._context.symbol f).name ≠ Name.null)
    (hq : (self._context.symbol f).name.isQualifiedNameId = false) :
    thisObject self = thisObjectFrom self enc
    ∧ (innermostFunctionScope enc = Scope.null →
        operatorCall self ExpressionAST.ThisExpression = Except.ok ([], self)) := by
  have hwalk : ∀ r : ResolveExpression, r._scope = self._scope →
      r._context = self._context → thisObject r = thisObjectFrom r enc := by
    intro r hrs hrc
    unfold thisObject
    rw [thisObjectFrom_innermost, hrs, hscope]
    exact thisObjectFrom_plain_function r b n f enc (by rw [hrc]; exact hf)
      (by rw [hrc]; exact hname) (by rw [hrc]; exact hq)
  refine ⟨hwalk self rfl rfl, ?_⟩
  intro hnone
  rw [operatorCall_eq, accept, hwalk { self with _results := [] } rfl rfl,
    thisObjectFrom_no_function _ enc hnone]
  rfl

/-- Witness of the amended C16: from the body of `g` the walk goes on with the body of
`A::h`; in a body of `g` that nothing encloses, `this` resolves to nothing. -/
theorem thisObject_continues_past_plain_function_witness :
    thisObject (ofScope nestedFunctionScope secondContext)
      = thisObjectFrom (ofScope nestedFunctionScope secondContext) qualifiedFunctionScope
    ∧ operatorCall (ofScope plainFunctionScope secondContext) ExpressionAST.ThisExpression
      = Except.ok ([], ofScope plainFunctionScope secondContext) :=
  ⟨(thisObject_continues_past_plain_function (ofScope nestedFunctionScope secondContext)
      false false 40 qualifiedFunctionScope rfl rfl (by decide) rfl).1,
   (thisObject_continues_past_plain_function (ofScope plainFunctionScope secondContext)
      false false 40 Scope.null rfl rfl (by decide) rfl).2 rfl⟩

/-- Counterexample to C17: the class `F` has two overloads of `operator()` that are both
plausible for one argument and both return `int`; the call on a candidate of type `F`
gives one candidate, not two. -/
theorem call_merges_overloads_with_equal_return_type :
    (functorClassView.find (Name.operatorNameId OperatorKind.FunctionCallOp)).filter
        (isPlausibleCallOperator secondContext 1) = [60, 61]
    ∧ (visitCall { _scope := Scope.null, _context := secondContext,
                   _results := [sampleFunctorCandidate] } 1).map (fun s => s._results)
      = Except.ok [{ type := intTy, lastVisibleSymbol := some 1 }] :=
  ⟨rfl, rfl⟩

/-- C17, amended. For a call on a base candidate of named type with symbol `s`, when the
instantiation of each overload of function type is a function type, each arity-plausible
overload of the function-call operator offers the candidate made of its simplified
instantiated return type and of `s`; `addResult` keeps an offered candidate only if the
set does not hold it yet.  The base candidate so contributes the first
occurrences of the offered candidates that are new, which are at most as many as the
plausible overloads. -/
theorem call_on_named_type_offers_plausible_overloads (self : ResolveExpression)
    (result : LookupItem) (name : Name) (b : ClassOrNamespace) (actualArgumentCount : Nat)
    (symbol : SymbolId)
    (hty : (self._context.simplified result.type).type = Type_.namedType name)
    (hsym : result.lastVisibleSymbol = some symbol)
    (hview : self._context.classOrNamespace name (some symbol) = some b)
    (hinst : ∀ overload ∈ b.find (Name.operatorNameId OperatorKind.FunctionCallOp),
      ∀ funTy, (self._context.symbol overload).type.type = Type_.function funTy →
        ∃ proto, (self._context.instantiate name funTy).type = Type_.function proto) :
    callStep actualArgumentCount self result = Except.ok { self with _results :=
      (self._results ++ firstOccurrencesAfter self._results
        (callOperatorCandidates self._context name symbol actualArgumentCount
          (b.find (Name.operatorNameId OperatorKind.FunctionCallOp)))) }
    ∧ (firstOccurrencesAfter self._results
        (callOperatorCandidates self._context name symbol actualArgumentCount
          (b.find (Name.operatorNameId OperatorKind.FunctionCallOp)))).length
      ≤ ((b.find (Name.operatorNameId OperatorKind.FunctionCallOp)).filter
          (isPlausibleCallOperator self._context actualArgumentCount)).length := by
  refine ⟨callStep_named self result name b actualArgumentCount symbol hty hsym hview hinst, ?_⟩
  have hsub := (sublist_firstOccurrencesAfter
    (callOperatorCandidates self._context name symbol actualArgumentCount
      (b.find (Name.operatorNameId OperatorKind.FunctionCallOp))) self._results).length_le
  unfold callOperatorCandidates at hsub ⊢
  rw [List.length_map] at hsub
  exact hsub

/-- Witness of the amended C17: in the first sample the two overloads of `operator()` of
`C`, plausible without argument, return `int *const` and `int *`, and both candidates
are kept. -/
theorem call_on_named_type_offers_plausible_overloads_witness :
    callStep 0 (ofScope Scope.null sampleContext)
        { type := FullySpecifiedType.ofType (Type_.namedType (Name.nameId "C")),
          lastVisibleSymbol := some 1 }
      = Except.ok
          { _scope := Scope.null, _context := sampleContext,
            _results :=
              [{ type := FullySpecifiedType.mk (Type_.pointerType intTy) true false false,
                 lastVisibleSymbol := some 1 },
               { type := FullySpecifiedType.ofType (Type_.pointerType intTy),
                 lastVisibleSymbol := some 1 }] } :=
  (call_on_named_type_offers_plausible_overloads (ofScope Scope.null sampleContext)
    { type := FullySpecifiedType.ofType (Type_.namedType (Name.nameId "C")),
      lastVisibleSymbol := some 1 }
    (Name.nameId "C") sampleClassView 0 1 rfl rfl rfl
    (by
      intro overload hmem funTy hfun
      have hcases : overload = 10 ∨ overload = 11 := by
        simpa [sampleClassView] using hmem
      rcases hcases with h | h
      · subst h
        have hf : funTy = 10 := by
          have h2 : Type_.function 10 = Type_.function funTy := hfun
          cases h2
          rfl
        subst hf
        exact ⟨10, rfl⟩
      · subst h
        have hf : funTy = 11 := by
          have h2 : Type_.function 11 = Type_.function funTy := hfun
          cases h2
          rfl
        subst hf
        exact ⟨11, rfl⟩)).1.trans rfl

/-- C18. The method `resolveBaseExpression` depends on the first candidate only: two base
candidate lists with the same first element give the same outcome, for every access
operator and decay flag. -/
theorem resolveBaseExpression_first_candidate_only (self : ResolveExpression)
    (first : LookupItem) (rest other : List LookupItem) (accessOp : TokenKind)
    (replacedDotOperator : Option Bool) :
    resolveBaseExpression self (first :: rest) accessOp replacedDotOperator
      = resolveBaseExpression self (first :: other) accessOp replacedDotOperator :=
  rfl

/-- C19. Unary dereference is a filtering transform: a candidate whose type is a pointer
is replaced, at its place, by the candidate of the element type with the same symbol; a
candidate whose type is not a pointer is removed; the result is never longer than the
input; and the visit of `*e` applies this transform to the candidates of `e`. -/
theorem dereference_filters_pointers :
    dereference [] = []
    ∧ (∀ (c : LookupItem) (rest : List LookupItem) (elementType : FullySpecifiedType),
        c.type.type = Type_.pointerType elementType →
        dereference (c :: rest)
          = { type := elementType, lastVisibleSymbol := c.lastVisibleSymbol }
              :: dereference rest)
    ∧ (∀ (c : LookupItem) (rest : List LookupItem),
        (∀ elementType, c.type.type ≠ Type_.pointerType elementType) →
        dereference (c :: rest) = dereference rest)
    ∧ (∀ results : List LookupItem, (dereference results).length ≤ results.length)
    ∧ (∀ (self : ResolveExpression) (e : ExpressionAST),
        accept self (ExpressionAST.UnaryExpression TokenKind.T_STAR e)
          = match accept self e with
            | Except.error err => Except.error err
            | Except.ok s => Except.ok { s with _results := dereference s._results }) := by
  refine ⟨rfl, dereference_cons_pointer, dereference_cons_other, dereference_length, ?_⟩
  intro self e
  rw [accept_unary]
  cases accept self e with
  | error err => rfl
  | ok s => rfl

/-- Witness of C19: of a pointer to `C` followed by a `const int`, the dereference keeps
the pointee `C` of the first and removes the second. -/
theorem dereference_filters_pointers_witness :
    dereference [samplePointerToNamed, sampleConstInt]
      = [{ type := FullySpecifiedType.ofType (Type_.namedType (Name.nameId "C")),
           lastVisibleSymbol := some 1 }] :=
  ((dereference_filters_pointers.2.1 samplePointerToNamed [sampleConstInt]
      (FullySpecifiedType.ofType (Type_.namedType (Name.nameId "C"))) rfl).trans
    (congrArg
      (fun l => ({ type := FullySpecifiedType.ofType (Type_.namedType (Name.nameId "C")),
                   lastVisibleSymbol := some 1 } : LookupItem) :: l)
      ((dereference_filters_pointers.2.2.1 sampleConstInt []
        (by intro elementType h; cases h)).trans dereference_filters_pointers.1)))

/-- C20 fails on the code: the address-of transform keeps the qualifiers of the candidate
type on the new pointer type.  From a candidate of type `const int` it makes a `const`
pointer to `const int`, not the plain pointer to `const int`; the element type, the
symbol, the number and the order of the candidates are as stated. -/
theorem addressOf_keeps_qualifiers_on_pointer :
    addressOf [sampleConstInt]
      = [{ type := FullySpecifiedType.mk (Type_.pointerType sampleConstInt.type)
                     true false false,
           lastVisibleSymbol := some 1 }]
    ∧ addressOf [sampleConstInt]
      ≠ [{ type := FullySpecifiedType.ofType (Type_.pointerType sampleConstInt.type),
           lastVisibleSymbol := some 1 }]
    ∧ (∀ results : List LookupItem,
        addressOf results = results.map fun c =>
          { type := FullySpecifiedType.mk (Type_.pointerType c.type)
                      c.type.isConst c.type.isVolatile c.type.isUnsigned,
            lastVisibleSymbol := c.lastVisibleSymbol }) := by
  refine ⟨rfl, by decide, ?_⟩
  intro results
  unfold addressOf
  apply List.map_congr_left
  intro c _
  rcases c with ⟨⟨t, cst, vol, uns⟩, s⟩
  rfl

/-! ## A call on a candidate of function or class type -/

theorem addResult_some (self : ResolveExpression) (ty : FullySpecifiedType) (s : SymbolId) :
    self.addResult ty (some s)
      = self.addResultItem { type := ty, lastVisibleSymbol := some s } :=
  rfl

theorem addResultItem_fresh (self : ResolveExpression) (c : LookupItem)
    (hc : c.lastVisibleSymbol ≠ none) :
    ({ self with _results := [] } : ResolveExpression).addResultItem c
      = Except.ok { self with _results := [c] } := by
  unfold addResultItem
  simp [hc]

theorem visitCall_singleton (self : ResolveExpression) (result : LookupItem) (n : Nat)
    (h : self._results = [result]) :
    visitCall self n = callStep n { self with _results := [] } result := by
  unfold visitCall
  rw [h]
  simp only [List.foldlM_cons, List.foldlM_nil]
  cases callStep n { self with _results := [] } result with
  | error e => rfl
  | ok r => rfl

theorem count_eq_length_toList : ∀ arguments : ExpressionListAST,
    arguments.count = arguments.toList.length
  | ExpressionListAST.nil => rfl
  | ExpressionListAST.cons value next => by
    rw [ExpressionListAST.count, ExpressionListAST.toList, List.length_cons,
      count_eq_length_toList next]

theorem acceptPostfix_call (self : ResolveExpression) (arguments : ExpressionListAST) :
    acceptPostfix self (PostfixAST.Call arguments)
      = self._results.foldlM (callStep arguments.toList.length)
          { self with _results := [] } := by
  rw [acceptPostfix, count_eq_length_toList]
  rfl

theorem acceptPostfix_call_singleton (self : ResolveExpression) (result : LookupItem)
    (arguments : ExpressionListAST) (h : self._results = [result]) :
    acceptPostfix self (PostfixAST.Call arguments)
      = callStep arguments.toList.length { self with _results := [] } result := by
  rw [acceptPostfix, count_eq_length_toList]
  exact visitCall_singleton self result _ h

theorem callStep_function (self : ResolveExpression) (result : LookupItem) (funTy : SymbolId)
    (n : Nat) (s : SymbolId)
    (hty : (self._context.simplified result.type).type = Type_.function funTy)
    (hsym : result.lastVisibleSymbol = some s) :
    callStep n self result =
      if maybeValidPrototype (self._context.symbol funTy) n = true then
        self.addResultItem
          { type := self._context.simplified (self._context.symbol funTy).returnType,
            lastVisibleSymbol := some s }
      else Except.ok self := by
  unfold callStep
  simp only [hty, hsym]
  rfl

theorem callStep_class (self : ResolveExpression) (result : LookupItem) (classTy : SymbolId)
    (n : Nat) (s : SymbolId)
    (hty : (self._context.simplified result.type).type = Type_.klass classTy)
    (hsym : result.lastVisibleSymbol = some s) :
    callStep n self result =
      self.addResultItem
        { type := FullySpecifiedType.ofType (Type_.namedType (self._context.symbol classTy).name),
          lastVisibleSymbol := some s } := by
  unfold callStep
  simp only [hty, hsym]
  rfl

/-! ## An array access on a candidate of pointer or array type -/

theorem arrayStep_pointer (self : ResolveExpression) (result : LookupItem)
    (elementType : FullySpecifiedType) (s : SymbolId)
    (hty : (self._context.simplified result.type).type = Type_.pointerType elementType)
    (hsym : result.lastVisibleSymbol = some s) :
    arrayStep self result =
      self.addResultItem
        { type := self._context.simplified elementType, lastVisibleSymbol := some s } := by
  unfold arrayStep
  simp only [hty, hsym]
  rfl

theorem arrayStep_array (self : ResolveExpression) (result : LookupItem)
    (elementType : FullySpecifiedType) (s : SymbolId)
    (hty : (self._context.simplified result.type).type = Type_.arrayType elementType)
    (hsym : result.lastVisibleSymbol = some s) :
    arrayStep self result =
      self.addResultItem
        { type := self._context.simplified elementType, lastVisibleSymbol := some s } := by
  unfold arrayStep
  simp only [hty, hsym]
  rfl

theorem arrayStep_other (self : ResolveExpression) (result : LookupItem)
    (hpointer : ∀ e, (self._context.simplified result.type).type ≠ Type_.pointerType e)
    (harray : ∀ e, (self._context.simplified result.type).type ≠ Type_.arrayType e)
    (hnamed : ∀ n, (self._context.simplified result.type).type ≠ Type_.namedType n) :
    arrayStep self result = Except.ok self := by
  unfold arrayStep
  cases hty : (self._context.simplified result.type).type with
  | pointerType e => exact absurd hty (hpointer e)
  | arrayType e => exact absurd hty (harray e)
  | namedType n => exact absurd hty (hnamed n)
  | _ => simp only [hty]

theorem foldlM_singleton {β γ : Type} (step : γ → β → Except Fault γ) (init : γ) (x : β) :
    [x].foldlM step init = step init x := by
  simp only [List.foldlM_cons, List.foldlM_nil]
  cases step init x with
  | error e => rfl
  | ok r => rfl

theorem acceptPostfix_arrayAccess (self : ResolveExpression) (index : ExpressionAST)
    (indexResults : List LookupItem) (after : ResolveExpression)
    (h : operatorCall { self with _results := [] } index = Except.ok (indexResults, after)) :
    acceptPostfix self (PostfixAST.ArrayAccess index)
      = self._results.foldlM arrayStep { self with _results := [] } := by
  have hsame := operatorCall_restores _ index indexResults after h
  rw [acceptPostfix]
  have hcall : operatorCallWith (fun s => accept s index) { self with _results := [] }
      = Except.ok (indexResults, after) := h
  simp only [hcall, hsame]

/-! ## The dot branch on a named type -/

theorem followTypedef_eq (context : LookupContext) (candidates : List SymbolId)
    (current : FullySpecifiedType × Option SymbolId) :
    followTypedef context candidates current =
      match firstIndirection context candidates with
      | some c => ((context.symbol c).type, some c)
      | none => current := by
  induction candidates with
  | nil => rfl
  | cons c rest ih =>
    unfold followTypedef firstIndirection
    rw [List.find?_cons]
    by_cases h1 : ((context.symbol c).isTypedef && isNamedType (context.symbol c).type) = true
    · simp [h1]
    · by_cases h2 : (context.symbol c).kind = SymbolKind.TypenameArgument
      · simp [h1, h2]
      · simp only [h1, h2, Bool.false_eq_true, if_false, decide_False, Bool.or_self]
        exact ih

theorem resolveDot_named (self : ResolveExpression) (result : LookupItem)
    (ty : FullySpecifiedType) (n : Name) (hty : ty.type = Type_.namedType n) :
    resolveDot self result ty =
      [match firstIndirection self._context (self._context.lookup n result.lastVisibleSymbol) with
       | some c => { type := (self._context.symbol c).type, lastVisibleSymbol := some c }
       | none => { type := ty, lastVisibleSymbol := result.lastVisibleSymbol }] := by
  unfold resolveDot
  simp only [hty, followTypedef_eq]
  cases firstIndirection self._context (self._context.lookup n result.lastVisibleSymbol) with
  | none => rfl
  | some c => rfl

theorem resolveBaseExpression_dot (self : ResolveExpression) (result : LookupItem)
    (rest : List LookupItem) (flag : Option Bool) :
    resolveBaseExpression self (result :: rest) TokenKind.T_DOT flag =
      Except.ok
        (removeDuplicates (resolveDot self result
          (decay self._context
            (collapseAmbiguous self._context (self._context.simplified result.type)) flag).1),
         (decay self._context
            (collapseAmbiguous self._context (self._context.simplified result.type)) flag).2) := by
  unfold resolveBaseExpression
  have hne : ¬ (TokenKind.T_DOT = TokenKind.T_ARROW) := by decide
  simp only [hne, if_false, if_true]

/-! ## The collapse of an ambiguous function type -/

/-- The outcome of `resolveBaseExpression` is fixed by the symbol of the first candidate
and by its type once simplified and collapsed. -/
theorem resolveBaseExpression_congr (self : ResolveExpression) (a b : LookupItem)
    (rest other : List LookupItem) (accessOp : TokenKind) (flag : Option Bool)
    (hsym : a.lastVisibleSymbol = b.lastVisibleSymbol)
    (hty : collapseAmbiguous self._context (self._context.simplified a.type)
      = collapseAmbiguous self._context (self._context.simplified b.type)) :
    resolveBaseExpression self (a :: rest) accessOp flag
      = resolveBaseExpression self (b :: other) accessOp flag := by
  have harrow : ∀ ty, resolveArrow self a ty = resolveArrow self b ty := by
    intro ty
    unfold resolveArrow
    have hstep : arrowLookupStep self a = arrowLookupStep self b := by
      funext results s
      unfold arrowLookupStep
      rw [hsym]
    rw [hsym, hstep]
  have hdot : ∀ ty, resolveDot self a ty = resolveDot self b ty := by
    intro ty
    unfold resolveDot
    rw [hsym]
  unfold resolveBaseExpression
  simp only [hty, harrow, hdot]

theorem collapseAmbiguous_ambiguous (context : LookupContext) (ty : FullySpecifiedType)
    (f : SymbolId) (hty : ty.type = Type_.function f)
    (hamb : (context.symbol f).isAmbiguous = true) :
    collapseAmbiguous context ty = context.simplified (context.symbol f).returnType := by
  unfold collapseAmbiguous
  simp only [hty, hamb, if_true]

theorem collapseAmbiguous_not_ambiguous (context : LookupContext) (ty : FullySpecifiedType)
    (h : ∀ g, ty.type = Type_.function g → (context.symbol g).isAmbiguous = false) :
    collapseAmbiguous context ty = ty := by
  unfold collapseAmbiguous
  cases hty : ty.type with
  | function g => simp [h g hty]
  | _ => rfl

/-! ## The name nodes -/

theorem firstOccurrencesAfter_of_nodup {α : Type} [DecidableEq α] (xs : List α) :
    ∀ seen : List α, xs.Nodup → (∀ a ∈ xs, a ∉ seen) → firstOccurrencesAfter seen xs = xs := by
  induction xs with
  | nil => intro seen _ _; exact firstOccurrencesAfter_nil seen
  | cons x rest ih =>
    intro seen hnodup hfresh
    rw [firstOccurrencesAfter_cons]
    have hx : x ∉ seen := hfresh x (List.mem_cons_self x rest)
    have hrest : firstOccurrencesAfter (seen ++ [x]) rest = rest := by
      apply ih (seen ++ [x]) (List.nodup_cons.1 hnodup).2
      intro a ha hmem
      rcases List.mem_append.1 hmem with h | h
      · exact hfresh a (List.mem_cons_of_mem x ha) h
      · have hax : a = x := by simpa using h
        exact (List.nodup_cons.1 hnodup).1 (hax ▸ ha)
    simp [hx, hrest]

theorem removeDuplicates_firstOccurrences {α : Type} [DecidableEq α] (xs : List α) :
    removeDuplicates (firstOccurrences xs) = firstOccurrences xs := by
  rw [removeDuplicates_eq_firstOccurrences]
  exact firstOccurrencesAfter_of_nodup _ [] (nodup_firstOccurrencesAfter xs [])
    (fun a _ => List.not_mem_nil a)

theorem firstOccurrencesAfter_map {α β : Type} [DecidableEq α] [DecidableEq β] (f : α → β)
    (hf : Function.Injective f) (xs : List α) :
    ∀ seen : List α, firstOccurrencesAfter (seen.map f) (xs.map f)
      = (firstOccurrencesAfter seen xs).map f := by
  induction xs with
  | nil => intro seen; simp [firstOccurrencesAfter_nil]
  | cons x rest ih =>
    intro seen
    rw [List.map_cons, firstOccurrencesAfter_cons, firstOccurrencesAfter_cons, List.map_append]
    have hrec := ih (seen ++ [x])
    rw [List.map_append] at hrec
    rw [← hrec]
    have hmem : f x ∈ seen.map f ↔ x ∈ seen := by
      rw [List.mem_map]
      constructor
      · rintro ⟨a, ha, hfa⟩
        rw [← hf hfa]
        exact ha
      · intro h
        exact ⟨x, h, rfl⟩
    by_cases hx : x ∈ seen
    · simp [hx, hmem.2 hx]
    · have hfx : f x ∉ seen.map f := fun h => hx (hmem.1 h)
      simp [hx, hfx]

theorem symbolCandidate_injective (context : LookupContext) :
    Function.Injective (symbolCandidate context) := by
  intro a b h
  have hsym : (symbolCandidate context a).lastVisibleSymbol
      = (symbolCandidate context b).lastVisibleSymbol := by rw [h]
  simpa [symbolCandidate] using hsym

theorem addSymbols_eq (self : ResolveExpression) (symbols : List SymbolId) :
    addSymbols self symbols = Except.ok { self with _results :=
      (self._results ++ firstOccurrencesAfter self._results
        (symbols.map (symbolCandidate self._context))) } := by
  have h := foldlM_adds self._context
    (fun s symbol => s.addResult (s._context.symbol symbol).type (some symbol))
    (fun _ => true) (symbolCandidate self._context) (fun _ => by simp [symbolCandidate])
    symbols
    (by
      intro s x _ hctx
      simp only [if_true]
      rw [addResult_some, hctx]
      rfl)
    self rfl
  rw [List.filter_true] at h
  exact h

theorem operatorCall_of_addSymbols (self : ResolveExpression) (ast : ExpressionAST)
    (symbols : List SymbolId)
    (hacc : accept { self with _results := [] } ast
      = addSymbols { self with _results := [] } symbols) :
    operatorCall self ast
      = Except.ok (firstOccurrences (symbols.map (symbolCandidate self._context)), self) := by
  rw [operatorCall_eq, hacc, addSymbols_eq]
  simp only [List.nil_append]
  have hdedup := removeDuplicates_firstOccurrences
    (symbols.map (symbolCandidate self._context))
  unfold firstOccurrences at hdedup ⊢
  rw [hdedup]

/-! ## A member access without the decay flag -/

theorem collapseAmbiguous_array (context : LookupContext) (ty elementType : FullySpecifiedType)
    (h : ty.type = Type_.arrayType elementType) : collapseAmbiguous context ty = ty := by
  unfold collapseAmbiguous
  rw [h]

theorem resolveMemberExpression_dot_pointer_or_array (self : ResolveExpression)
    (first : LookupItem) (rest : List LookupItem) (memberName : Name)
    (elementType : FullySpecifiedType)
    (hty : (self._context.simplified first.type).type = Type_.pointerType elementType
      ∨ (self._context.simplified first.type).type = Type_.arrayType elementType) :
    resolveMemberExpression self (first :: rest) TokenKind.T_DOT memberName none
      = Except.ok ([], none) := by
  have hbase : resolveBaseExpression self (first :: rest) TokenKind.T_DOT none
      = Except.ok ([], none) := by
    rw [resolveBaseExpression_dot]
    rcases hty with h | h
    · rw [collapseAmbiguous_pointer _ _ _ h]
      unfold decay resolveDot
      simp only [h]
      rfl
    · rw [collapseAmbiguous_array _ _ _ h]
      unfold decay resolveDot
      simp only [h]
      rfl
  unfold resolveMemberExpression
  rw [hbase]
  rfl

/-! ## The recursion of the visitor -/

theorem acceptPostfix_eq_with (self : ResolveExpression) (op : PostfixAST) :
    acceptPostfix self op = acceptPostfixWith accept self op := by
  cases op <;> rw [acceptPostfix] <;> rfl

theorem acceptPostfixList_eq_with : ∀ (ops : PostfixListAST) (self : ResolveExpression),
    acceptPostfixList self ops = acceptPostfixListWith accept self ops
  | PostfixListAST.nil, self => by rw [acceptPostfixList]; rfl
  | PostfixListAST.cons value next, self => by
    rw [acceptPostfixList, acceptPostfixListWith, acceptPostfix_eq_with]
    cases acceptPostfixWith accept self value with
    | error e => rfl
    | ok s => exact acceptPostfixList_eq_with next s

theorem acceptLastStatement_eq_with : ∀ (statements : StatementListAST)
    (self : ResolveExpression),
    acceptLastStatement self statements = acceptLastStatementWith accept self statements
  | StatementListAST.nil, self => by rw [acceptLastStatement]; rfl
  | StatementListAST.cons (StatementAST.ExpressionStatement expression)
      StatementListAST.nil, self => by
    rw [acceptLastStatement]; rfl
  | StatementListAST.cons (StatementAST.ExpressionStatement expression)
      (StatementListAST.cons v n), self => by
    rw [acceptLastStatement, acceptLastStatementWith]
    exact acceptLastStatement_eq_with (StatementListAST.cons v n) self

theorem accept_eq_acceptWith (self : ResolveExpression) (ast : ExpressionAST) :
    accept self ast = acceptWith accept self ast := by
  cases ast with
  | PostfixExpression base_expression postfix_expression_list =>
    rw [accept, acceptWith]
    cases accept self base_expression with
    | error e => rfl
    | ok s => exact acceptPostfixList_eq_with postfix_expression_list s
  | CompoundExpression statement_list =>
    rw [accept, acceptWith]
    exact acceptLastStatement_eq_with statement_list self
  | QtMethod declarator_id =>
    cases declarator_id <;> rw [accept] <;> rfl
  | _ => rw [accept]; rfl


theorem acceptPostfixWith_congr
    (f g : ResolveExpression → ExpressionAST → Except Fault ResolveExpression) (bound : Nat)
    (h : ∀ s sub, sub.nodeCount < bound → f s sub = g s sub) (op : PostfixAST)
    (hop : op.nodeCount ≤ bound) (self : ResolveExpression) :
    acceptPostfixWith f self op = acceptPostfixWith g self op := by
  cases op with
  | ArrayAccess expression =>
    have hsub : expression.nodeCount < bound := by
      rw [PostfixAST.nodeCount] at hop
      omega
    have hfun : (fun s => f s expression) = (fun s => g s expression) :=
      funext (fun s => h s expression hsub)
    unfold acceptPostfixWith
    simp only [hfun]
  | _ => rfl

theorem acceptPostfixListWith_congr
    (f g : ResolveExpression → ExpressionAST → Except Fault ResolveExpression) (bound : Nat)
    (h : ∀ s sub, sub.nodeCount < bound → f s sub = g s sub) :
    ∀ (ops : PostfixListAST), ops.nodeCount ≤ bound → ∀ self : ResolveExpression,
      acceptPostfixListWith f self ops = acceptPostfixListWith g self ops
  | PostfixListAST.nil, _, _ => rfl
  | PostfixListAST.cons value next, hops, self => by
    rw [PostfixListAST.nodeCount] at hops
    rw [acceptPostfixListWith, acceptPostfixListWith,
      acceptPostfixWith_congr f g bound h value (by omega) self]
    cases acceptPostfixWith g self value with
    | error e => rfl
    | ok s => exact acceptPostfixListWith_congr f g bound h next (by omega) s

theorem acceptLastStatementWith_congr
    (f g : ResolveExpression → ExpressionAST → Except Fault ResolveExpression) (bound : Nat)
    (h : ∀ s sub, sub.nodeCount < bound → f s sub = g s sub) :
    ∀ (statements : StatementListAST), statements.nodeCount ≤ bound →
      ∀ self : ResolveExpression,
        acceptLastStatementWith f self statements = acceptLastStatementWith g self statements
  | StatementListAST.nil, _, _ => rfl
  | StatementListAST.cons (StatementAST.ExpressionStatement expression)
      StatementListAST.nil, hs, self => by
    rw [StatementListAST.nodeCount, StatementAST.nodeCount] at hs
    rw [acceptLastStatementWith, acceptLastStatementWith]
    exact h self expression (by omega)
  | StatementListAST.cons (StatementAST.ExpressionStatement expression)
      (StatementListAST.cons v n), hs, self => by
    rw [StatementListAST.nodeCount] at hs
    rw [acceptLastStatementWith, acceptLastStatementWith]
    exact acceptLastStatementWith_congr f g bound h (StatementListAST.cons v n) (by omega) self

theorem acceptWith_congr
    (f g : ResolveExpression → ExpressionAST → Except Fault ResolveExpression)
    (ast : ExpressionAST)
    (h : ∀ s sub, sub.nodeCount < ast.nodeCount → f s sub = g s sub)
    (self : ResolveExpression) :
    acceptWith f self ast = acceptWith g self ast := by
  cases ast with
  | BinaryExpression binary_op_token left_expression right_expression =>
    have hleft : ∀ s, f s left_expression = g s left_expression := by
      intro s
      apply h
      rw [ExpressionAST.nodeCount]
      omega
    unfold acceptWith
    simp only [hleft]
  | ConditionalExpression condition left_expression right_expression =>
    have hleft : ∀ s, f s left_expression = g s left_expression := by
      intro s
      apply h
      rw [ExpressionAST.nodeCount]
      omega
    have hright : ∀ s, f s right_expression = g s right_expression := by
      intro s
      apply h
      rw [ExpressionAST.nodeCount]
      omega
    unfold acceptWith
    simp only [hleft, hright]
  | PostfixExpression base_expression postfix_expression_list =>
    have hbase : ∀ s, f s base_expression = g s base_expression := by
      intro s
      apply h
      rw [ExpressionAST.nodeCount]
      omega
    have hlist : ∀ s, acceptPostfixListWith f s postfix_expression_list
        = acceptPostfixListWith g s postfix_expression_list := by
      intro s
      refine acceptPostfixListWith_congr f g postfix_expression_list.nodeCount ?_
        postfix_expression_list (Nat.le_refl _) s
      intro r sub hsub
      apply h
      rw [ExpressionAST.nodeCount]
      omega
    unfold acceptWith
    simp only [hbase, hlist]
  | CompoundExpression statement_list =>
    unfold acceptWith
    refine acceptLastStatementWith_congr f g statement_list.nodeCount ?_
      statement_list (Nat.le_refl _) self
    intro r sub hsub
    apply h
    rw [ExpressionAST.nodeCount]
    omega
  | NestedExpression expression =>
    unfold acceptWith
    apply h
    rw [ExpressionAST.nodeCount]
    omega
  | UnaryExpression unary_op_token expression =>
    have hsub : ∀ s, f s expression = g s expression := by
      intro s
      apply h
      rw [ExpressionAST.nodeCount]
      omega
    unfold acceptWith
    simp only [hsub]
  | ObjCMessageExpression receiver_expression selector argument_list =>
    have hfun : (fun s => f s receiver_expression) = (fun s => g s receiver_expression) := by
      funext s
      apply h
      rw [ExpressionAST.nodeCount]
      omega
    unfold acceptWith
    simp only [hfun]
  | _ => rfl

theorem acceptFuel_eq_accept
    (bottom : ResolveExpression → ExpressionAST → Except Fault ResolveExpression) :
    ∀ (fuel : Nat) (self : ResolveExpression) (ast : ExpressionAST),
      ast.nodeCount < fuel → acceptFuel bottom fuel self ast = accept self ast := by
  intro fuel
  induction fuel with
  | zero => intro self ast h; omega
  | succ n ih =>
    intro self ast h
    rw [acceptFuel, accept_eq_acceptWith]
    exact acceptWith_congr (acceptFuel bottom n) accept ast
      (fun s sub hsub => ih s sub (by omega)) self

theorem accept_unique
    (f : ResolveExpression → ExpressionAST → Except Fault ResolveExpression)
    (hf : ∀ self ast, f self ast = acceptWith f self ast) :
    ∀ (bound : Nat) (self : ResolveExpression) (ast : ExpressionAST),
      ast.nodeCount < bound → f self ast = accept self ast := by
  intro bound
  induction bound with
  | zero => intro self ast h; omega
  | succ n ih =>
    intro self ast h
    rw [hf, accept_eq_acceptWith]
    exact acceptWith_congr f accept ast (fun s sub hsub => ih s sub (by omega)) self

/-! ## The claims, concluded -/

/-- C21. For a call whose argument list holds `n` syntactic arguments (the length of the
list of its expressions), an incoming candidate with symbol `s` whose simplified type is
the function type `F` contributes exactly one candidate when `maybeValidPrototype(F, n)`
holds, and nothing otherwise.  The candidate is made of the return type of `F`, in the
simplified form in which the resolver takes every type, and of `s`; it is the return type
itself when simplification leaves it as it is.  The visit of the call node is the run of
these steps with `n` the number of the arguments, and of the arguments it depends on
their number only: a call with other argument expressions, as many, has the same
outcome. -/
theorem call_on_function_type (self : ResolveExpression) (result : LookupItem)
    (funTy : SymbolId) (arguments : ExpressionListAST) (s : SymbolId)
    (hty : (self._context.simplified result.type).type = Type_.function funTy)
    (hsym : result.lastVisibleSymbol = some s) :
    (maybeValidPrototype (self._context.symbol funTy) arguments.toList.length = true →
      callStep arguments.toList.length self result
        = self.addResultItem
            { type := self._context.simplified (self._context.symbol funTy).returnType,
              lastVisibleSymbol := some s }
      ∧ (self._results = [result] →
          acceptPostfix self (PostfixAST.Call arguments) = Except.ok { self with _results :=
            [{ type := self._context.simplified (self._context.symbol funTy).returnType,
               lastVisibleSymbol := some s }] })
      ∧ (self._context.simplified (self._context.symbol funTy).returnType
            = (self._context.symbol funTy).returnType →
          self._results = [result] →
          acceptPostfix self (PostfixAST.Call arguments) = Except.ok { self with _results :=
            [{ type := (self._context.symbol funTy).returnType,
               lastVisibleSymbol := some s }] }))
    ∧ (maybeValidPrototype (self._context.symbol funTy) arguments.toList.length = false →
        callStep arguments.toList.length self result = Except.ok self
        ∧ (self._results = [result] →
            acceptPostfix self (PostfixAST.Call arguments)
              = Except.ok { self with _results := [] }))
    ∧ acceptPostfix self (PostfixAST.Call arguments)
        = self._results.foldlM (callStep arguments.toList.length) { self with _results := [] }
    ∧ (∀ other : ExpressionListAST, other.toList.length = arguments.toList.length →
        acceptPostfix self (PostfixAST.Call other)
          = acceptPostfix self (PostfixAST.Call arguments)) := by
  refine ⟨?_, ?_, acceptPostfix_call self arguments, ?_⟩
  · intro hvalid
    have hstep : ∀ r : ResolveExpression, r._context = self._context →
        callStep arguments.toList.length r result
          = r.addResultItem
              { type := self._context.simplified (self._context.symbol funTy).returnType,
                lastVisibleSymbol := some s } := by
      intro r hr
      rw [callStep_function r result funTy _ s (by rw [hr]; exact hty) hsym, hr, hvalid]
      rfl
    have hvisit : self._results = [result] →
        acceptPostfix self (PostfixAST.Call arguments) = Except.ok { self with _results :=
          [{ type := self._context.simplified (self._context.symbol funTy).returnType,
             lastVisibleSymbol := some s }] } := by
      intro hbase
      rw [acceptPostfix_call_singleton self result arguments hbase,
        hstep { self with _results := [] } rfl]
      exact addResultItem_fresh self _ (by simp)
    refine ⟨hstep self rfl, hvisit, ?_⟩
    intro hsimp hbase
    rw [← hsimp]
    exact hvisit hbase
  · intro hinvalid
    have hstep : ∀ r : ResolveExpression, r._context = self._context →
        callStep arguments.toList.length r result = Except.ok r := by
      intro r hr
      rw [callStep_function r result funTy _ s (by rw [hr]; exact hty) hsym, hr, hinvalid]
      rfl
    refine ⟨hstep self rfl, ?_⟩
    intro hbase
    rw [acceptPostfix_call_singleton self result arguments hbase,
      hstep { self with _results := [] } rfl]
  · intro other hcount
    rw [acceptPostfix_call, acceptPostfix_call, hcount]

/-- Witness of C21: in the sample, the member function `f` is declared without parameters
and returns `void`.  The call `f()`, whose argument list is empty, gives the candidate
`void` with the symbol of the callee candidate; the call `f(42)`, with one argument, gives
nothing. -/
theorem call_on_function_type_witness :
    acceptPostfix
        { _scope := Scope.null, _context := sampleContext,
          _results := [{ type := FullySpecifiedType.ofType (Type_.function 30),
                         lastVisibleSymbol := some 30 }] }
        (PostfixAST.Call ExpressionListAST.nil)
      = Except.ok
          { _scope := Scope.null, _context := sampleContext,
            _results := [{ type := FullySpecifiedType.ofType Type_.voidType,
                           lastVisibleSymbol := some 30 }] }
    ∧ acceptPostfix
        { _scope := Scope.null, _context := sampleContext,
          _results := [{ type := FullySpecifiedType.ofType (Type_.function 30),
                         lastVisibleSymbol := some 30 }] }
        (PostfixAST.Call
          (ExpressionListAST.cons (ExpressionAST.NumericLiteral { isInt := true })
            ExpressionListAST.nil))
      = Except.ok { _scope := Scope.null, _context := sampleContext, _results := [] } :=
  ⟨((call_on_function_type
      { _scope := Scope.null, _context := sampleContext,
        _results := [{ type := FullySpecifiedType.ofType (Type_.function 30),
                       lastVisibleSymbol := some 30 }] }
      { type := FullySpecifiedType.ofType (Type_.function 30), lastVisibleSymbol := some 30 }
      30 ExpressionListAST.nil 30 rfl rfl).1 rfl).2.2 rfl rfl,
   ((call_on_function_type
      { _scope := Scope.null, _context := sampleContext,
        _results := [{ type := FullySpecifiedType.ofType (Type_.function 30),
                       lastVisibleSymbol := some 30 }] }
      { type := FullySpecifiedType.ofType (Type_.function 30), lastVisibleSymbol := some 30 }
      30
      (ExpressionListAST.cons (ExpressionAST.NumericLiteral { isInt := true })
        ExpressionListAST.nil)
      30 rfl rfl).2.1 rfl).2 rfl⟩

/-- C22. For a call with any number of arguments, an incoming candidate with symbol `s`
whose type, simplified, is the class type `C` contributes the candidate made of the named
type of the name of `C` and of `s`: the step does not read the number of arguments. -/
theorem call_on_class_type (self : ResolveExpression) (result : LookupItem)
    (classTy : SymbolId) (s : SymbolId)
    (hty : (self._context.simplified result.type).type = Type_.klass classTy)
    (hsym : result.lastVisibleSymbol = some s) (n : Nat) :
    callStep n self result
      = self.addResultItem
          { type := FullySpecifiedType.ofType
              (Type_.namedType (self._context.symbol classTy).name),
            lastVisibleSymbol := some s }
    ∧ (self._results = [result] →
        visitCall self n = Except.ok { self with _results :=
          [{ type := FullySpecifiedType.ofType
               (Type_.namedType (self._context.symbol classTy).name),
             lastVisibleSymbol := some s }] })
    ∧ (∀ m : Nat, callStep m self result = callStep n self result) := by
  have hstep : ∀ (m : Nat) (r : ResolveExpression), r._context = self._context →
      callStep m r result
        = r.addResultItem
            { type := FullySpecifiedType.ofType
                (Type_.namedType (self._context.symbol classTy).name),
              lastVisibleSymbol := some s } := by
    intro m r hr
    rw [callStep_class r result classTy m s (by rw [hr]; exact hty) hsym, hr]
  refine ⟨hstep n self rfl, ?_, ?_⟩
  · intro hbase
    rw [visitCall_singleton self result n hbase, hstep n { self with _results := [] } rfl]
    exact addResultItem_fresh self _ (by simp)
  · intro m
    rw [hstep m self rfl, hstep n self rfl]

/-- Witness of C22: in the sample, a call on a candidate of the class type `C` gives the
candidate of the named type `C`, here with three arguments, although `C` declares no
constructor. -/
theorem call_on_class_type_witness :
    visitCall { _scope := Scope.null, _context := sampleContext,
                _results := [{ type := FullySpecifiedType.ofType (Type_.klass 2),
                               lastVisibleSymbol := some 2 }] } 3
      = Except.ok
          { _scope := Scope.null, _context := sampleContext,
            _results := [{ type := FullySpecifiedType.ofType (Type_.namedType (Name.nameId "C")),
                           lastVisibleSymbol := some 2 }] } :=
  (call_on_class_type
    { _scope := Scope.null, _context := sampleContext,
      _results := [{ type := FullySpecifiedType.ofType (Type_.klass 2),
                     lastVisibleSymbol := some 2 }] }
    { type := FullySpecifiedType.ofType (Type_.klass 2), lastVisibleSymbol := some 2 }
    2 2 rfl rfl 3).2.1 rfl

/-- C23. For an array access, a base candidate with symbol `s` whose simplified type is
pointer to `element` or array of `element` contributes the candidate made of `element`, in
the simplified form in which the resolver takes every type (`element` itself when
simplification leaves it as it is), and of `s`; a base candidate
whose simplified type is neither pointer, array nor named contributes nothing.  When the
index expression resolves, what it resolves to has no influence: the outcome is the one
of the steps over the base candidates. -/
theorem array_access_on_pointer_or_array (self : ResolveExpression) (result : LookupItem)
    (s : SymbolId) (hsym : result.lastVisibleSymbol = some s) :
    (∀ element : FullySpecifiedType,
      (self._context.simplified result.type).type = Type_.pointerType element
        ∨ (self._context.simplified result.type).type = Type_.arrayType element →
      arrayStep self result
        = self.addResultItem
            { type := self._context.simplified element, lastVisibleSymbol := some s }
      ∧ (∀ (index : ExpressionAST) (indexResults : List LookupItem) (after : ResolveExpression),
          self._results = [result] →
          operatorCall { self with _results := [] } index = Except.ok (indexResults, after) →
          acceptPostfix self (PostfixAST.ArrayAccess index)
            = Except.ok { self with _results :=
                [{ type := self._context.simplified element, lastVisibleSymbol := some s }] })
      ∧ (self._context.simplified element = element →
          arrayStep self result
            = self.addResultItem { type := element, lastVisibleSymbol := some s }))
    ∧ ((∀ e, (self._context.simplified result.type).type ≠ Type_.pointerType e) →
        (∀ e, (self._context.simplified result.type).type ≠ Type_.arrayType e) →
        (∀ n, (self._context.simplified result.type).type ≠ Type_.namedType n) →
        arrayStep self result = Except.ok self)
    ∧ (∀ (index : ExpressionAST) (indexResults : List LookupItem) (after : ResolveExpression),
        operatorCall { self with _results := [] } index = Except.ok (indexResults, after) →
        acceptPostfix self (PostfixAST.ArrayAccess index)
          = self._results.foldlM arrayStep { self with _results := [] }) := by
  refine ⟨?_, arrayStep_other self result, acceptPostfix_arrayAccess self⟩
  intro element hty
  have hstep : ∀ r : ResolveExpression, r._context = self._context →
      arrayStep r result
        = r.addResultItem
            { type := self._context.simplified element, lastVisibleSymbol := some s } := by
    intro r hr
    rcases hty with h | h
    · rw [arrayStep_pointer r result element s (by rw [hr]; exact h) hsym, hr]
    · rw [arrayStep_array r result element s (by rw [hr]; exact h) hsym, hr]
  refine ⟨hstep self rfl, ?_, ?_⟩
  · intro index indexResults after hbase hindex
    rw [acceptPostfix_arrayAccess self index indexResults after hindex, hbase, foldlM_singleton,
      hstep { self with _results := [] } rfl]
    exact addResultItem_fresh self _ (by simp)
  · intro hsimp
    rw [hstep self rfl, hsimp]

/-- Witness of C23: in the sample, the array access `p[42]` on a base candidate of type
pointer to `C` gives the candidate `C` with the symbol of the base candidate; the
candidate `int` of the index does not appear. -/
theorem array_access_on_pointer_or_array_witness :
    operatorCall (ofScope Scope.null sampleContext)
        (ExpressionAST.NumericLiteral { isInt := true })
      = Except.ok ([{ type := intTy, lastVisibleSymbol := some 0 }],
          ofScope Scope.null sampleContext)
    ∧ acceptPostfix
        { _scope := Scope.null, _context := sampleContext, _results := [samplePointerToNamed] }
        (PostfixAST.ArrayAccess (ExpressionAST.NumericLiteral { isInt := true }))
      = Except.ok
          { _scope := Scope.null, _context := sampleContext,
            _results := [{ type := FullySpecifiedType.ofType (Type_.namedType (Name.nameId "C")),
                           lastVisibleSymbol := some 1 }] } :=
  ⟨rfl,
   ((array_access_on_pointer_or_array
      { _scope := Scope.null, _context := sampleContext, _results := [samplePointerToNamed] }
      samplePointerToNamed 1 rfl).1
      (FullySpecifiedType.ofType (Type_.namedType (Name.nameId "C"))) (Or.inl rfl)).2.1
      (ExpressionAST.NumericLiteral { isInt := true })
      [{ type := intTy, lastVisibleSymbol := some 0 }] (ofScope Scope.null sampleContext)
      rfl rfl⟩

/-- C24. For the dot operator, when the type of the first base candidate (simplified,
collapsed if an ambiguous function type, and decayed if the flag is supplied) is the named
type `n`, `resolveBaseExpression` returns exactly one candidate.  With `c` the first
symbol of the lookup of `n` that is a typedef of named type or a template type argument,
the candidate is the type of `c` with `c`; without such a symbol it is the named type with
the symbol of the base candidate.  The type of `c` is taken as it is, whatever it is:
one indirection only is followed. -/
theorem dot_on_named_type_follows_one_indirection (self : ResolveExpression)
    (result : LookupItem) (rest : List LookupItem) (flag : Option Bool) (n : Name)
    (hty : (decay self._context
        (collapseAmbiguous self._context (self._context.simplified result.type)) flag).1.type
      = Type_.namedType n) :
    (∀ c, firstIndirection self._context (self._context.lookup n result.lastVisibleSymbol)
        = some c →
      (resolveBaseExpression self (result :: rest) TokenKind.T_DOT flag).map Prod.fst
        = Except.ok [{ type := (self._context.symbol c).type, lastVisibleSymbol := some c }])
    ∧ (firstIndirection self._context (self._context.lookup n result.lastVisibleSymbol)
        = none →
      (resolveBaseExpression self (result :: rest) TokenKind.T_DOT flag).map Prod.fst
        = Except.ok
            [{ type := (decay self._context
                 (collapseAmbiguous self._context (self._context.simplified result.type))
                 flag).1,
               lastVisibleSymbol := result.lastVisibleSymbol }]) := by
  rw [resolveBaseExpression_dot, resolveDot_named self result _ n hty]
  constructor
  · intro c hc
    rw [hc, removeDuplicates_singleton]
    rfl
  · intro hnone
    rw [hnone, removeDuplicates_singleton]
    rfl

/-- Witness of C24: in the second sample the base of type `Alias`, a typedef of the named
type `Undeclared`, gives the one candidate `Undeclared` with the symbol of the typedef, and
`Undeclared` is not looked up in turn; in the first sample the base of type `C`, which
looks up to the class, gives the one candidate `C` with the symbol of the base. -/
theorem dot_on_named_type_follows_one_indirection_witness :
    (resolveBaseExpression (ofScope Scope.null secondContext) [sampleAliasCandidate]
        TokenKind.T_DOT none).map Prod.fst
      = Except.ok [{ type := FullySpecifiedType.ofType (Type_.namedType (Name.nameId "Undeclared")),
                     lastVisibleSymbol := some 4 }]
    ∧ (resolveBaseExpression (ofScope Scope.null sampleContext)
        [{ type := FullySpecifiedType.ofType (Type_.namedType (Name.nameId "C")),
           lastVisibleSymbol := some 1 }]
        TokenKind.T_DOT none).map Prod.fst
      = Except.ok [{ type := FullySpecifiedType.ofType (Type_.namedType (Name.nameId "C")),
                     lastVisibleSymbol := some 1 }] :=
  ⟨(dot_on_named_type_follows_one_indirection (ofScope Scope.null secondContext)
      sampleAliasCandidate [] none (Name.nameId "Alias") rfl).1 4 rfl,
   (dot_on_named_type_follows_one_indirection (ofScope Scope.null sampleContext)
      { type := FullySpecifiedType.ofType (Type_.namedType (Name.nameId "C")),
        lastVisibleSymbol := some 1 }
      [] none (Name.nameId "C") rfl).2 rfl⟩

/-- Counterexample to C25: in the third sample the type of the first candidate is the
function type of `u`, flagged ambiguous, whose return type is the function type of `v`,
flagged ambiguous too, which returns `C`.  For the dot operator `resolveBaseExpression`
returns nothing on the candidate of the type of `u`, and the candidate `C` on the same
candidate with the return type of `u` for type: the collapse is made once, so the return
type of `u` is not collapsed in the first run and is collapsed in the second. -/
theorem ambiguous_function_collapses_once :
    sampleAmbiguousOuter.type.type = Type_.function 70
    ∧ (thirdContext.symbol 70).isAmbiguous = true
    ∧ sampleAmbiguousInner = sampleAmbiguousOuter.setType (thirdContext.symbol 70).returnType
    ∧ resolveBaseExpression (ofScope Scope.null thirdContext) [sampleAmbiguousOuter]
        TokenKind.T_DOT none = Except.ok ([], none)
    ∧ resolveBaseExpression (ofScope Scope.null thirdContext) [sampleAmbiguousInner]
        TokenKind.T_DOT none = Except.ok ([sampleNamedC], none)
    ∧ resolveBaseExpression (ofScope Scope.null thirdContext) [sampleAmbiguousOuter]
        TokenKind.T_DOT none
      ≠ resolveBaseExpression (ofScope Scope.null thirdContext) [sampleAmbiguousInner]
        TokenKind.T_DOT none := by
  have houter : resolveBaseExpression (ofScope Scope.null thirdContext) [sampleAmbiguousOuter]
      TokenKind.T_DOT none = Except.ok ([], none) := rfl
  have hinner : resolveBaseExpression (ofScope Scope.null thirdContext) [sampleAmbiguousInner]
      TokenKind.T_DOT none = Except.ok ([sampleNamedC], none) := rfl
  refine ⟨rfl, rfl, rfl, houter, hinner, ?_⟩
  rw [houter, hinner]
  intro h
  cases h

/-- C25, amended. Let the simplified type of the first base candidate be a function type
flagged ambiguous.  The type is collapsed once, to the simplified return type of the
function: for every access operator and decay flag, `resolveBaseExpression` returns what
it returns for any candidate with the same symbol whose type, simplified and collapsed,
is that simplified return type.  In particular it returns the result of the same
candidate with the return type for type whenever the return type does not simplify to a
function type flagged ambiguous. -/
theorem resolveBaseExpression_collapses_ambiguous_once (self : ResolveExpression)
    (result : LookupItem) (rest : List LookupItem) (f : SymbolId) (accessOp : TokenKind)
    (flag : Option Bool)
    (hty : (self._context.simplified result.type).type = Type_.function f)
    (hamb : (self._context.symbol f).isAmbiguous = true) :
    (∀ (replaced : LookupItem) (other : List LookupItem),
      replaced.lastVisibleSymbol = result.lastVisibleSymbol →
      collapseAmbiguous self._context (self._context.simplified replaced.type)
        = self._context.simplified (self._context.symbol f).returnType →
      resolveBaseExpression self (result :: rest) accessOp flag
        = resolveBaseExpression self (replaced :: other) accessOp flag)
    ∧ ((∀ g, (self._context.simplified (self._context.symbol f).returnType).type
          = Type_.function g → (self._context.symbol g).isAmbiguous = false) →
      resolveBaseExpression self (result :: rest) accessOp flag
        = resolveBaseExpression self
            ({ result with type := (self._context.symbol f).returnType } :: rest)
            accessOp flag) := by
  have hcollapse := collapseAmbiguous_ambiguous self._context
    (self._context.simplified result.type) f hty hamb
  constructor
  · intro replaced other hsym hreplaced
    exact resolveBaseExpression_congr self result replaced rest other accessOp flag hsym.symm
      (by rw [hcollapse, hreplaced])
  · intro hplain
    refine resolveBaseExpression_congr self result _ rest rest accessOp flag rfl ?_
    rw [hcollapse]
    exact (collapseAmbiguous_not_ambiguous self._context _ hplain).symm

/-- Witness of the amended C25: in the third sample the candidate of the type of `v`, an
ambiguous function type that returns `C`, gives for the dot operator the same result as the
candidate of type `C`, namely the candidate `C`. -/
theorem resolveBaseExpression_collapses_ambiguous_once_witness :
    resolveBaseExpression (ofScope Scope.null thirdContext) [sampleAmbiguousInner]
        TokenKind.T_DOT none
      = resolveBaseExpression (ofScope Scope.null thirdContext) [sampleNamedC]
          TokenKind.T_DOT none
    ∧ resolveBaseExpression (ofScope Scope.null thirdContext) [sampleNamedC]
        TokenKind.T_DOT none = Except.ok ([sampleNamedC], none) :=
  ⟨(resolveBaseExpression_collapses_ambiguous_once (ofScope Scope.null thirdContext)
      sampleAmbiguousInner [] 71 TokenKind.T_DOT none rfl rfl).2
      (by intro g hg; cases hg),
   rfl⟩

/-- C26. For a simple name, a template-id and a qualified name, the resolver returns
exactly the candidates made of the type of `s` and of `s`, for the symbols `s` that the
lookup of the name in the current scope returns: in the order of the lookup, each
candidate at its first occurrence only, which are the candidates of the first occurrences
of the symbols.  An empty lookup result gives the empty list; a qualified-name node
without a name is not looked up and gives the empty list. -/
theorem name_resolves_to_lookup_candidates (self : ResolveExpression) (name : Name) :
    operatorCall self (ExpressionAST.NameExpression (NameAST.SimpleName name))
      = Except.ok (firstOccurrences
          ((self._context.lookupInScope name self._scope).map
            (symbolCandidate self._context)), self)
    ∧ operatorCall self (ExpressionAST.NameExpression (NameAST.TemplateId name))
      = Except.ok (firstOccurrences
          ((self._context.lookupInScope name self._scope).map
            (symbolCandidate self._context)), self)
    ∧ (name ≠ Name.null →
      operatorCall self (ExpressionAST.NameExpression (NameAST.QualifiedName name))
        = Except.ok (firstOccurrences
            ((self._context.lookupInScope name self._scope).map
              (symbolCandidate self._context)), self))
    ∧ operatorCall self (ExpressionAST.NameExpression (NameAST.QualifiedName Name.null))
      = Except.ok ([], self)
    ∧ firstOccurrences
        ((self._context.lookupInScope name self._scope).map (symbolCandidate self._context))
      = (firstOccurrences (self._context.lookupInScope name self._scope)).map
          (symbolCandidate self._context)
    ∧ (self._context.lookupInScope name self._scope = [] →
      operatorCall self (ExpressionAST.NameExpression (NameAST.SimpleName name))
        = Except.ok ([], self)
      ∧ operatorCall self (ExpressionAST.NameExpression (NameAST.TemplateId name))
        = Except.ok ([], self)
      ∧ operatorCall self (ExpressionAST.NameExpression (NameAST.QualifiedName name))
        = Except.ok ([], self)) := by
  have hsimple : operatorCall self (ExpressionAST.NameExpression (NameAST.SimpleName name))
      = Except.ok (firstOccurrences
          ((self._context.lookupInScope name self._scope).map
            (symbolCandidate self._context)), self) := by
    apply operatorCall_of_addSymbols
    rw [accept]
    rfl
  have htemplate : operatorCall self (ExpressionAST.NameExpression (NameAST.TemplateId name))
      = Except.ok (firstOccurrences
          ((self._context.lookupInScope name self._scope).map
            (symbolCandidate self._context)), self) := by
    apply operatorCall_of_addSymbols
    rw [accept]
    rfl
  have hqualified : name ≠ Name.null →
      operatorCall self (ExpressionAST.NameExpression (NameAST.QualifiedName name))
        = Except.ok (firstOccurrences
            ((self._context.lookupInScope name self._scope).map
              (symbolCandidate self._context)), self) := by
    intro hname
    apply operatorCall_of_addSymbols
    rw [accept]
    simp only [visitName, hname, if_false]
  have hnull : operatorCall self (ExpressionAST.NameExpression (NameAST.QualifiedName Name.null))
      = Except.ok ([], self) := by
    rw [operatorCall_eq, accept]
    rfl
  refine ⟨hsimple, htemplate, hqualified, hnull, ?_, ?_⟩
  · unfold firstOccurrences
    exact firstOccurrencesAfter_map (symbolCandidate self._context)
      (symbolCandidate_injective self._context) _ []
  · intro hempty
    have hnone : firstOccurrences
        ((self._context.lookupInScope name self._scope).map (symbolCandidate self._context))
        = [] := by
      rw [hempty]
      rfl
    refine ⟨by rw [hsimple, hnone], by rw [htemplate, hnone], ?_⟩
    by_cases hname : name = Name.null
    · rw [hname]
      exact hnull
    · rw [hqualified hname, hnone]

/-- Witness of C26: in the sample, the name `obj` looks up to the variable (symbol 1) and
resolves to the one candidate made of the type of the variable, the named type `C`, and of
the variable. -/
theorem name_resolves_to_lookup_candidates_witness :
    operatorCall (ofScope Scope.null sampleContext)
        (ExpressionAST.NameExpression (NameAST.QualifiedName (Name.nameId "obj")))
      = Except.ok ([{ type := FullySpecifiedType.ofType (Type_.namedType (Name.nameId "C")),
                      lastVisibleSymbol := some 1 }],
          ofScope Scope.null sampleContext) :=
  ((name_resolves_to_lookup_candidates (ofScope Scope.null sampleContext)
      (Name.nameId "obj")).2.2.1 (by decide)).trans rfl

/-- C27. Resolution terminates on every expression tree.  The visitor `accept` satisfies
the `visit` rules, and each rule calls the visitor (by `accept`, or by the nested
`operator()` of an array index and of a message receiver) on strict sub-trees of the node
only: its outcome depends on these calls at trees with fewer nodes than the node visited,
and on no other.  So the recursion is well founded on the tree: unfolding the rules to a
depth greater than the number of nodes of the tree gives the outcome of the resolver,
whatever answers a call below that depth, and the resolver is the one function that
satisfies the rules, defined on every tree. -/
theorem resolution_terminates :
    (∀ (self : ResolveExpression) (ast : ExpressionAST),
      accept self ast = acceptWith accept self ast)
    ∧ (∀ (f g : ResolveExpression → ExpressionAST → Except Fault ResolveExpression)
        (ast : ExpressionAST),
        (∀ s sub, sub.nodeCount < ast.nodeCount → f s sub = g s sub) →
        ∀ self : ResolveExpression, acceptWith f self ast = acceptWith g self ast)
    ∧ (∀ (bottom : ResolveExpression → ExpressionAST → Except Fault ResolveExpression)
        (fuel : Nat) (self : ResolveExpression) (ast : ExpressionAST),
        ast.nodeCount < fuel →
        acceptFuel bottom fuel self ast = accept self ast
        ∧ operatorCallWith (fun s => acceptFuel bottom fuel s ast) self = operatorCall self ast)
    ∧ (∀ f : ResolveExpression → ExpressionAST → Except Fault ResolveExpression,
        (∀ self ast, f self ast = acceptWith f self ast) →
        ∀ self ast, f self ast = accept self ast) := by
  refine ⟨accept_eq_acceptWith, acceptWith_congr, ?_, ?_⟩
  · intro bottom fuel self ast hfuel
    refine ⟨acceptFuel_eq_accept bottom fuel self ast hfuel, ?_⟩
    have hfun : (fun s => acceptFuel bottom fuel s ast) = (fun s => accept s ast) :=
      funext (fun s => acceptFuel_eq_accept bottom fuel s ast hfuel)
    rw [hfun]
    rfl
  · intro f hf self ast
    exact accept_unique f hf (ast.nodeCount + 1) self ast (Nat.lt_succ_self _)

/-- Witness of C27: the tree of `*obj()` has five nodes; in the sample, the rules unfolded
to the depth six give the candidate `int` of the resolver, where the calls below the bound
would abort; unfolded to the depth two they do not reach the leaves. -/
theorem resolution_terminates_witness :
    sampleDereferencedCall.nodeCount = 5
    ∧ operatorCallWith (fun s => acceptFuel outOfFuel 6 s sampleDereferencedCall)
        (ofScope Scope.null sampleContext)
      = Except.ok ([{ type := intTy, lastVisibleSymbol := some 1 }],
          ofScope Scope.null sampleContext)
    ∧ acceptFuel outOfFuel 2 (ofScope Scope.null sampleContext) sampleDereferencedCall
      = Except.error Fault.outOfRange :=
  ⟨by decide,
   ((resolution_terminates.2.2.1 outOfFuel 6 (ofScope Scope.null sampleContext)
      sampleDereferencedCall (by decide)).2).trans rfl,
   rfl⟩

/-- C28. The rule of a member-access node calls `resolveMemberExpression` without the decay
flag.  So, for the dot operator on a base whose first candidate has, simplified, a pointer
or an array type, the visit leaves the empty candidate set, for every member name, every
further base candidate and every lookup context: no decay from dot to arrow happens in the
visitor. -/
theorem member_access_dot_on_pointer_is_empty (self : ResolveExpression) (first : LookupItem)
    (rest : List LookupItem) (member_name : Option NameAST) (elementType : FullySpecifiedType)
    (hbase : self._results = first :: rest)
    (hty : (self._context.simplified first.type).type = Type_.pointerType elementType
      ∨ (self._context.simplified first.type).type = Type_.arrayType elementType) :
    acceptPostfix self (PostfixAST.MemberAccess TokenKind.T_DOT member_name)
      = Except.ok { self with _results := [] }
    ∧ (∀ (access_token : TokenKind),
        acceptPostfix self (PostfixAST.MemberAccess access_token member_name)
          = self.assignResults
              (resolveMemberExpression self self._results access_token
                (match member_name with
                 | some nameAST => nameAST.name
                 | none => Name.null)
                none)) := by
  constructor
  · rw [acceptPostfix]
    unfold visitMemberAccess
    simp only [hbase]
    rw [resolveMemberExpression_dot_pointer_or_array self first rest _ elementType hty]
    rfl
  · intro access_token
    rw [acceptPostfix]
    rfl

/-- Witness of C28: in the sample, `.m` on a base candidate of type pointer to the named
type `C` leaves no candidate, although `C` has the member `m`. -/
theorem member_access_dot_on_pointer_is_empty_witness :
    acceptPostfix
        { _scope := Scope.null, _context := sampleContext, _results := [samplePointerToNamed] }
        (PostfixAST.MemberAccess TokenKind.T_DOT (some (NameAST.SimpleName (Name.nameId "m"))))
      = Except.ok { _scope := Scope.null, _context := sampleContext, _results := [] } :=
  (member_access_dot_on_pointer_is_empty
    { _scope := Scope.null, _context := sampleContext, _results := [samplePointerToNamed] }
    samplePointerToNamed [] (some (NameAST.SimpleName (Name.nameId "m")))
    (FullySpecifiedType.ofType (Type_.namedType (Name.nameId "C"))) rfl (Or.inl rfl)).1

/-- C29. For a binary expression that is not a comma whose right operand is a bound-method
reference, the resolver returns what it returns for the left operand alone: the operator
and the right operand have no influence. -/
theorem binary_resolves_left_operand (self : ResolveExpression) (binary_op_token : TokenKind)
    (left_expression right_expression : ExpressionAST)
    (h : ¬ (binary_op_token = TokenKind.T_COMMA ∧ right_expression.isQtMethod = true)) :
    operatorCall self
        (ExpressionAST.BinaryExpression binary_op_token left_expression right_expression)
      = operatorCall self left_expression := by
  rw [operatorCall_eq, operatorCall_eq, accept]
  simp only [h, if_false]

/-- Witness of C29: in the sample, `42 + obj` and the comma expression `42, obj` resolve to
the candidate `int` of the left operand. -/
theorem binary_resolves_left_operand_witness :
    operatorCall (ofScope Scope.null sampleContext)
        (ExpressionAST.BinaryExpression TokenKind.T_PLUS
          (ExpressionAST.NumericLiteral { isInt := true })
          (ExpressionAST.NameExpression (NameAST.SimpleName (Name.nameId "obj"))))
      = Except.ok ([{ type := intTy, lastVisibleSymbol := some 0 }],
          ofScope Scope.null sampleContext)
    ∧ operatorCall (ofScope Scope.null sampleContext)
        (ExpressionAST.BinaryExpression TokenKind.T_COMMA
          (ExpressionAST.NumericLiteral { isInt := true })
          (ExpressionAST.NameExpression (NameAST.SimpleName (Name.nameId "obj"))))
      = Except.ok ([{ type := intTy, lastVisibleSymbol := some 0 }],
          ofScope Scope.null sampleContext) :=
  ⟨(binary_resolves_left_operand (ofScope Scope.null sampleContext) TokenKind.T_PLUS
      (ExpressionAST.NumericLiteral { isInt := true })
      (ExpressionAST.NameExpression (NameAST.SimpleName (Name.nameId "obj")))
      (by decide)).trans rfl,
   (binary_resolves_left_operand (ofScope Scope.null sampleContext) TokenKind.T_COMMA
      (ExpressionAST.NumericLiteral { isInt := true })
      (ExpressionAST.NameExpression (NameAST.SimpleName (Name.nameId "obj")))
      (by decide)).trans rfl⟩

/-- C30. For a unary expression whose operator is neither address-of nor dereference, the
resolver returns what it returns for the operand alone. -/
theorem unary_other_operator_resolves_operand (self : ResolveExpression)
    (unary_op_token : TokenKind) (expression : ExpressionAST)
    (hamper : unary_op_token ≠ TokenKind.T_AMPER) (hstar : unary_op_token ≠ TokenKind.T_STAR) :
    operatorCall self (ExpressionAST.UnaryExpression unary_op_token expression)
      = operatorCall self expression := by
  rw [operatorCall_eq, operatorCall_eq, accept_unary]
  cases accept { self with _results := [] } expression with
  | error e => rfl
  | ok s =>
    simp only [unaryTransform, hamper, hstar, if_false]

/-- Witness of C30: in the sample, the unary minus, the logical not and the bitwise not of
`obj` resolve to the candidate of `obj`. -/
theorem unary_other_operator_resolves_operand_witness :
    operatorCall (ofScope Scope.null sampleContext)
        (ExpressionAST.UnaryExpression TokenKind.T_MINUS
          (ExpressionAST.NameExpression (NameAST.SimpleName (Name.nameId "obj"))))
      = Except.ok ([{ type := FullySpecifiedType.ofType (Type_.namedType (Name.nameId "C")),
                      lastVisibleSymbol := some 1 }],
          ofScope Scope.null sampleContext)
    ∧ operatorCall (ofScope Scope.null sampleContext)
        (ExpressionAST.UnaryExpression TokenKind.T_EXCLAIM
          (ExpressionAST.NameExpression (NameAST.SimpleName (Name.nameId "obj"))))
      = operatorCall (ofScope Scope.null sampleContext)
          (ExpressionAST.NameExpression (NameAST.SimpleName (Name.nameId "obj")))
    ∧ operatorCall (ofScope Scope.null sampleContext)
        (ExpressionAST.UnaryExpression TokenKind.T_TILDE
          (ExpressionAST.NameExpression (NameAST.SimpleName (Name.nameId "obj"))))
      = operatorCall (ofScope Scope.null sampleContext)
          (ExpressionAST.NameExpression (NameAST.SimpleName (Name.nameId "obj"))) :=
  ⟨(unary_other_operator_resolves_operand (ofScope Scope.null sampleContext) TokenKind.T_MINUS
      (ExpressionAST.NameExpression (NameAST.SimpleName (Name.nameId "obj")))
      (by decide) (by decide)).trans rfl,
   unary_other_operator_resolves_operand (ofScope Scope.null sampleContext) TokenKind.T_EXCLAIM
      (ExpressionAST.NameExpression (NameAST.SimpleName (Name.nameId "obj")))
      (by decide) (by decide),
   unary_other_operator_resolves_operand (ofScope Scope.null sampleContext) TokenKind.T_TILDE
      (ExpressionAST.NameExpression (NameAST.SimpleName (Name.nameId "obj")))
      (by decide) (by decide)⟩

end CPlusPlus
